import Mathlib

set_option maxRecDepth 100000

/-!
DAT205 path tracer (Embree variant): embedding and verified properties.

A shallow embedding of `src/EmbreePathtracer` (sampling.cpp, material.cpp,
HDRImage.cpp, embree.cpp, Pathtracer.cpp).  `float` is embedded as an arbitrary
linearly ordered field `F` (exact arithmetic); the transcendental library
functions are carried in a `MathOps` record, so every definition is computable
and can be evaluated over `ℚ`.
-/

namespace pathtracer

/-! ## Library functions and glm vectors -/

/-- Library functions used by the renderer that have no exact counterpart in a
field: `M_PI`, `sqrt`, `pow`, `cos`, `sin`, `acos`, the two-argument
`glm::atan(y, x)` and `FLT_MAX`. -/
structure MathOps (F : Type) where
  pi : F
  sqrt : F → F
  pow : F → F → F
  cos : F → F
  sin : F → F
  acos : F → F
  atan2 : F → F → F
  fltMax : F

/-- Embedding of `glm::vec3`. -/
@[ext]
structure Vec3 (F : Type) where
  x : F
  y : F
  z : F
deriving DecidableEq

/-- Embedding of `glm::vec4`. -/
@[ext]
structure Vec4 (F : Type) where
  x : F
  y : F
  z : F
  w : F
deriving DecidableEq

/-- Embedding of `glm::mat4`, stored by columns as in glm. -/
structure Mat4 (F : Type) where
  c0 : Vec4 F
  c1 : Vec4 F
  c2 : Vec4 F
  c3 : Vec4 F

section VecOps

variable {F : Type} [LinearOrderedField F]

/-- The constructor `vec3(s)`: all three components equal to `s`. -/
def Vec3.splat (s : F) : Vec3 F := ⟨s, s, s⟩

instance : Zero (Vec3 F) := ⟨Vec3.splat 0⟩

/-- Component-wise `vec3 + vec3`. -/
instance : Add (Vec3 F) := ⟨fun a b => ⟨a.x + b.x, a.y + b.y, a.z + b.z⟩⟩

/-- Component-wise `vec3 - vec3`. -/
instance : Sub (Vec3 F) := ⟨fun a b => ⟨a.x - b.x, a.y - b.y, a.z - b.z⟩⟩

/-- Unary minus on `vec3`. -/
instance : Neg (Vec3 F) := ⟨fun a => ⟨-a.x, -a.y, -a.z⟩⟩

/-- Component-wise `vec3 * vec3`, as in glm. -/
instance : Mul (Vec3 F) := ⟨fun a b => ⟨a.x * b.x, a.y * b.y, a.z * b.z⟩⟩

/-- The product `float * vec3` (equally `vec3 * float`). -/
def Vec3.scale (s : F) (v : Vec3 F) : Vec3 F := ⟨s * v.x, s * v.y, s * v.z⟩

/-- The quotient `vec3 / float`. -/
def Vec3.divS (v : Vec3 F) (s : F) : Vec3 F := ⟨v.x / s, v.y / s, v.z / s⟩

/-- The sum `vec3 + float`: glm adds the scalar to every component. -/
def Vec3.addS (v : Vec3 F) (s : F) : Vec3 F := ⟨v.x + s, v.y + s, v.z + s⟩

/-- Embedding of `glm::dot`. -/
def dot (a b : Vec3 F) : F := a.x * b.x + a.y * b.y + a.z * b.z

/-- Embedding of `glm::cross`. -/
def cross (a b : Vec3 F) : Vec3 F :=
  ⟨a.y * b.z - b.y * a.z, a.z * b.x - b.z * a.x, a.x * b.y - b.x * a.y⟩

/-- Embedding of `glm::length`. -/
def length (m : MathOps F) (v : Vec3 F) : F := m.sqrt (dot v v)

/-- Embedding of `glm::normalize`: the vector divided by its length. -/
def normalize (m : MathOps F) (v : Vec3 F) : Vec3 F := Vec3.divS v (m.sqrt (dot v v))

/-- Embedding of `glm::sign`. -/
def sign (a : F) : F := if 0 < a then 1 else if a < 0 then -1 else 0

/-- The product `mat4 * vec4`: the linear combination of the columns. -/
def Mat4.mulVec (a : Mat4 F) (v : Vec4 F) : Vec4 F :=
  ⟨a.c0.x * v.x + a.c1.x * v.y + a.c2.x * v.z + a.c3.x * v.w,
   a.c0.y * v.x + a.c1.y * v.y + a.c2.y * v.z + a.c3.y * v.w,
   a.c0.z * v.x + a.c1.z * v.y + a.c2.z * v.z + a.c3.z * v.w,
   a.c0.w * v.x + a.c1.w * v.y + a.c2.w * v.z + a.c3.w * v.w⟩

/-- The product `mat4 * mat4`. -/
def Mat4.mul (a b : Mat4 F) : Mat4 F :=
  ⟨a.mulVec b.c0, a.mulVec b.c1, a.mulVec b.c2, a.mulVec b.c3⟩

/-- The conversion `vec3(vec4)`: drops the fourth component. -/
def Vec4.xyz (v : Vec4 F) : Vec3 F := ⟨v.x, v.y, v.z⟩

/-- The product `vec4 * float`. -/
def Vec4.scale (v : Vec4 F) (s : F) : Vec4 F := ⟨v.x * s, v.y * s, v.z * s, v.w * s⟩

end VecOps

/-! ## sampling.cpp -/

/-- One worker's `std::mt19937`, represented by the sequence of 32-bit values
it is still going to return. -/
def Gen : Type := Nat → Fin 4294967296

section Sampling

variable {F : Type} [LinearOrderedField F]

/-- Embedding of `randf` in exact arithmetic: the next generator output divided
by `generators[..].max() = 2^32 - 1`; the generator advances by one output.
The two roundings of the source, `float(g / double(max))`, are made explicit
in `randfRounded`. -/
def randf (g : Gen) : F × Gen :=
  (((g 0).val : F) / 4294967295, fun i => g (i + 1))

/-- Embedding of `concentricSampleDisk`; the two results `*dx`, `*dy` are
returned together with the advanced generator. -/
def concentricSampleDisk (m : MathOps F) (g : Gen) : F × F × Gen :=
  let u1 : F := (randf g).1
  let g1 := (randf (F := F) g).2
  let u2 : F := (randf g1).1
  let g2 := (randf (F := F) g1).2
  let sx := 2 * u1 - 1
  let sy := 2 * u2 - 1
  if sx = 0 ∧ sy = 0 then (0, 0, g2)
  else
    let rt : F × F :=
      if sx ≥ -sy then
        (if sx > sy then (sx, if sy > 0 then sy / sx else 8 + sy / sx)
         else (sy, 2 - sx / sy))
      else
        (if sx ≤ sy then (-sx, 4 - sy / (-sx))
         else (-sy, 6 + sx / (-sy)))
    let r := rt.1
    let theta := rt.2 * (m.pi / 4)
    (r * m.cos theta, r * m.sin theta, g2)

/-- Embedding of `cosineSampleHemisphere`. -/
def cosineSampleHemisphere (m : MathOps F) (g : Gen) : Vec3 F × Gen :=
  let d := concentricSampleDisk m g
  (⟨d.1, d.2.1, m.sqrt (max 0 (1 - d.1 * d.1 - d.2.1 * d.2.1))⟩, d.2.2)

/-- Embedding of `perpendicular`. -/
def perpendicular (v : Vec3 F) : Vec3 F :=
  if |v.x| < |v.y| then ⟨0, -v.z, v.y⟩ else ⟨-v.z, 0, v.x⟩

/-- Embedding of `sameHemisphere`. -/
def sameHemisphere (i o n : Vec3 F) : Bool :=
  decide (sign (dot o n) = sign (dot i n))

/-- Embedding of the global `std::mt19937 generators[24]` as it stands when the
program starts.  The array has no initialiser and no statement of the program
seeds one of its elements, so every element is a default-constructed engine;
`fresh` is the output sequence of a default-constructed `std::mt19937`. -/
def generators (fresh : Gen) : Fin 24 → Gen := fun _ => fresh

/-- Embedding of `randf` as called by the worker whose `omp_get_thread_num()`
is `tid`: the value is drawn from `generators[tid]`, and that element alone
advances. -/
def randfOn (pool : Fin 24 → Gen) (tid : Fin 24) : F × (Fin 24 → Gen) :=
  ((randf (pool tid)).1,
   fun j => if j = tid then (randf (F := F) (pool tid)).2 else pool j)

/-- Rounding of a rational to the nearest integer, ties to the even integer:
the rounding rule of IEEE-754 arithmetic in its default mode. -/
def roundHalfEven (q : ℚ) : ℤ :=
  if q - ⌊q⌋ < 1 / 2 then ⌊q⌋
  else if 1 / 2 < q - ⌊q⌋ then ⌊q⌋ + 1
  else if ⌊q⌋ % 2 = 0 then ⌊q⌋ else ⌊q⌋ + 1

/-- The rational `q` rounded to a binary floating-point number with `prec`
significant bits (round to nearest, ties to even).  The exponent range is not
bounded; the quotients of `randf` neither overflow nor reach the subnormal
range of `double` or `float`. -/
def roundToBits (prec : ℕ) (q : ℚ) : ℚ :=
  if q = 0 then 0
  else (roundHalfEven (q / 2 ^ (Int.log 2 |q| - (prec : ℤ) + 1)) : ℚ)
    * 2 ^ (Int.log 2 |q| - (prec : ℤ) + 1)

/-- A real value rounded to `double` (53 significant bits). -/
def toDouble (q : ℚ) : ℚ := roundToBits 53 q

/-- The conversion `float(x)` of a `double` (24 significant bits). -/
def toFloat (q : ℚ) : ℚ := roundToBits 24 q

/-- Embedding of `randf` with the two roundings of line 19 made explicit: the
generator output and `max()` convert to `double` exactly, their quotient is
rounded to `double`, and `float(...)` rounds it once more.  The definition
`randf` above is this value in exact arithmetic. -/
def randfRounded (g : Gen) : ℚ × Gen :=
  (toFloat (toDouble (((g 0).val : ℚ) / 4294967295)), fun i => g (i + 1))

end Sampling

/-! ## material.cpp -/

/-- The BRDF class hierarchy of material.h as a closed variant type.
`BlinnPhong` carries its optional `refraction_layer` (`none` is `NULL`);
`BlinnPhongMetal` is the subclass constructed without a layer. -/
inductive BRDF (F : Type) where
  | Diffuse (color : Vec3 F) : BRDF F
  | BlinnPhong (shininess R0 : F) (refraction_layer : Option (BRDF F)) : BRDF F
  | BlinnPhongMetal (color : Vec3 F) (shininess R0 : F) : BRDF F
  | LinearBlend (w : F) (bsdf0 bsdf1 : BRDF F) : BRDF F

/-- Result of a `sample_wi` call: the returned weight, the contents of the
reference parameters `wi` and `p` after the call, and the advanced generator. -/
structure Sample (F : Type) where
  weight : Vec3 F
  wi : Vec3 F
  p : F
  gen : Gen

section Material

variable {F : Type} [LinearOrderedField F]

/-- Embedding of `Diffuse::f`. -/
def Diffuse.f (m : MathOps F) (color wi wo n : Vec3 F) : Vec3 F :=
  if dot wi n ≤ 0 then Vec3.splat 0
  else if !sameHemisphere wi wo n then Vec3.splat 0
  else Vec3.scale (1 / m.pi) color

/-- Embedding of `Diffuse::sample_wi`.  `wi0` and `p0` are the contents of the
reference parameters on entry; both are overwritten. -/
def Diffuse.sample_wi (m : MathOps F) (color : Vec3 F) (_wi0 wo n : Vec3 F) (_p0 : F)
    (g : Gen) : Sample F :=
  let tangent := normalize m (perpendicular n)
  let bitangent := normalize m (cross tangent n)
  let sample := (cosineSampleHemisphere m g).1
  let g1 := (cosineSampleHemisphere m g).2
  let wi := normalize m
    (Vec3.scale sample.x tangent + Vec3.scale sample.y bitangent + Vec3.scale sample.z n)
  let p := if dot wi n ≤ 0 then 0 else max 0 (dot n wi) / m.pi
  ⟨Diffuse.f m color wi wo n, wi, p, g1⟩

/-- The Schlick term `R0 + (1 - R0) * pow(1 - |wh . wi|, 5)` computed in
`refraction_brdf`, `reflection_brdf` and `BlinnPhong::sample_wi`. -/
def fresnel (m : MathOps F) (R0 : F) (wh wi : Vec3 F) : F :=
  R0 + (1 - R0) * m.pow (1 - |dot wh wi|) 5

/-- Embedding of `BlinnPhong::reflection_brdf`. -/
def BlinnPhong.reflection_brdf (m : MathOps F) (shininess R0 : F) (wi wo n : Vec3 F) :
    Vec3 F :=
  if dot n wi ≤ 0 then Vec3.splat 0
  else
    let wh := normalize m (wi + wo)
    let NWh := dot n wh
    let NWi := dot n wi
    let WoWh := dot wo wh
    let NWo := dot n wo
    let Fr := fresnel m R0 wh wi
    let s := m.pow NWh shininess
    let a2 := shininess + 2
    let D := (a2 / (2 * m.pi)) * s
    let m1 := 2 * (NWh * NWo / WoWh)
    let m2 := 2 * (NWh * NWi / WoWh)
    let G := min 1 (min m1 m2)
    if NWo ≤ 0 ∨ NWi ≤ 0 then Vec3.splat 0
    else Vec3.splat (Fr * D * G / (4 * NWo * NWi))

/-- Embedding of `BlinnPhongMetal::reflection_brdf`. -/
def BlinnPhongMetal.reflection_brdf (m : MathOps F) (color : Vec3 F) (shininess R0 : F)
    (wi wo n : Vec3 F) : Vec3 F :=
  BlinnPhong.reflection_brdf m shininess R0 wi wo n * color

/-- Embedding of `BlinnPhong::refraction_brdf`; `layer_f` is the `f` of the
attached `refraction_layer`, `none` when the pointer is `NULL`. -/
def BlinnPhong.refraction_brdf (m : MathOps F) (R0 : F)
    (layer_f : Option (Vec3 F → Vec3 F → Vec3 F → Vec3 F)) (wi wo n : Vec3 F) : Vec3 F :=
  match layer_f with
  | some lf =>
      let wh := normalize m (wi + wo)
      Vec3.splat (1 - fresnel m R0 wh wi) * lf wi wo n
  | none => Vec3.splat 0

/-- Embedding of `BlinnPhongMetal::refraction_brdf`. -/
def BlinnPhongMetal.refraction_brdf (_wi _wo _n : Vec3 F) : Vec3 F := Vec3.splat 0

/-- Embedding of the virtual `f`: `Diffuse::f`, `BlinnPhong::f` (the sum of
the virtual `reflection_brdf` and `refraction_brdf`, so `BlinnPhongMetal` uses
its overrides) and `LinearBlend::f`. -/
def BRDF.f (m : MathOps F) : BRDF F → Vec3 F → Vec3 F → Vec3 F → Vec3 F
  | .Diffuse color, wi, wo, n => Diffuse.f m color wi wo n
  | .BlinnPhong shininess R0 none, wi, wo, n =>
      BlinnPhong.reflection_brdf m shininess R0 wi wo n
        + BlinnPhong.refraction_brdf m R0 none wi wo n
  | .BlinnPhong shininess R0 (some layer), wi, wo, n =>
      BlinnPhong.reflection_brdf m shininess R0 wi wo n
        + BlinnPhong.refraction_brdf m R0 (some (BRDF.f m layer)) wi wo n
  | .BlinnPhongMetal color shininess R0, wi, wo, n =>
      BlinnPhongMetal.reflection_brdf m color shininess R0 wi wo n
        + BlinnPhongMetal.refraction_brdf wi wo n
  | .LinearBlend w bsdf0 bsdf1, wi, wo, n =>
      Vec3.scale w (BRDF.f m bsdf0 wi wo n) + Vec3.scale (1 - w) (BRDF.f m bsdf1 wi wo n)

/-- Embedding of `BlinnPhong::sample_wi`.  `reflection_brdf` is the virtual
method of the node (overridden by `BlinnPhongMetal`), `layer_sample` the
`sample_wi` of the `refraction_layer` (`none` for `NULL`).  On the two early
returns the reference parameters keep their entry contents `wi0`, `p0`.
Arithmetic is exact, with `x / 0 = 0`; the IEEE value of the quotient
`p_wh / (4 * dot(wo, wh))` is given by `BlinnPhong.sample_pdf`. -/
def BlinnPhong.sample_wi (m : MathOps F) (shininess R0 : F)
    (reflection_brdf : Vec3 F → Vec3 F → Vec3 F → Vec3 F)
    (layer_sample : Option (Vec3 F → Vec3 F → Vec3 F → F → Gen → Sample F))
    (wi0 wo n : Vec3 F) (p0 : F) (g : Gen) : Sample F :=
  let tangent := normalize m (perpendicular n)
  let bitangent := normalize m (cross tangent n)
  let phi := 2 * m.pi * (randf g).1
  let g1 := (randf (F := F) g).2
  let cos_theta := m.pow (randf g1).1 (1 / (shininess + 1))
  let g2 := (randf (F := F) g1).2
  let sin_theta := m.sqrt (max 0 (1 - cos_theta * cos_theta))
  let wh := normalize m
    (Vec3.scale (sin_theta * m.cos phi) tangent
      + Vec3.scale (sin_theta * m.sin phi) bitangent
      + Vec3.scale cos_theta n)
  if dot wo n ≤ 0 then ⟨Vec3.splat 0, wi0, p0, g2⟩
  else
    let u : F := (randf g2).1
    let g3 := (randf (F := F) g2).2
    if u < 1 / 2 then
      let wi := normalize m (-wo + Vec3.scale (2 * dot wh wo) wh)
      let p_wh := (shininess + 1) * m.pow (dot n wh) shininess / (2 * m.pi)
      let p_wi := p_wh / (4 * dot wo wh)
      ⟨reflection_brdf wi wo n, wi, p_wi * (1 / 2), g3⟩
    else
      match layer_sample with
      | none => ⟨Vec3.splat 0, wi0, p0, g3⟩
      | some samp =>
          let s := samp wi0 wo n p0 g3
          let Fr := fresnel m R0 wh s.wi
          ⟨Vec3.scale (1 - Fr) s.weight, s.wi, s.p * (1 / 2), s.gen⟩

/-- Embedding of the virtual `sample_wi`: `Diffuse::sample_wi`,
`BlinnPhong::sample_wi` (inherited by `BlinnPhongMetal`, whose layer is `NULL`)
and `LinearBlend::sample_wi`, which first stores `0` in `p`. -/
def BRDF.sample_wi (m : MathOps F) :
    BRDF F → Vec3 F → Vec3 F → Vec3 F → F → Gen → Sample F
  | .Diffuse color, wi0, wo, n, p0, g => Diffuse.sample_wi m color wi0 wo n p0 g
  | .BlinnPhong shininess R0 none, wi0, wo, n, p0, g =>
      BlinnPhong.sample_wi m shininess R0 (BlinnPhong.reflection_brdf m shininess R0)
        none wi0 wo n p0 g
  | .BlinnPhong shininess R0 (some layer), wi0, wo, n, p0, g =>
      BlinnPhong.sample_wi m shininess R0 (BlinnPhong.reflection_brdf m shininess R0)
        (some (BRDF.sample_wi m layer)) wi0 wo n p0 g
  | .BlinnPhongMetal color shininess R0, wi0, wo, n, p0, g =>
      BlinnPhong.sample_wi m shininess R0
        (BlinnPhongMetal.reflection_brdf m color shininess R0) none wi0 wo n p0 g
  | .LinearBlend w bsdf0 bsdf1, wi0, wo, n, _p0, g =>
      if (randf g).1 < w then BRDF.sample_wi m bsdf0 wi0 wo n 0 (randf (F := F) g).2
      else BRDF.sample_wi m bsdf1 wi0 wo n 0 (randf (F := F) g).2

end Material

/-! ## HDRImage.cpp and embree.cpp -/

/-- Embedding of `struct HDRImage`; the texel pointer `float* data` is the
memory it addresses, read at an integer offset. -/
structure HDRImage (F : Type) where
  width : Int
  height : Int
  components : Int
  data : Int → F

/-- Embedding of the embree `Ray` of embree.h (alignment padding omitted). -/
structure Ray (F : Type) where
  o : Vec3 F
  d : Vec3 F
  tnear : F
  tfar : F
  time : F
  mask : Nat
  n : Vec3 F
  u : F
  v : F
  geomID : Nat
  primID : Nat
  instID : Nat

/-- The hit fields that `rtcIntersect` and `rtcOccluded` write into a ray. -/
structure RayHit (F : Type) where
  tfar : F
  n : Vec3 F
  u : F
  v : F
  geomID : Nat
  primID : Nat
  instID : Nat

/-- Material parameters (`labhelper::Material`) read by `Li`. -/
structure Material (F : Type) where
  m_color : Vec3 F
  m_shininess : F
  m_fresnel : F
  m_metalness : F
  m_reflectivity : F
  m_emission : F

/-- The committed Embree scene together with the model data reachable through
`map_geom_ID_to_model` and `map_geom_ID_to_mesh`: the two ray queries, the
material of a geometry and the vertex normal `k` of a primitive. -/
structure Scene (F : Type) where
  rtcIntersect : Ray F → RayHit F
  rtcOccluded : Ray F → RayHit F
  material : Nat → Material F
  normal : Nat → Nat → Nat → Vec3 F

/-- Embedding of `struct Intersection`. -/
structure Intersection (F : Type) where
  position : Vec3 F
  geometry_normal : Vec3 F
  shading_normal : Vec3 F
  wo : Vec3 F
  material : Material F

/-- The constant `RTC_INVALID_GEOMETRY_ID`. -/
def RTC_INVALID_GEOMETRY_ID : Nat := 4294967295

section Embree

variable {F : Type} [LinearOrderedField F]

/-- The default-constructed `Ray()`; the hit fields `n`, `u`, `v`, which the
constructor leaves unset, are zero. -/
def Ray.new (m : MathOps F) : Ray F :=
  { o := Vec3.splat 0, d := Vec3.splat 0, tnear := 0, tfar := m.fltMax, time := 0,
    mask := 4294967295, n := Vec3.splat 0, u := 0, v := 0,
    geomID := RTC_INVALID_GEOMETRY_ID, primID := RTC_INVALID_GEOMETRY_ID,
    instID := RTC_INVALID_GEOMETRY_ID }

/-- A ray after Embree has written the hit fields `h` into it. -/
def Ray.withHit (r : Ray F) (h : RayHit F) : Ray F :=
  { r with tfar := h.tfar, n := h.n, u := h.u, v := h.v,
           geomID := h.geomID, primID := h.primID, instID := h.instID }

/-- Embedding of `intersect`: the updated ray and the returned flag. -/
def intersect (sc : Scene F) (r : Ray F) : Ray F × Bool :=
  (r.withHit (sc.rtcIntersect r), decide ((sc.rtcIntersect r).geomID ≠ RTC_INVALID_GEOMETRY_ID))

/-- Embedding of `occluded` (the returned flag). -/
def occluded (sc : Scene F) (r : Ray F) : Bool :=
  decide ((sc.rtcOccluded r).geomID ≠ RTC_INVALID_GEOMETRY_ID)

/-- Embedding of `getIntersection`. -/
def getIntersection (m : MathOps F) (sc : Scene F) (r : Ray F) : Intersection F :=
  let n0 := sc.normal r.geomID r.primID 0
  let n1 := sc.normal r.geomID r.primID 1
  let n2 := sc.normal r.geomID r.primID 2
  let w := 1 - (r.u + r.v)
  { material := sc.material r.geomID,
    shading_normal := normalize m (Vec3.scale w n0 + Vec3.scale r.u n1 + Vec3.scale r.v n2),
    geometry_normal := -(normalize m r.n),
    position := r.o + Vec3.scale r.tfar r.d,
    wo := normalize m (-r.d) }

end Embree

section HDR

variable {F : Type} [LinearOrderedField F] [FloorRing F]

/-- The conversion `int(x)` of a float: truncation toward zero. -/
def toInt (a : F) : Int := if 0 ≤ a then ⌊a⌋ else ⌈a⌉

/-- Embedding of `HDRImage::sample`; `%` is the truncating remainder of C++. -/
def HDRImage.sample (img : HDRImage F) (u v : F) : Vec3 F :=
  let x := Int.tmod (toInt (u * (img.width : F))) img.width
  let y := Int.tmod (toInt (v * (img.height : F))) img.height
  ⟨img.data ((y * img.width + x) * 3 + 0),
   img.data ((y * img.width + x) * 3 + 1),
   img.data ((y * img.width + x) * 3 + 2)⟩

end HDR

/-! ## Pathtracer.cpp -/

/-- The `Settings` global; `main.cpp` binds the three fields to `int` sliders. -/
structure Settings where
  max_bounces : Int
  max_paths_per_pixel : Int
  subsampling : Int

/-- The `Environment` global. -/
structure Environment (F : Type) where
  multiplier : F
  map : HDRImage F

/-- The `PointLight` global. -/
structure PointLight (F : Type) where
  intensity_multiplier : F
  color : Vec3 F
  position : Vec3 F

/-- The `Image` global `rendered_image`: dimensions, sample counter and the
texel vector `data`.  The integer fields are taken without a machine bound. -/
structure Image (F : Type) where
  width : Int
  height : Int
  number_of_samples : Nat
  data : List (Vec3 F)

/-- Everything a pass reads but does not write: the library functions, the
constant `EPSILON`, `glm::inverse`, the scene, the globals `settings`,
`environment`, `point_light`, and the indeterminate contents `uninit_wi`,
`uninit_pdf` of the locals `wi` and `pdf` that `Li` declares without
initialiser. -/
structure Context (F : Type) where
  ops : MathOps F
  EPSILON : F
  inverse : Mat4 F → Mat4 F
  scene : Scene F
  settings : Settings
  environment : Environment F
  point_light : PointLight F
  uninit_wi : Vec3 F
  uninit_pdf : F

section Tracer

variable {F : Type} [LinearOrderedField F] [FloorRing F]

/-- Embedding of `restart`. -/
def restart (img : Image F) : Image F :=
  { img with number_of_samples := 0 }

/-- The call `data.resize(n)` of `std::vector`: truncate, or pad with
value-initialised (zero) texels. -/
def vectorResize (data : List (Vec3 F)) (n : Nat) : List (Vec3 F) :=
  data.take n ++ List.replicate (n - data.length) (Vec3.splat 0)

/-- Embedding of `resize`; `/` on `int` is the truncating division, and the
argument of `data.resize` is the product converted to a size (a non-negative
product in every statement proved below). -/
def resize (st : Settings) (img : Image F) (w h : Int) : Image F :=
  let width := Int.tdiv w st.subsampling
  let height := Int.tdiv h st.subsampling
  restart { img with width := width, height := height,
                     data := vectorResize img.data (width * height).toNat }

/-- Embedding of `Lenvironment`. -/
def Lenvironment (c : Context F) (wi : Vec3 F) : Vec3 F :=
  let theta := c.ops.acos (max (-1) (min 1 wi.y))
  let phi0 := c.ops.atan2 wi.z wi.x
  let phi := if phi0 < 0 then phi0 + 2 * c.ops.pi else phi0
  let lookup_x := phi / (2 * c.ops.pi)
  let lookup_y := theta / c.ops.pi
  Vec3.scale c.environment.multiplier (c.environment.map.sample lookup_x lookup_y)

/-- The material tree that `Li` builds at a hit: `reflectivity_blend`. -/
def materialTree (mat : Material F) : BRDF F :=
  let diffuse := BRDF.Diffuse mat.m_color
  let dielectric := BRDF.BlinnPhong mat.m_shininess mat.m_fresnel (some diffuse)
  let metal := BRDF.BlinnPhongMetal mat.m_color mat.m_shininess mat.m_fresnel
  let metal_blend := BRDF.LinearBlend mat.m_metalness metal dielectric
  BRDF.LinearBlend mat.m_reflectivity metal_blend diffuse

/-- The shadow ray built in the direct-illumination step of `Li`. -/
def shadowRay (c : Context F) (hit : Intersection F) : Ray F :=
  { Ray.new c.ops with
    d := normalize c.ops (Vec3.addS (c.point_light.position - hit.position) c.EPSILON),
    o := Vec3.addS hit.position c.EPSILON }

/-- The value of `L` after the direct-illumination statement of one iteration
of `Li` (lines 92 to 104), from its value `L` before. -/
def directLight (c : Context F) (hit : Intersection F) (L : Vec3 F) : Vec3 F :=
  let mat := materialTree hit.material
  if !occluded c.scene (shadowRay c hit) then
    let distance_to_light := length c.ops (c.point_light.position - hit.position)
    let falloff_factor := 1 / (distance_to_light * distance_to_light)
    let Li := Vec3.scale falloff_factor
      (Vec3.scale c.point_light.intensity_multiplier c.point_light.color)
    let wi := normalize c.ops (c.point_light.position - hit.position)
    L + Vec3.scale (max 0 (dot wi hit.shading_normal))
          (BRDF.f c.ops mat wi hit.wo hit.shading_normal * Li)
  else L

/-- The value of `L` after the emission statement (line 107). -/
def emitted (hit : Intersection F) (path_throughput L : Vec3 F) : Vec3 F :=
  L + Vec3.scale hit.material.m_emission path_throughput * hit.material.m_color

/-- The continuation ray built at the end of an iteration of `Li`. -/
def nextRay (c : Context F) (hit : Intersection F) (wi : Vec3 F) : Ray F :=
  { Ray.new c.ops with
    d := wi,
    o := hit.position + Vec3.scale c.EPSILON hit.shading_normal }

/-- The loop-carried variables of `Li` together with the worker's generator. -/
structure LoopState (F : Type) where
  L : Vec3 F
  path_throughput : Vec3 F
  current_ray : Ray F
  gen : Gen

/-- The three `return` statements inside the loop of `Li`. -/
inductive Exit where
  | pdfTooSmall : Exit
  | zeroThroughput : Exit
  | escaped : Exit
deriving DecidableEq

/-- Outcome of one iteration of the loop of `Li`: a `return` (which statement,
the returned value, the generator) or the state for the next iteration. -/
inductive Step (F : Type) where
  | ret (exit : Exit) (value : Vec3 F) (gen : Gen) : Step F
  | next (st : LoopState F) : Step F

/-- The intersection `hit` of an iteration (line 80). -/
def iterHit (c : Context F) (st : LoopState F) : Intersection F :=
  getIntersection c.ops c.scene st.current_ray

/-- The value of `L` after the direct-illumination and emission statements of
an iteration (lines 92 to 107). -/
def iterL (c : Context F) (st : LoopState F) : Vec3 F :=
  emitted (iterHit c st) st.path_throughput (directLight c (iterHit c st) st.L)

/-- The call `mat.sample_wi(wi, hit.wo, hit.shading_normal, pdf)` of an
iteration (line 113). -/
def iterSample (c : Context F) (st : LoopState F) : Sample F :=
  BRDF.sample_wi c.ops (materialTree (iterHit c st).material) c.uninit_wi
    (iterHit c st).wo (iterHit c st).shading_normal c.uninit_pdf st.gen

/-- The right-hand side of the throughput update (line 117):
`path_throughput * (brdf * cosine_term) / pdf`. -/
def iterThroughput (c : Context F) (st : LoopState F) : Vec3 F :=
  let s := iterSample c st
  let brdf := s.weight
  let cosine_term := |dot s.wi (iterHit c st).shading_normal|
  Vec3.divS (st.path_throughput * Vec3.scale cosine_term brdf) s.p

/-- One iteration of the loop of `Li` (lines 79 to 136). -/
def LiIter (c : Context F) (st : LoopState F) : Step F :=
  let hit := iterHit c st
  let L := iterL c st
  let s := iterSample c st
  if s.p < c.EPSILON then Step.ret Exit.pdfTooSmall L s.gen
  else
    let path_throughput := iterThroughput c st
    if path_throughput = Vec3.splat 0 then Step.ret Exit.zeroThroughput L s.gen
    else
      let r := intersect c.scene (nextRay c hit s.wi)
      if !r.2 then
        Step.ret Exit.escaped (L + path_throughput * Lenvironment c r.1.d) s.gen
      else Step.next ⟨L, path_throughput, r.1, s.gen⟩

/-- The loop of `Li` with `k` iterations left to run.  When no iteration is
left control reaches the statement after the loop, `return vec3(0.0f)`. -/
def LiLoop (c : Context F) : Nat → LoopState F → Vec3 F × Gen
  | 0, st => (Vec3.splat 0, st.gen)
  | k + 1, st =>
    match LiIter c st with
    | Step.ret _ value gen => (value, gen)
    | Step.next st1 => LiLoop c k st1

/-- The loop state after `k` iterations none of which executed a `return`;
`none` when one of them did. -/
def LiRun (c : Context F) : Nat → LoopState F → Option (LoopState F)
  | 0, st => some st
  | k + 1, st =>
    match LiIter c st with
    | Step.ret _ _ _ => none
    | Step.next st1 => LiRun c k st1

/-- The number of iterations of `for (size_t i = 0; i < settings.max_bounces; i++)`:
the `int` bound is converted to the 64-bit `size_t`. -/
def bounceCount (st : Settings) : Nat := (st.max_bounces % 18446744073709551616).toNat

/-- Embedding of `Li`. -/
def Li (c : Context F) (primary_ray : Ray F) (g : Gen) : Vec3 F × Gen :=
  LiLoop c (bounceCount c.settings) ⟨Vec3.splat 0, Vec3.splat 1, primary_ray, g⟩

/-- Embedding of `homogenize`. -/
def homogenize (p : Vec4 F) : Vec3 F := (Vec4.scale p (1 / p.w)).xyz

/-- The primary ray of pixel `(x, y)` as it is passed to `intersect` in
`tracePaths`: origin `camera_pos`, direction through the pixel on the virtual
screen (the random direction assigned first is overwritten). -/
def primaryRay (c : Context F) (V P : Mat4 F) (img : Image F) (x y : Nat) : Ray F :=
  let camera_pos := ((c.inverse V).mulVec ⟨0, 0, 0, 1⟩).xyz
  let screenCoord_x := (x : F) / (img.width : F)
  let screenCoord_y := (y : F) / (img.height : F)
  let viewCoord : Vec4 F := ⟨screenCoord_x * 2 - 1, screenCoord_y * 2 - 1, 1, 1⟩
  let p := homogenize ((c.inverse (P.mul V)).mulVec viewCoord)
  { Ray.new c.ops with o := camera_pos, d := normalize c.ops (p - camera_pos) }

/-- The colour `tracePaths` computes for pixel `(x, y)` (lines 172 to 195):
three `randf` calls, then `Li` when the primary ray hits the scene and
`Lenvironment` otherwise. -/
def pixelColor (c : Context F) (V P : Mat4 F) (img : Image F) (x y : Nat) (g : Gen) :
    Vec3 F × Gen :=
  let g1 := (randf (F := F) g).2
  let g2 := (randf (F := F) g1).2
  let g3 := (randf (F := F) g2).2
  let r := intersect c.scene (primaryRay c V P img x y)
  if r.2 then Li c r.1 g3 else (Lenvironment c r.1.d, g3)

/-- The running-average update of one texel (lines 197 to 200). -/
def accumulate (number_of_samples : Nat) (texel color : Vec3 F) : Vec3 F :=
  let n : F := (number_of_samples : F)
  Vec3.scale (n / (n + 1)) texel + Vec3.scale (1 / (n + 1)) color

/-- The body of the inner loop of `tracePaths` for pixel `(x, y)`, acting on
the texel vector and the generator.  The texel index `y * width + x` lies
inside the vector whenever the vector has `width * height` elements, the
length `resize` gives it. -/
def tracePixel (c : Context F) (V P : Mat4 F) (img : Image F) (y : Nat)
    (acc : List (Vec3 F) × Gen) (x : Nat) : List (Vec3 F) × Gen :=
  let pc := pixelColor c V P img x y acc.2
  let idx := ((y : Int) * img.width + (x : Int)).toNat
  (acc.1.set idx (accumulate img.number_of_samples (acc.1.getD idx (Vec3.splat 0)) pc.1), pc.2)

/-- The inner loop `for (int x = 0; x < rendered_image.width; x++)`. -/
def traceRow (c : Context F) (V P : Mat4 F) (img : Image F)
    (acc : List (Vec3 F) × Gen) (y : Nat) : List (Vec3 F) × Gen :=
  (List.range img.width.toNat).foldl (tracePixel c V P img y) acc

/-- Embedding of `tracePaths`: the cap check, then the pixels visited in loop
order by one worker (the OpenMP loop executed by a single thread, which owns
the generator), then the increment of the sample counter. -/
def tracePaths (c : Context F) (V P : Mat4 F) (st : Image F × Gen) : Image F × Gen :=
  if ((st.1.number_of_samples : Int) > c.settings.max_paths_per_pixel)
      ∧ (c.settings.max_paths_per_pixel ≠ 0) then st
  else
    let res := (List.range st.1.height.toNat).foldl (traceRow c V P st.1) (st.1.data, st.2)
    ({ st.1 with data := res.1, number_of_samples := st.1.number_of_samples + 1 }, res.2)

/-- One step of the colour log of a row: the colour `pixelColor` returns for
pixel `(x, y)` is appended and the generator advanced, exactly as in
`tracePixel`. -/
def logPixel (c : Context F) (V P : Mat4 F) (img : Image F) (y : Nat)
    (acc : List (Vec3 F) × Gen) (x : Nat) : List (Vec3 F) × Gen :=
  let pc := pixelColor c V P img x y acc.2
  (acc.1 ++ [pc.1], pc.2)

/-- The colour log of row `y`. -/
def logRow (c : Context F) (V P : Mat4 F) (img : Image F)
    (acc : List (Vec3 F) × Gen) (y : Nat) : List (Vec3 F) × Gen :=
  (List.range img.width.toNat).foldl (logPixel c V P img y) acc

/-- The colours assigned to the pixels during one uncapped `tracePaths` pass
started with generator `g`, in loop order: entry `y * width + x` is the value
of the local `color` for pixel `(x, y)`. -/
def passColors (c : Context F) (V P : Mat4 F) (img : Image F) (g : Gen) : List (Vec3 F) :=
  ((List.range img.height.toNat).foldl (logRow c V P img) ([], g)).1

/-- The sum of a list of colours. -/
def Vec3.sum (l : List (Vec3 F)) : Vec3 F := l.foldr (fun a b => a + b) (Vec3.splat 0)

/-- A sequence of consecutive `tracePaths` calls, one per `(V, P)` pair. -/
def runPasses (c : Context F) : List (Mat4 F × Mat4 F) → Image F × Gen → Image F × Gen
  | [], st => st
  | vp :: rest, st => runPasses c rest (tracePaths c vp.1 vp.2 st)

/-- The colours assigned to the pixel with texel index `idx` in each call of
`runPasses`, oldest first. -/
def pixelHistory (c : Context F) (idx : Nat) :
    List (Mat4 F × Mat4 F) → Image F × Gen → List (Vec3 F)
  | [], _ => []
  | vp :: rest, st =>
      (passColors c vp.1 vp.2 st.1 st.2).getD idx (Vec3.splat 0)
        :: pixelHistory c idx rest (tracePaths c vp.1 vp.2 st)

end Tracer

/-! ## Auxiliary definitions used in the statements -/

section AuxDefs

variable {F : Type} [LinearOrderedField F]

/-- The texel vector in which the first `cs.length` texels of `old` have been
blended with the colours `cs` and the others are untouched. -/
def blended (n : Nat) (old cs : List (Vec3 F)) : List (Vec3 F) :=
  List.zipWith (accumulate n) (old.take cs.length) cs ++ old.drop cs.length

/-- The `return` statement an iteration outcome came from, if any. -/
def Step.exitOf : Step F → Option Exit
  | Step.ret e _ _ => some e
  | Step.next _ => none

/-- The point `concentricSampleDisk` stores in `*dx`, `*dy`, as a function of
the values `u1`, `u2` returned by its two `randf` calls. -/
def concentricMap (m : MathOps F) (u1 u2 : F) : F × F :=
  let sx := 2 * u1 - 1
  let sy := 2 * u2 - 1
  if sx = 0 ∧ sy = 0 then (0, 0)
  else
    let rt : F × F :=
      if sx ≥ -sy then
        (if sx > sy then (sx, if sy > 0 then sy / sx else 8 + sy / sx)
         else (sy, 2 - sx / sy))
      else
        (if sx ≤ sy then (-sx, 4 - sy / (-sx))
         else (-sy, 6 + sx / (-sy)))
    let r := rt.1
    let theta := rt.2 * (m.pi / 4)
    (r * m.cos theta, r * m.sin theta)

/-- The vector `cosineSampleHemisphere` returns, as a function of the values
`u1`, `u2` returned by the two `randf` calls of `concentricSampleDisk`. -/
def hemisphereMap (m : MathOps F) (u1 u2 : F) : Vec3 F :=
  let d := concentricMap m u1 u2
  ⟨d.1, d.2, m.sqrt (max 0 (1 - d.1 * d.1 - d.2 * d.2))⟩

/-- The half-vector `wh` that `BlinnPhong::sample_wi` builds from its first two
`randf` calls (lines 94 to 101). -/
def BlinnPhong.sampled_wh (m : MathOps F) (shininess : F) (n : Vec3 F) (g : Gen) : Vec3 F :=
  let tangent := normalize m (perpendicular n)
  let bitangent := normalize m (cross tangent n)
  let phi := 2 * m.pi * (randf g).1
  let g1 := (randf (F := F) g).2
  let cos_theta := m.pow (randf g1).1 (1 / (shininess + 1))
  let sin_theta := m.sqrt (max 0 (1 - cos_theta * cos_theta))
  normalize m
    (Vec3.scale (sin_theta * m.cos phi) tangent
      + Vec3.scale (sin_theta * m.sin phi) bitangent
      + Vec3.scale cos_theta n)

/-- The value of the third `randf` call of `BlinnPhong::sample_wi`, which
selects the reflection branch when it is below `0.5`. -/
def BlinnPhong.selector (g : Gen) : F :=
  (randf (randf (F := F) (randf (F := F) g).2).2).1

/-- The generator after the three `randf` calls of `BlinnPhong::sample_wi`. -/
def BlinnPhong.genAfter (g : Gen) : Gen := fun i => g (i + 3)

/-- The laws of real arithmetic that the library functions are taken to obey
when a statement is made "over real arithmetic": `pi` is positive,
`cos^2 + sin^2 = 1`, `sqrt` is the non-negative root of a non-negative
argument, `pow` with exponents `1` and `5` is the corresponding power of a
non-negative base, and `pow x 0 = 1`. -/
structure MathOps.Exact (m : MathOps F) : Prop where
  pi_pos : 0 < m.pi
  cos_sq_add_sin_sq : ∀ t : F, m.cos t ^ 2 + m.sin t ^ 2 = 1
  sqrt_nonneg : ∀ a : F, 0 ≤ m.sqrt a
  sqrt_mul_self : ∀ a : F, 0 ≤ a → m.sqrt a * m.sqrt a = a
  pow_one : ∀ x : F, 0 ≤ x → m.pow x 1 = x
  pow_five : ∀ x : F, 0 ≤ x → m.pow x 5 = x ^ 5
  pow_zero : ∀ x : F, m.pow x 0 = 1

/-- The Monte-Carlo estimate `weight / pdf` formed from a sample. -/
def Sample.estimate (s : Sample F) : Vec3 F := Vec3.divS s.weight s.p

/-- The branch of `LinearBlend::sample_wi`: `a`, the result of `bsdf0`, when
the value `u` returned by `randf` is below `w`, and `b`, the result of
`bsdf1`, otherwise. -/
def LinearBlend.select {α : Type} (w u : F) (a b : α) : α := if u < w then a else b

/-- The value returned by call number `k` (counting from `0`) in a run of
consecutive `randf` calls on one generator. -/
def nthRandf : Nat → Gen → F
  | 0, g => (randf g).1
  | k + 1, g => nthRandf k (randf (F := F) g).2

/-- The value `cos_theta` that `BlinnPhong::sample_wi` computes from its second
`randf` call (line 97). -/
def BlinnPhong.cos_theta (m : MathOps F) (shininess : F) (g : Gen) : F :=
  m.pow (randf (randf (F := F) g).2).1 (1 / (shininess + 1))

/-- The texel index `y * rendered_image.width + x` of `tracePaths`. -/
def texelIndex (width x y : Int) : Int := y * width + x

end AuxDefs

/-- The value of a `float` as far as a comparison can tell: an ordinary number,
an infinity with its sign, or NaN. -/
inductive FloatValue (F : Type) where
  | num (x : F) : FloatValue F
  | inf (negative : Bool) : FloatValue F
  | nan : FloatValue F
deriving DecidableEq

section FloatPdf

variable {F : Type} [LinearOrderedField F]

/-- IEEE-754 division `a / b` of two numbers: a zero divisor gives NaN for
`a = 0` and an infinity otherwise.  `negZero` is the sign bit of the zero
divisor, which exact arithmetic does not determine. -/
def FloatValue.div (negZero : Bool) (a b : F) : FloatValue F :=
  if b = 0 then (if a = 0 then FloatValue.nan else FloatValue.inf (xor (decide (a < 0)) negZero))
  else FloatValue.num (a / b)

/-- The product `p * 0.5f`. -/
def FloatValue.half : FloatValue F → FloatValue F
  | FloatValue.num x => FloatValue.num (x * (1 / 2))
  | FloatValue.inf s => FloatValue.inf s
  | FloatValue.nan => FloatValue.nan

/-- The comparison `v < e` with a number `e`: false when `v` is NaN. -/
def FloatValue.lt (v : FloatValue F) (e : F) : Bool :=
  match v with
  | FloatValue.num x => decide (x < e)
  | FloatValue.inf s => s
  | FloatValue.nan => false

/-- The comparison `v >= e` with a number `e`: false when `v` is NaN. -/
def FloatValue.ge (v : FloatValue F) (e : F) : Bool :=
  match v with
  | FloatValue.num x => decide (e ≤ x)
  | FloatValue.inf s => !s
  | FloatValue.nan => false

/-- The value `BlinnPhong::sample_wi` leaves in `p`, with the quotient
`p_wh / (4 * dot(wo, wh))` of line 108 evaluated by IEEE division; its
operands are the exact values.  `p0` is the value of `p` on entry and
`layer_pdf` the same function of the `refraction_layer` (`none` for `NULL`). -/
def BlinnPhong.sample_pdf (m : MathOps F) (negZero : Bool) (shininess : F)
    (layer_pdf : Option (FloatValue F → Gen → FloatValue F))
    (wo n : Vec3 F) (p0 : FloatValue F) (g : Gen) : FloatValue F :=
  let wh := BlinnPhong.sampled_wh m shininess n g
  if dot wo n ≤ 0 then p0
  else if BlinnPhong.selector (F := F) g < 1 / 2 then
    let p_wh := (shininess + 1) * m.pow (dot n wh) shininess / (2 * m.pi)
    (FloatValue.div negZero p_wh (4 * dot wo wh)).half
  else
    match layer_pdf with
    | none => p0
    | some lp => (lp p0 (BlinnPhong.genAfter g)).half

/-- The value the virtual `sample_wi` leaves in `p`, as an IEEE value:
`Diffuse::sample_wi` stores a number (it divides by the constant `M_PI`
only), `BlinnPhong::sample_wi` is `BlinnPhong.sample_pdf`, and
`LinearBlend::sample_wi` stores `0` and delegates. -/
def BRDF.sample_pdf (m : MathOps F) (negZero : Bool) :
    BRDF F → Vec3 F → Vec3 F → FloatValue F → Gen → FloatValue F
  | .Diffuse color, wo, n, _, g =>
      FloatValue.num (Diffuse.sample_wi m color (Vec3.splat 0) wo n 0 g).p
  | .BlinnPhong shininess _ none, wo, n, p0, g =>
      BlinnPhong.sample_pdf m negZero shininess none wo n p0 g
  | .BlinnPhong shininess _ (some layer), wo, n, p0, g =>
      BlinnPhong.sample_pdf m negZero shininess
        (some (BRDF.sample_pdf m negZero layer wo n)) wo n p0 g
  | .BlinnPhongMetal _ shininess _, wo, n, p0, g =>
      BlinnPhong.sample_pdf m negZero shininess none wo n p0 g
  | .LinearBlend w bsdf0 bsdf1, wo, n, _, g =>
      if (randf g).1 < w then
        BRDF.sample_pdf m negZero bsdf0 wo n (FloatValue.num 0) (randf (F := F) g).2
      else BRDF.sample_pdf m negZero bsdf1 wo n (FloatValue.num 0) (randf (F := F) g).2

end FloatPdf

section AuxDefsFloor

variable {F : Type} [LinearOrderedField F] [FloorRing F]

/-- The angle `theta` computed by `Lenvironment` (line 56). -/
def Lenvironment.theta (c : Context F) (wi : Vec3 F) : F :=
  c.ops.acos (max (-1) (min 1 wi.y))

/-- The angle `phi` of `Lenvironment` after the conditional shift by `2 * M_PI`
(lines 57 to 59). -/
def Lenvironment.phi (c : Context F) (wi : Vec3 F) : F :=
  if c.ops.atan2 wi.z wi.x < 0 then c.ops.atan2 wi.z wi.x + 2 * c.ops.pi
  else c.ops.atan2 wi.z wi.x

/-- The value of `pdf` after line 113 of an iteration of `Li`, as an IEEE
value. -/
def iterPdf (c : Context F) (negZero : Bool) (st : LoopState F) : FloatValue F :=
  BRDF.sample_pdf c.ops negZero (materialTree (iterHit c st).material)
    (iterHit c st).wo (iterHit c st).shading_normal (FloatValue.num c.uninit_pdf) st.gen

/-- Whether an iteration of `Li` gets past `if (pdf < EPSILON) return L;` and
executes the division by `pdf` of line 117. -/
def reachesDivision (c : Context F) (negZero : Bool) (st : LoopState F) : Bool :=
  !(iterPdf c negZero st).lt c.EPSILON

end AuxDefsFloor

/-! ## A concrete scene over the rationals

Used to evaluate the definitions on explicit inputs: a floor `z = 0` and an
optional ceiling `z = 1`, one material, a point light, and a worker whose
generator returns the same value on every call. -/

/-- Square root on `ℚ`, exact on the squares listed. -/
def tableSqrt (q : ℚ) : ℚ :=
  if q = 1 then 1 else if q = 16 / 25 then 4 / 5 else if q = 1 / 4 then 1 / 2 else 0

/-- Rational stand-ins for the library functions: `pi` is `22/7`, `sqrt` is
`tableSqrt`, `cos` and `sin` are constantly `cos 0` and `sin 0`, `pow x y` is
`x`, `acos` and `atan` are constantly `0`. -/
def tableOps : MathOps ℚ :=
  { pi := 22 / 7, sqrt := tableSqrt, pow := fun x _ => x, cos := fun _ => 1,
    sin := fun _ => 0, acos := fun _ => 0, atan2 := fun _ _ => 0, fltMax := 1000000 }

/-- The slab scene.  A ray going down hits the floor (geometry 0, normal
`(0,0,1)`); a ray going up hits the ceiling (geometry 1, normal `(0,0,-1)`)
when `ceiling` is set and misses otherwise; a horizontal ray misses.  A shadow
ray is occluded exactly when `blocked` holds for it. -/
def slabScene (ceiling : Bool) (blocked : Ray ℚ → Bool) (mat : Material ℚ) : Scene ℚ :=
  { rtcIntersect := fun r =>
      if r.d.z < 0 then
        { tfar := r.o.z / (-r.d.z), n := ⟨0, 0, -1⟩, u := 0, v := 0,
          geomID := 0, primID := 0, instID := 0 }
      else if 0 < r.d.z ∧ ceiling = true then
        { tfar := (1 - r.o.z) / r.d.z, n := ⟨0, 0, 1⟩, u := 0, v := 0,
          geomID := 1, primID := 0, instID := 0 }
      else
        { tfar := r.tfar, n := r.n, u := r.u, v := r.v,
          geomID := RTC_INVALID_GEOMETRY_ID, primID := RTC_INVALID_GEOMETRY_ID,
          instID := RTC_INVALID_GEOMETRY_ID },
    rtcOccluded := fun r =>
      { tfar := r.tfar, n := r.n, u := r.u, v := r.v,
        geomID := if blocked r then 0 else RTC_INVALID_GEOMETRY_ID,
        primID := r.primID, instID := r.instID },
    material := fun _ => mat,
    normal := fun geomID _ _ => if geomID = 0 then ⟨0, 0, 1⟩ else ⟨0, 0, -1⟩ }

/-- A purely diffuse grey material (albedo `1/2`) with emission `e`. -/
def greyMaterial (e : ℚ) : Material ℚ :=
  { m_color := ⟨1 / 2, 1 / 2, 1 / 2⟩, m_shininess := 1, m_fresnel := 0,
    m_metalness := 0, m_reflectivity := 0, m_emission := e }

/-- A white environment map of one texel. -/
def whiteMap : HDRImage ℚ :=
  { width := 1, height := 1, components := 3, data := fun _ => 1 }

/-- The inverse of a matrix that scales the three axes and translates; stands
for `glm::inverse` on the camera matrices below. -/
def axisInverse (a : Mat4 ℚ) : Mat4 ℚ :=
  ⟨⟨1 / a.c0.x, 0, 0, 0⟩, ⟨0, 1 / a.c1.y, 0, 0⟩, ⟨0, 0, 1 / a.c2.z, 0⟩,
   ⟨-a.c3.x / a.c0.x, -a.c3.y / a.c1.y, -a.c3.z / a.c2.z, 1⟩⟩

/-- View matrix of a camera placed at `(0, 0, 1/2)`. -/
def lookDownV : Mat4 ℚ :=
  ⟨⟨1, 0, 0, 0⟩, ⟨0, 1, 0, 0⟩, ⟨0, 0, 1, 0⟩, ⟨0, 0, -1 / 2, 1⟩⟩

/-- Projection matrix under which pixel `(0, 0)` of a one-pixel image looks
straight down. -/
def lookDownP : Mat4 ℚ :=
  ⟨⟨1, 0, 0, 0⟩, ⟨0, 1, 0, 0⟩, ⟨0, 0, -1, 0⟩, ⟨-1, -1, 0, 1⟩⟩

/-- The render context of the slab scene: `EPSILON = 1/1000`, a white point
light of intensity 1 at `light`, a white environment, and the given scene and
settings; `glm::inverse` is `axisInverse`. -/
def slabContext (sc : Scene ℚ) (st : Settings) (light : Vec3 ℚ) : Context ℚ :=
  { ops := tableOps, EPSILON := 1 / 1000, inverse := axisInverse, scene := sc,
    settings := st,
    environment := { multiplier := 1, map := whiteMap },
    point_light := { intensity_multiplier := 1, color := ⟨1, 1, 1⟩,
                     position := light },
    uninit_wi := ⟨0, 0, 0⟩, uninit_pdf := 0 }

/-- A generator that returns `v` on every call; `randf` yields `4/5` for
`v = 3435973836` and `1` for `v = 4294967295`. -/
def constGen (v : Fin 4294967296) : Gen := fun _ => v

/-- An image that has never been resized: no texels, but a sample counter
left at `7`. -/
def emptyImage : Image ℚ :=
  { width := 0, height := 0, number_of_samples := 7, data := [] }

/-- A one-pixel image holding the texel `(5, 5, 5)` after `n` samples. -/
def onePixel (n : Nat) : Image ℚ :=
  { width := 1, height := 1, number_of_samples := n, data := [⟨5, 5, 5⟩] }

/-- A generator that returns `3435973836` six times and `4294967295` from
then on. -/
def switchGen : Gen := fun i => if i < 6 then 3435973836 else 4294967295

/-- A generator whose third output is `0` and whose other outputs are
`3435973836`: `randf` yields `4/5`, `4/5`, `0`, `4/5`, ... -/
def lowThirdGen : Gen := fun i => if i = 2 then 0 else 3435973836

/-- The state of a `std::mt19937` (the 32-bit Mersenne Twister `MT19937` of the
C++ standard library) after seeding with `seed`: 624 words. -/
def mtInit (seed : Nat) : List Nat :=
  (List.range 623).foldl
    (fun acc i =>
      let prev := acc.getLastD 0
      acc ++ [(1812433253 * (prev ^^^ (prev >>> 30)) + (i + 1)) % 4294967296])
    [seed % 4294967296]

/-- The state regeneration of `MT19937`, carried out in place word by word. -/
def mtTwist (st : List Nat) : List Nat :=
  (List.range 624).foldl
    (fun mt i =>
      let y := ((mt.getD i 0) &&& 2147483648) ||| ((mt.getD ((i + 1) % 624) 0) &&& 2147483647)
      let v := (mt.getD ((i + 397) % 624) 0) ^^^ (y >>> 1)
        ^^^ (if y % 2 = 1 then 2567483615 else 0)
      mt.set i v)
    st

/-- The output tempering of `MT19937`. -/
def mtTemper (y0 : Nat) : Nat :=
  let y1 := y0 ^^^ (y0 >>> 11)
  let y2 := y1 ^^^ ((y1 <<< 7) &&& 2636928640)
  let y3 := y2 ^^^ ((y2 <<< 15) &&& 4022730752)
  y3 ^^^ (y3 >>> 18)

/-- The output sequence of a `std::mt19937` seeded with `seed`; the
default-constructed engine is `mt19937 5489`, whose first output is
`3499211612` and whose output number 10000 is `4123659995`. -/
def mt19937 (seed : Nat) : Gen := fun i =>
  ⟨mtTemper (((mtTwist^[i / 624 + 1]) (mtInit seed)).getD (i % 624) 0) % 4294967296,
   Nat.mod_lt _ (by norm_num)⟩

/-- Projection matrix under which pixel `(0, 0)` of a one-pixel image looks
straight up. -/
def lookUpP : Mat4 ℚ :=
  ⟨⟨1, 0, 0, 0⟩, ⟨0, 1, 0, 0⟩, ⟨0, 0, 1, 0⟩, ⟨-1, -1, 0, 1⟩⟩

/-- A fully reflective white material (`m_reflectivity = 1`, shininess `1`,
`R0 = 0`, no emission) with the given metalness: the root blend of the
material tree never selects its diffuse child unless `randf` returns `1`. -/
def shinyMaterial (metalness : ℚ) : Material ℚ :=
  { m_color := ⟨1, 1, 1⟩, m_shininess := 1, m_fresnel := 0,
    m_metalness := metalness, m_reflectivity := 1, m_emission := 0 }

/-- A generator whose outputs number 3 and 4 are `0` and whose other outputs
are `3435973836`: `randf` yields `4/5`, `4/5`, `4/5`, `0`, `0`, `4/5`, ... -/
def zeroCosGen : Gen := fun i => if i = 3 ∨ i = 4 then 0 else 3435973836

/-- The floor alone with the fully reflective, non-metallic material: every
shadow ray is blocked, the light sits at `(0, 0, 1/2)`, `max_bounces = 8`. -/
def glossContext : Context ℚ :=
  slabContext (slabScene false (fun _ => true) (shinyMaterial 0)) ⟨8, 0, 1⟩ ⟨0, 0, 1 / 2⟩

/-- A ray that starts at `(0, 0, 1/2)` and points straight down. -/
def downRay : Ray ℚ :=
  { Ray.new tableOps with o := ⟨0, 0, 1 / 2⟩, d := ⟨0, 0, -1⟩ }

/-- The floor alone under a white sky: every shadow ray is blocked, the
material is grey with emission `e`, the light sits at `(0, 0, 1/2)`. -/
def floorContext (e : ℚ) (max_bounces max_paths_per_pixel : Int) : Context ℚ :=
  slabContext (slabScene false (fun _ => true) (greyMaterial e))
    ⟨max_bounces, max_paths_per_pixel, 1⟩ ⟨0, 0, 1 / 2⟩

/-- Floor and ceiling: shadow rays that start below `z = 1/2` are blocked, the
material is grey with emission `1`, the light sits at `(-2997/4000, 0, 1/2)`. -/
def roomContext (max_bounces : Int) : Context ℚ :=
  slabContext (slabScene true (fun r => decide (r.o.z < 1 / 2)) (greyMaterial 1))
    ⟨max_bounces, 0, 1⟩ ⟨-2997 / 4000, 0, 1 / 2⟩

/-- The loop state in which `Li` starts on `downRay` once `intersect` has
filled in its hit fields. -/
def startState (c : Context ℚ) (g : Gen) : LoopState ℚ :=
  ⟨Vec3.splat 0, Vec3.splat 1, (intersect c.scene downRay).1, g⟩

/-- The loop state at the head of the second iteration of `Li` in the room. -/
def secondBounce : LoopState ℚ :=
  match LiIter (roomContext 2) (startState (roomContext 2) (constGen 3435973836)) with
  | Step.next st1 => st1
  | Step.ret _ _ _ => startState (roomContext 2) (constGen 3435973836)

/-! ## Auxiliary lemmas -/

section Lemmas

variable {F : Type} [LinearOrderedField F]

theorem set_zipWith_step {α β : Type} (f : α → β → α) (dflt : α) (c : β) :
    ∀ (cs : List β) (old : List α), cs.length < old.length →
      (List.zipWith f (old.take cs.length) cs ++ old.drop cs.length).set cs.length
          (f ((List.zipWith f (old.take cs.length) cs ++ old.drop cs.length).getD
            cs.length dflt) c)
        = List.zipWith f (old.take (cs.length + 1)) (cs ++ [c]) ++ old.drop (cs.length + 1) := by
  intro cs
  induction cs with
  | nil =>
    intro old h
    cases old with
    | nil => simp at h
    | cons a t => simp
  | cons b cs ih =>
    intro old h
    cases old with
    | nil => simp at h
    | cons a t =>
      have h2 : cs.length < t.length := by simpa using h
      have := ih t h2
      simp only [List.length_cons, List.take_succ_cons, List.zipWith_cons_cons,
        List.drop_succ_cons, List.cons_append, List.set_cons_succ, List.getD_cons_succ]
      rw [this]

theorem texelIndex_eq (width : Int) (hw : 0 ≤ width) (y x : Nat) :
    ((y : Int) * width + (x : Int)).toNat = y * width.toNat + x := by
  obtain ⟨W, rfl⟩ := Int.eq_ofNat_of_zero_le hw
  have : ((y : Int) * (W : Int) + (x : Int)) = ((y * W + x : Nat) : Int) := by push_cast; ring
  rw [this, Int.toNat_natCast, Int.toNat_natCast]

end Lemmas

@[simp] theorem Vec3.splat_x {F : Type} (s : F) : (Vec3.splat s).x = s := rfl
@[simp] theorem Vec3.splat_y {F : Type} (s : F) : (Vec3.splat s).y = s := rfl
@[simp] theorem Vec3.splat_z {F : Type} (s : F) : (Vec3.splat s).z = s := rfl

theorem getD_zipWith_of_lt {α β γ : Type} (f : α → β → γ) (l1 : List α) (l2 : List β)
    (i : Nat) (d : γ) (d1 : α) (d2 : β) (h1 : i < l1.length) (h2 : i < l2.length) :
    (List.zipWith f l1 l2).getD i d = f (l1.getD i d1) (l2.getD i d2) := by
  have h : i < (List.zipWith f l1 l2).length := by simp; omega
  rw [List.getD_eq_getElem _ _ h, List.getD_eq_getElem _ _ h1, List.getD_eq_getElem _ _ h2,
    List.getElem_zipWith]

section VecLemmas

variable {F : Type} [LinearOrderedField F]

@[simp] theorem Vec3.add_x (a b : Vec3 F) : (a + b).x = a.x + b.x := rfl
@[simp] theorem Vec3.add_y (a b : Vec3 F) : (a + b).y = a.y + b.y := rfl
@[simp] theorem Vec3.add_z (a b : Vec3 F) : (a + b).z = a.z + b.z := rfl
@[simp] theorem Vec3.mul_x (a b : Vec3 F) : (a * b).x = a.x * b.x := rfl
@[simp] theorem Vec3.mul_y (a b : Vec3 F) : (a * b).y = a.y * b.y := rfl
@[simp] theorem Vec3.mul_z (a b : Vec3 F) : (a * b).z = a.z * b.z := rfl
@[simp] theorem Vec3.scale_x (s : F) (a : Vec3 F) : (Vec3.scale s a).x = s * a.x := rfl
@[simp] theorem Vec3.scale_y (s : F) (a : Vec3 F) : (Vec3.scale s a).y = s * a.y := rfl
@[simp] theorem Vec3.scale_z (s : F) (a : Vec3 F) : (Vec3.scale s a).z = s * a.z := rfl
@[simp] theorem Vec3.divS_x (a : Vec3 F) (s : F) : (Vec3.divS a s).x = a.x / s := rfl
@[simp] theorem Vec3.divS_y (a : Vec3 F) (s : F) : (Vec3.divS a s).y = a.y / s := rfl
@[simp] theorem Vec3.divS_z (a : Vec3 F) (s : F) : (Vec3.divS a s).z = a.z / s := rfl

theorem accumulate_zero (texel color : Vec3 F) : accumulate 0 texel color = color := by
  ext <;> simp [accumulate]

theorem scale_succ_accumulate (n : Nat) (texel color : Vec3 F) :
    Vec3.scale ((n : F) + 1) (accumulate n texel color) = Vec3.scale (n : F) texel + color := by
  have h : ((n : F) + 1) ≠ 0 := by positivity
  ext <;> simp only [accumulate, Vec3.scale_x, Vec3.scale_y, Vec3.scale_z, Vec3.add_x,
    Vec3.add_y, Vec3.add_z] <;> field_simp

theorem Vec3.add_assoc3 (a b c : Vec3 F) : a + b + c = a + (b + c) := by
  ext <;> simp [add_assoc]

theorem Vec3.add_splat_zero (a : Vec3 F) : a + Vec3.splat 0 = a := by
  ext <;> simp

theorem Vec3.scale_zero_left (a : Vec3 F) : Vec3.scale 0 a = Vec3.splat 0 := by
  ext <;> simp

theorem Vec3.splat_zero_add (a : Vec3 F) : Vec3.splat 0 + a = a := by
  ext <;> simp

end VecLemmas

section PassLemmas

variable {F : Type} [LinearOrderedField F] [FloorRing F]

theorem traceRow_log (c : Context F) (V P : Mat4 F) (img : Image F) (y : Nat)
    (old : List (Vec3 F)) :
    ∀ (k : Nat) (cs : List (Vec3 F)) (g : Gen), k ≤ img.width.toNat →
      cs.length = y * img.width.toNat → cs.length + k ≤ old.length →
      ((List.range k).foldl (tracePixel c V P img y)
          (blended img.number_of_samples old cs, g)).1
        = blended img.number_of_samples old
            ((List.range k).foldl (logPixel c V P img y) (cs, g)).1
      ∧ ((List.range k).foldl (tracePixel c V P img y)
          (blended img.number_of_samples old cs, g)).2
        = ((List.range k).foldl (logPixel c V P img y) (cs, g)).2
      ∧ ((List.range k).foldl (logPixel c V P img y) (cs, g)).1.length = cs.length + k := by
  intro k
  induction k with
  | zero => intro cs g _ _ _; simp
  | succ k ih =>
    intro cs g hk hcs hlen
    have hw : 0 ≤ img.width := by omega
    obtain ⟨h1, h2, h3⟩ := ih cs g (by omega) hcs (by omega)
    rw [List.range_succ, List.foldl_append, List.foldl_append]
    simp only [List.foldl_cons, List.foldl_nil]
    generalize hr : (List.range k).foldl (tracePixel c V P img y)
      (blended img.number_of_samples old cs, g) = r at h1 h2 ⊢
    generalize hq : (List.range k).foldl (logPixel c V P img y) (cs, g) = q at h1 h2 h3 ⊢
    obtain ⟨rd, rg⟩ := r
    obtain ⟨qc, qg⟩ := q
    simp only at h1 h2 h3
    subst h2
    subst h1
    have hidx : ((y : Int) * img.width + (k : Int)).toNat = qc.length := by
      rw [texelIndex_eq img.width hw, h3, hcs]
    refine ⟨?_, ?_, ?_⟩
    · simp only [tracePixel, logPixel, hidx, blended]
      rw [set_zipWith_step _ _ _ qc old (by omega)]
      simp
    · simp only [tracePixel, logPixel]
    · simp only [logPixel, List.length_append, List.length_singleton, h3]
      omega

theorem tracePass_log (c : Context F) (V P : Mat4 F) (img : Image F)
    (old : List (Vec3 F)) (g : Gen) :
    ∀ (k : Nat), k * img.width.toNat ≤ old.length →
      ((List.range k).foldl (traceRow c V P img) (old, g)).1
        = blended img.number_of_samples old
            ((List.range k).foldl (logRow c V P img) ([], g)).1
      ∧ ((List.range k).foldl (traceRow c V P img) (old, g)).2
        = ((List.range k).foldl (logRow c V P img) ([], g)).2
      ∧ ((List.range k).foldl (logRow c V P img) ([], g)).1.length
        = k * img.width.toNat := by
  intro k
  induction k with
  | zero => intro _; simp [blended]
  | succ k ih =>
    intro hlen
    have hk : k * img.width.toNat + img.width.toNat ≤ old.length := by
      have : (k + 1) * img.width.toNat = k * img.width.toNat + img.width.toNat := by ring
      omega
    obtain ⟨h1, h2, h3⟩ := ih (by omega)
    rw [List.range_succ, List.foldl_append, List.foldl_append]
    simp only [List.foldl_cons, List.foldl_nil]
    generalize hr : (List.range k).foldl (traceRow c V P img) (old, g) = r at h1 h2 ⊢
    generalize hq : (List.range k).foldl (logRow c V P img) ([], g) = q at h1 h2 h3 ⊢
    obtain ⟨rd, rg⟩ := r
    obtain ⟨qc, qg⟩ := q
    simp only at h1 h2 h3
    subst h2
    subst h1
    obtain ⟨e1, e2, e3⟩ :=
      traceRow_log c V P img k old img.width.toNat qc rg (le_refl _) h3 (by omega)
    refine ⟨?_, ?_, ?_⟩
    · simpa only [traceRow, logRow] using e1
    · simpa only [traceRow, logRow] using e2
    · simp only [logRow]
      rw [e3, h3]
      ring

/-- An uncapped pass blends every texel with the colour logged for it. -/
theorem tracePaths_blend (c : Context F) (V P : Mat4 F) (img : Image F) (g : Gen)
    (hlen : img.data.length = img.height.toNat * img.width.toNat)
    (hcap : ¬ (((img.number_of_samples : Int) > c.settings.max_paths_per_pixel)
      ∧ (c.settings.max_paths_per_pixel ≠ 0))) :
    (tracePaths c V P (img, g)).1.data
        = List.zipWith (accumulate img.number_of_samples) img.data (passColors c V P img g)
      ∧ (passColors c V P img g).length = img.data.length
      ∧ (tracePaths c V P (img, g)).1.number_of_samples = img.number_of_samples + 1
      ∧ (tracePaths c V P (img, g)).1.width = img.width
      ∧ (tracePaths c V P (img, g)).1.height = img.height := by
  obtain ⟨h1, _, h3⟩ := tracePass_log c V P img img.data g img.height.toNat (by omega)
  have hl : (passColors c V P img g).length = img.data.length := by
    simp only [passColors]; omega
  refine ⟨?_, hl, ?_, ?_, ?_⟩
  · simp only [tracePaths, if_neg hcap]
    rw [h1]
    simp only [blended]
    have e : ((List.range img.height.toNat).foldl (logRow c V P img) ([], g)).1
        = passColors c V P img g := rfl
    rw [e, hl]
    simp
  · simp only [tracePaths, if_neg hcap]
  · simp only [tracePaths, if_neg hcap]
  · simp only [tracePaths, if_neg hcap]

end PassLemmas

section AccumulatorTheorems

variable {F : Type} [LinearOrderedField F] [FloorRing F]

theorem tracePaths_texel (c : Context F) (V P : Mat4 F) (img : Image F) (g : Gen) (idx : Nat)
    (hlen : img.data.length = img.height.toNat * img.width.toNat)
    (hcap : ¬ (((img.number_of_samples : Int) > c.settings.max_paths_per_pixel)
      ∧ (c.settings.max_paths_per_pixel ≠ 0)))
    (hidx : idx < img.data.length) :
    (tracePaths c V P (img, g)).1.data.getD idx (Vec3.splat 0)
      = accumulate img.number_of_samples (img.data.getD idx (Vec3.splat 0))
          ((passColors c V P img g).getD idx (Vec3.splat 0)) := by
  obtain ⟨h1, h2, _⟩ := tracePaths_blend c V P img g hlen hcap
  rw [h1]
  exact getD_zipWith_of_lt _ _ _ _ _ _ _ hidx (by omega)

theorem runPasses_sum (c : Context F) (idx : Nat) :
    ∀ (cams : List (Mat4 F × Mat4 F)) (img : Image F) (g : Gen),
      img.data.length = img.height.toNat * img.width.toNat →
      (c.settings.max_paths_per_pixel = 0
        ∨ ((img.number_of_samples + cams.length : Nat) : Int)
            ≤ c.settings.max_paths_per_pixel + 1) →
      idx < img.data.length →
      Vec3.scale ((img.number_of_samples + cams.length : Nat) : F)
          ((runPasses c cams (img, g)).1.data.getD idx (Vec3.splat 0))
        = Vec3.scale (img.number_of_samples : F) (img.data.getD idx (Vec3.splat 0))
            + Vec3.sum (pixelHistory c idx cams (img, g))
      ∧ (runPasses c cams (img, g)).1.number_of_samples = img.number_of_samples + cams.length
      ∧ (pixelHistory c idx cams (img, g)).length = cams.length := by
  intro cams
  induction cams with
  | nil =>
    intro img g _ _ _
    simp [runPasses, pixelHistory, Vec3.sum, Vec3.add_splat_zero]
  | cons vp rest ih =>
    intro img g hlen hcap hidx
    have hcap1 : ¬ (((img.number_of_samples : Int) > c.settings.max_paths_per_pixel)
        ∧ (c.settings.max_paths_per_pixel ≠ 0)) := by
      rintro ⟨h1, h2⟩
      rcases hcap with h | h
      · exact h2 h
      · simp only [List.length_cons] at h
        push_cast at h
        omega
    obtain ⟨b1, b2, b3, b4, b5⟩ := tracePaths_blend c vp.1 vp.2 img g hlen hcap1
    have ht := tracePaths_texel c vp.1 vp.2 img g idx hlen hcap1 hidx
    generalize hst : tracePaths c vp.1 vp.2 (img, g) = st1 at b1 b3 b4 b5 ht
    obtain ⟨img1, g1⟩ := st1
    simp only at b1 b3 b4 b5 ht
    have hlen1 : img1.data.length = img1.height.toNat * img1.width.toNat := by
      rw [b1, b4, b5, List.length_zipWith, b2]
      simpa using hlen
    have hl1 : img1.data.length = img.data.length := by
      rw [b1, List.length_zipWith, b2]; simp
    have hcap2 : c.settings.max_paths_per_pixel = 0
        ∨ ((img1.number_of_samples + rest.length : Nat) : Int)
            ≤ c.settings.max_paths_per_pixel + 1 := by
      rcases hcap with h | h
      · exact Or.inl h
      · right
        simp only [List.length_cons] at h
        rw [b3]
        push_cast at h ⊢
        omega
    obtain ⟨i1, i2, i3⟩ := ih img1 g1 hlen1 hcap2 (by omega)
    have e : img.number_of_samples + (vp :: rest).length
        = img1.number_of_samples + rest.length := by
      rw [b3]; simp only [List.length_cons]; omega
    refine ⟨?_, ?_, ?_⟩
    · simp only [runPasses, pixelHistory, hst]
      rw [e, i1, ht, b3]
      have := scale_succ_accumulate img.number_of_samples
        (img.data.getD idx (Vec3.splat 0))
        ((passColors c vp.1 vp.2 img g).getD idx (Vec3.splat 0))
      push_cast
      rw [this]
      simp only [Vec3.sum, List.foldr_cons]
      rw [Vec3.add_assoc3]
    · simp only [runPasses, hst]
      rw [i2, b3]; simp only [List.length_cons]; omega
    · simp only [pixelHistory, hst, List.length_cons, i3]

end AccumulatorTheorems

section RunLemmas

variable {F : Type} [LinearOrderedField F] [FloorRing F]

theorem LiLoop_of_LiRun (c : Context F) :
    ∀ (k : Nat) (st st1 : LoopState F), LiRun c k st = some st1 →
      LiLoop c k st = (Vec3.splat 0, st1.gen) := by
  intro k
  induction k with
  | zero =>
    intro st st1 h
    simp only [LiRun, Option.some.injEq] at h
    subst h
    rfl
  | succ k ih =>
    intro st st1 h
    simp only [LiRun] at h
    simp only [LiLoop]
    cases hstep : LiIter c st with
    | ret e v g => rw [hstep] at h; simp at h
    | next st2 =>
      rw [hstep] at h
      exact ih st2 st1 h

end RunLemmas

theorem vectorResize_length {F : Type} [LinearOrderedField F] (data : List (Vec3 F))
    (n : Nat) : (vectorResize data n).length = n := by
  simp only [vectorResize, List.length_append, List.length_take, List.length_replicate]
  omega

/-! ## Claims about the integrator, the accumulator and the diffuse BRDF -/

/-- Claim C1, as the code behaves: when the loop of `Li` runs through all
`max_bounces` iterations without executing one of its `return` statements and
reaches the loop state `st1`, `Li` returns the zero vector (the statement
`return vec3(0.0f)` after the loop) and not the accumulated radiance `st1.L`. -/
theorem Li_exhausted_returns_zero {F : Type} [LinearOrderedField F] [FloorRing F]
    (c : Context F) (primary_ray : Ray F) (g : Gen) (st1 : LoopState F)
    (hrun : LiRun c (bounceCount c.settings)
      ⟨Vec3.splat 0, Vec3.splat 1, primary_ray, g⟩ = some st1) :
    Li c primary_ray g = (Vec3.splat 0, st1.gen) :=
  LiLoop_of_LiRun c _ _ _ hrun

/-- Witness for C1: in the room with `max_bounces = 1` the single iteration
accumulates `L = (1/2, 1/2, 1/2)` and continues, yet `Li` returns `(0, 0, 0)`. -/
theorem Li_exhausted_returns_zero_witness :
    (LiRun (roomContext 1) (bounceCount (roomContext 1).settings)
        ⟨Vec3.splat 0, Vec3.splat 1, (intersect (roomContext 1).scene downRay).1,
          constGen 3435973836⟩).map (fun st => st.L) = some ⟨1 / 2, 1 / 2, 1 / 2⟩
      ∧ (Li (roomContext 1) (intersect (roomContext 1).scene downRay).1
          (constGen 3435973836)).1 = Vec3.splat 0 := by
  refine ⟨by with_unfolding_all decide, ?_⟩
  have h : (LiRun (roomContext 1) (bounceCount (roomContext 1).settings)
      ⟨Vec3.splat 0, Vec3.splat 1, (intersect (roomContext 1).scene downRay).1,
        constGen 3435973836⟩).isSome = true := by with_unfolding_all decide
  obtain ⟨st1, h1⟩ := Option.isSome_iff_exists.mp h
  rw [Li_exhausted_returns_zero (roomContext 1) _ _ st1 h1]

/-- Claim C2, as the code behaves: in an iteration of `Li` whose shadow ray is
unoccluded the amount added to `L` for direct lighting is
`mat.f(wi_light, wo, n) * L_light * max(0, dot(wi_light, n))` with
`L_light = intensity_multiplier * color / distance^2`; the factor
`path_throughput` does not occur in it. -/
theorem direct_light_unscaled {F : Type} [LinearOrderedField F]
    (c : Context F) (st : LoopState F)
    (hocc : occluded c.scene (shadowRay c (iterHit c st)) = false) :
    directLight c (iterHit c st) st.L
      = st.L + Vec3.scale
          (max 0 (dot (normalize c.ops (c.point_light.position - (iterHit c st).position))
            (iterHit c st).shading_normal))
          (BRDF.f c.ops (materialTree (iterHit c st).material)
              (normalize c.ops (c.point_light.position - (iterHit c st).position))
              (iterHit c st).wo (iterHit c st).shading_normal
            * Vec3.scale
                (1 / (length c.ops (c.point_light.position - (iterHit c st).position)
                  * length c.ops (c.point_light.position - (iterHit c st).position)))
                (Vec3.scale c.point_light.intensity_multiplier c.point_light.color)) := by
  simp only [directLight, hocc, Bool.not_false, if_true]

/-- Witness for C2: at the second bounce in the room the throughput is
`(1/2, 1/2, 1/2)`, the shadow ray is unoccluded, and the direct term added to
`L` is `(7/11, 7/11, 7/11)`, whereas the throughput-weighted term would be
`(7/22, 7/22, 7/22)`. -/
theorem direct_light_unscaled_witness :
    secondBounce.path_throughput = ⟨1 / 2, 1 / 2, 1 / 2⟩
      ∧ occluded (roomContext 2).scene
          (shadowRay (roomContext 2) (iterHit (roomContext 2) secondBounce)) = false
      ∧ directLight (roomContext 2) (iterHit (roomContext 2) secondBounce) secondBounce.L
          = secondBounce.L + ⟨7 / 11, 7 / 11, 7 / 11⟩
      ∧ secondBounce.path_throughput * (⟨7 / 11, 7 / 11, 7 / 11⟩ : Vec3 ℚ)
          = ⟨7 / 22, 7 / 22, 7 / 22⟩ := by
  refine ⟨by with_unfolding_all decide, by with_unfolding_all decide, ?_,
    by with_unfolding_all decide⟩
  rw [direct_light_unscaled (roomContext 2) secondBounce (by with_unfolding_all decide)]
  with_unfolding_all decide

/-- Claim C3: starting from `number_of_samples = 0`, after `k >= 1` uncapped
calls of `tracePaths` every texel equals the unweighted arithmetic mean
`(c_1 + ... + c_k) / k` of the `k` colours assigned to its pixel, and
`number_of_samples` equals `k`. -/
theorem running_mean_after_passes {F : Type} [LinearOrderedField F] [FloorRing F]
    (c : Context F) (cams : List (Mat4 F × Mat4 F))
    (img : Image F) (g : Gen) (idx : Nat)
    (h0 : img.number_of_samples = 0)
    (hlen : img.data.length = img.height.toNat * img.width.toNat)
    (hk : 1 ≤ cams.length)
    (hcap : c.settings.max_paths_per_pixel = 0
      ∨ (cams.length : Int) ≤ c.settings.max_paths_per_pixel + 1)
    (hidx : idx < img.data.length) :
    (runPasses c cams (img, g)).1.data.getD idx (Vec3.splat 0)
        = Vec3.divS (Vec3.sum (pixelHistory c idx cams (img, g))) (cams.length : F)
      ∧ (pixelHistory c idx cams (img, g)).length = cams.length
      ∧ (runPasses c cams (img, g)).1.number_of_samples = cams.length := by
  have hcap1 : c.settings.max_paths_per_pixel = 0
      ∨ ((img.number_of_samples + cams.length : Nat) : Int)
          ≤ c.settings.max_paths_per_pixel + 1 := by
    rw [h0]; simpa using hcap
  obtain ⟨s1, s2, s3⟩ := runPasses_sum c idx cams img g hlen hcap1 hidx
  have hkF : (cams.length : F) ≠ 0 := by
    have : 0 < cams.length := hk
    positivity
  refine ⟨?_, s3, ?_⟩
  · rw [h0] at s1
    simp only [zero_add, Nat.cast_zero, Vec3.scale_zero_left, Vec3.splat_zero_add] at s1
    rw [← s1]
    ext <;> simp only [Vec3.divS_x, Vec3.divS_y, Vec3.divS_z, Vec3.scale_x, Vec3.scale_y,
      Vec3.scale_z] <;> field_simp
  · rw [s2, h0]; simp

/-- Witness for C3: two passes over a one-pixel image; the pixel is assigned
`(1/2, 1/2, 1/2)` and then `(0, 0, 0)`, and the texel ends at their mean. -/
theorem running_mean_after_passes_witness :
    (onePixel 0).number_of_samples = 0
      ∧ pixelHistory (floorContext 0 8 0) 0
          [(lookDownV, lookDownP), (lookDownV, lookDownP)] (onePixel 0, switchGen)
          = [⟨1 / 2, 1 / 2, 1 / 2⟩, ⟨0, 0, 0⟩]
      ∧ (runPasses (floorContext 0 8 0)
          [(lookDownV, lookDownP), (lookDownV, lookDownP)]
          (onePixel 0, switchGen)).1.data.getD 0 (Vec3.splat 0) = ⟨1 / 4, 1 / 4, 1 / 4⟩
      ∧ (runPasses (floorContext 0 8 0)
          [(lookDownV, lookDownP), (lookDownV, lookDownP)]
          (onePixel 0, switchGen)).1.number_of_samples = 2 := by
  have h := running_mean_after_passes (floorContext 0 8 0)
    [(lookDownV, lookDownP), (lookDownV, lookDownP)] (onePixel 0) switchGen 0
    (by decide) (by decide) (by decide) (by with_unfolding_all decide) (by decide)
  refine ⟨by decide, by with_unfolding_all decide, ?_, ?_⟩
  · rw [h.1]
    with_unfolding_all decide
  · rw [h.2.2]
    rfl

/-- Claim C4, as the code behaves: with a cap `N > 0` and
`number_of_samples = N` the guard `number_of_samples > N` is false, so
`tracePaths` runs one more pass: every texel is blended with a new colour and
the counter becomes `N + 1`. -/
theorem tracePaths_at_cap_runs {F : Type} [LinearOrderedField F] [FloorRing F]
    (c : Context F) (V P : Mat4 F) (img : Image F) (g : Gen)
    (hlen : img.data.length = img.height.toNat * img.width.toNat)
    (_hN : 0 < c.settings.max_paths_per_pixel)
    (hn : (img.number_of_samples : Int) = c.settings.max_paths_per_pixel) :
    (tracePaths c V P (img, g)).1.number_of_samples = img.number_of_samples + 1
      ∧ (tracePaths c V P (img, g)).1.data
          = List.zipWith (accumulate img.number_of_samples) img.data
              (passColors c V P img g) := by
  have hcap : ¬ (((img.number_of_samples : Int) > c.settings.max_paths_per_pixel)
      ∧ (c.settings.max_paths_per_pixel ≠ 0)) := by
    rintro ⟨h1, _⟩
    omega
  obtain ⟨b1, _, b3, _, _⟩ := tracePaths_blend c V P img g hlen hcap
  exact ⟨b3, b1⟩

/-- Witness for C4: cap `1`, counter `1`, one texel `(5, 5, 5)`; the call
changes the counter to `2` and the texel to `(11/4, 11/4, 11/4)`. -/
theorem tracePaths_at_cap_runs_witness :
    ((onePixel 1).number_of_samples : Int) = (floorContext 0 8 1).settings.max_paths_per_pixel
      ∧ (tracePaths (floorContext 0 8 1) lookDownV lookDownP
          (onePixel 1, constGen 3435973836)).1.number_of_samples = 2
      ∧ (onePixel 1).data = [⟨5, 5, 5⟩]
      ∧ (tracePaths (floorContext 0 8 1) lookDownV lookDownP
          (onePixel 1, constGen 3435973836)).1.data = [⟨11 / 4, 11 / 4, 11 / 4⟩] := by
  have h := tracePaths_at_cap_runs (floorContext 0 8 1) lookDownV lookDownP
    (onePixel 1) (constGen 3435973836) (by decide) (by with_unfolding_all decide)
    (by with_unfolding_all decide)
  refine ⟨by with_unfolding_all decide, h.1, rfl, ?_⟩
  rw [h.2]
  with_unfolding_all decide

/-- Claim C5: after `restart` the counter is `0`, and the next `tracePaths`
pass (which runs, the cap being non-negative) sets every texel to exactly the
colour computed for its pixel in that pass, whatever the texel held before:
the blend with `n = 0` is `old * (0/1) + (1/1) * color = color`. -/
theorem restart_then_pass_overwrites {F : Type} [LinearOrderedField F] [FloorRing F]
    (c : Context F) (V P : Mat4 F) (img : Image F) (g : Gen) (idx : Nat)
    (hlen : img.data.length = img.height.toNat * img.width.toNat)
    (hcap : 0 ≤ c.settings.max_paths_per_pixel)
    (hidx : idx < img.data.length) :
    (restart img).number_of_samples = 0
      ∧ (tracePaths c V P (restart img, g)).1.data.getD idx (Vec3.splat 0)
          = (passColors c V P (restart img) g).getD idx (Vec3.splat 0)
      ∧ ∀ texel color : Vec3 F, accumulate 0 texel color = color := by
  refine ⟨rfl, ?_, accumulate_zero⟩
  have hcap1 : ¬ ((((restart img).number_of_samples : Int) > c.settings.max_paths_per_pixel)
      ∧ (c.settings.max_paths_per_pixel ≠ 0)) := by
    rintro ⟨h1, _⟩
    simp only [restart, Nat.cast_zero] at h1
    omega
  rw [tracePaths_texel c V P (restart img) g idx hlen hcap1 hidx]
  exact accumulate_zero _ _

/-- Witness for C5: a one-pixel image holding `(5, 5, 5)` after 3 samples is
restarted; the next pass leaves exactly the new colour `(1/2, 1/2, 1/2)`. -/
theorem restart_then_pass_overwrites_witness :
    (onePixel 3).data = [⟨5, 5, 5⟩]
      ∧ (restart (onePixel 3)).number_of_samples = 0
      ∧ (passColors (floorContext 0 8 0) lookDownV lookDownP (restart (onePixel 3))
          (constGen 3435973836)).getD 0 (Vec3.splat 0) = ⟨1 / 2, 1 / 2, 1 / 2⟩
      ∧ (tracePaths (floorContext 0 8 0) lookDownV lookDownP
          (restart (onePixel 3), constGen 3435973836)).1.data.getD 0 (Vec3.splat 0)
          = ⟨1 / 2, 1 / 2, 1 / 2⟩ := by
  have h := restart_then_pass_overwrites (floorContext 0 8 0) lookDownV lookDownP
    (onePixel 3) (constGen 3435973836) 0 (by decide) (by with_unfolding_all decide)
    (by decide)
  refine ⟨rfl, h.1, by with_unfolding_all decide, ?_⟩
  rw [h.2.1]
  with_unfolding_all decide

/-- Claim C6: in an iteration of `Li` whose sampled pdf is at least `EPSILON`
the new throughput is `beta * brdfWeight * |dot(wi, n)| / pdf` in every
channel; if it is non-zero and the continuation ray in direction `wi` misses
the scene, `Li` returns `L + beta' * Lenvironment(wi)`, where `L` includes this
iteration's direct-light and emission terms. -/
theorem Li_escape_returns_environment {F : Type} [LinearOrderedField F] [FloorRing F]
    (c : Context F) (st : LoopState F) (k : Nat)
    (hpdf : c.EPSILON ≤ (iterSample c st).p)
    (hthr : iterThroughput c st ≠ Vec3.splat 0)
    (hmiss : (intersect c.scene (nextRay c (iterHit c st) (iterSample c st).wi)).2 = false) :
    (iterThroughput c st).x
        = st.path_throughput.x * (iterSample c st).weight.x
            * |dot (iterSample c st).wi (iterHit c st).shading_normal| / (iterSample c st).p
      ∧ (iterThroughput c st).y
        = st.path_throughput.y * (iterSample c st).weight.y
            * |dot (iterSample c st).wi (iterHit c st).shading_normal| / (iterSample c st).p
      ∧ (iterThroughput c st).z
        = st.path_throughput.z * (iterSample c st).weight.z
            * |dot (iterSample c st).wi (iterHit c st).shading_normal| / (iterSample c st).p
      ∧ iterL c st
        = directLight c (iterHit c st) st.L
            + Vec3.scale (iterHit c st).material.m_emission st.path_throughput
                * (iterHit c st).material.m_color
      ∧ LiLoop c (k + 1) st
        = (iterL c st + iterThroughput c st * Lenvironment c (iterSample c st).wi,
           (iterSample c st).gen) := by
  refine ⟨?_, ?_, ?_, rfl, ?_⟩
  · simp only [iterThroughput, Vec3.divS_x, Vec3.mul_x, Vec3.scale_x]; ring
  · simp only [iterThroughput, Vec3.divS_y, Vec3.mul_y, Vec3.scale_y]; ring
  · simp only [iterThroughput, Vec3.divS_z, Vec3.mul_z, Vec3.scale_z]; ring
  · have h1 : ¬ (iterSample c st).p < c.EPSILON := not_lt.mpr hpdf
    simp only [LiLoop, LiIter, if_neg h1, if_neg hthr, hmiss, Bool.not_false, if_true]
    rfl

/-- Witness for C6: on the open floor the first bounce leaves the scene; with
`L = (1/2, 1/2, 1/2)`, throughput `(1/2, 1/2, 1/2)` and a white environment
`Li` returns `(1, 1, 1)`. -/
theorem Li_escape_returns_environment_witness :
    (floorContext 1 8 0).EPSILON
        ≤ (iterSample (floorContext 1 8 0)
            (startState (floorContext 1 8 0) (constGen 3435973836))).p
      ∧ iterThroughput (floorContext 1 8 0)
          (startState (floorContext 1 8 0) (constGen 3435973836)) = ⟨1 / 2, 1 / 2, 1 / 2⟩
      ∧ iterL (floorContext 1 8 0)
          (startState (floorContext 1 8 0) (constGen 3435973836)) = ⟨1 / 2, 1 / 2, 1 / 2⟩
      ∧ (LiLoop (floorContext 1 8 0) 8
          (startState (floorContext 1 8 0) (constGen 3435973836))).1 = ⟨1, 1, 1⟩ := by
  refine ⟨by with_unfolding_all decide, by with_unfolding_all decide,
    by with_unfolding_all decide, ?_⟩
  rw [(Li_escape_returns_environment (floorContext 1 8 0)
    (startState (floorContext 1 8 0) (constGen 3435973836)) 7
    (by with_unfolding_all decide) (by with_unfolding_all decide)
    (by with_unfolding_all decide)).2.2.2.2]
  with_unfolding_all decide

/-- Claim C8: for `w, h >= 0` and subsampling `s >= 1`, `resize(w, h)` sets
`width = w div s`, `height = h div s`, the buffer length to `width * height`
and `number_of_samples` to `0`. -/
theorem resize_spec {F : Type} [LinearOrderedField F]
    (st : Settings) (img : Image F) (w h : Int)
    (hw : 0 ≤ w) (hh : 0 ≤ h) (hs : 1 ≤ st.subsampling) :
    (resize st img w h).width = w / st.subsampling
      ∧ (resize st img w h).height = h / st.subsampling
      ∧ ((resize st img w h).data.length : Int)
          = (resize st img w h).width * (resize st img w h).height
      ∧ (resize st img w h).number_of_samples = 0 := by
  have hs0 : 0 ≤ st.subsampling := by omega
  have e1 : Int.tdiv w st.subsampling = w / st.subsampling := Int.tdiv_eq_ediv hw hs0
  have e2 : Int.tdiv h st.subsampling = h / st.subsampling := Int.tdiv_eq_ediv hh hs0
  have n1 : 0 ≤ w / st.subsampling := Int.ediv_nonneg hw hs0
  have n2 : 0 ≤ h / st.subsampling := Int.ediv_nonneg hh hs0
  refine ⟨?_, ?_, ?_, ?_⟩
  · simp only [resize, restart, e1]
  · simp only [resize, restart, e2]
  · simp only [resize, restart, e1, e2, vectorResize_length]
    exact Int.toNat_of_nonneg (mul_nonneg n1 n2)
  · simp only [resize, restart]

/-- Witness for C8: resizing from `(800, 600)` to `(400, 300)` at subsampling
`2` yields a `200 x 150` buffer of `30000` texels with sample counter `0`. -/
theorem resize_spec_witness :
    (0 : Int) ≤ 400 ∧ (0 : Int) ≤ 300 ∧ (1 : Int) ≤ (Settings.mk 8 0 2).subsampling
      ∧ (resize (Settings.mk 8 0 2)
          (resize (Settings.mk 8 0 2) emptyImage 800 600) 400 300).width = 200
      ∧ (resize (Settings.mk 8 0 2)
          (resize (Settings.mk 8 0 2) emptyImage 800 600) 400 300).height = 150
      ∧ ((resize (Settings.mk 8 0 2)
          (resize (Settings.mk 8 0 2) emptyImage 800 600) 400 300).data.length : Int) = 30000
      ∧ (resize (Settings.mk 8 0 2)
          (resize (Settings.mk 8 0 2) emptyImage 800 600) 400 300).number_of_samples = 0 := by
  have h := resize_spec (Settings.mk 8 0 2) (resize (Settings.mk 8 0 2) emptyImage 800 600)
    400 300 (by decide) (by decide) (by decide)
  refine ⟨by decide, by decide, by decide, ?_, ?_, ?_, ?_⟩
  · rw [h.1]; decide
  · rw [h.2.1]; decide
  · rw [h.2.2.1, h.1, h.2.1]; decide
  · exact h.2.2.2

/-- Claim C9: `Diffuse::f(wi, wo, n)` is `color / pi` when `dot(wi, n) > 0` and
`sameHemisphere(wi, wo, n)` holds and the zero vector otherwise; in particular
it is zero for every direction `d` with `dot(d, n) <= 0`, whatever `wo` is. -/
theorem Diffuse_f_cases {F : Type} [LinearOrderedField F] (m : MathOps F) (color wi wo n : Vec3 F) :
    Diffuse.f m color wi wo n
        = (if 0 < dot wi n ∧ sameHemisphere wi wo n = true then Vec3.divS color m.pi
           else Vec3.splat 0)
      ∧ ∀ d wo1 : Vec3 F, dot d n ≤ 0 → Diffuse.f m color d wo1 n = Vec3.splat 0 := by
  constructor
  · unfold Diffuse.f
    by_cases h1 : dot wi n ≤ 0
    · have h1n : ¬ 0 < dot wi n := not_lt.mpr h1
      simp [h1, h1n]
    · have h1p : 0 < dot wi n := not_le.mp h1
      by_cases h2 : sameHemisphere wi wo n = true
      · simp [h1, h1p, h2, Vec3.scale, Vec3.divS, div_eq_inv_mul]
      · simp [h1, h1p, h2]
  · intro d wo1 hd
    simp [Diffuse.f, hd]

/-- Witness for C9: a direction below the surface, on the rationals. -/
theorem Diffuse_f_cases_witness :
    dot (⟨0, 0, -1⟩ : Vec3 ℚ) ⟨0, 0, 1⟩ ≤ 0
      ∧ Diffuse.f tableOps ⟨1, 0, 0⟩ ⟨0, 0, -1⟩ ⟨0, 0, 1⟩ ⟨0, 0, 1⟩ = Vec3.splat 0 :=
  ⟨by with_unfolding_all decide,
   (Diffuse_f_cases tableOps ⟨1, 0, 0⟩ ⟨0, 0, 1⟩ ⟨0, 0, 1⟩ ⟨0, 0, 1⟩).2 ⟨0, 0, -1⟩ ⟨0, 0, 1⟩
     (by with_unfolding_all decide)⟩

/-- Claim C10: `Diffuse::sample_wi` returns the direction obtained by normalising the
cosine-hemisphere sample expressed in the frame (tangent, bitangent, n), the
pdf `max(0, dot(n, wi)) / pi` when `dot(wi, n) > 0` and `0` otherwise, and the
weight `Diffuse::f(wi, wo, n)`; it consumes exactly two generator outputs. -/
theorem Diffuse_sample_wi_spec {F : Type} [LinearOrderedField F]
    (m : MathOps F) (color wi0 wo n : Vec3 F) (p0 : F) (g : Gen) :
    (Diffuse.sample_wi m color wi0 wo n p0 g).wi
        = normalize m
            (Vec3.scale (cosineSampleHemisphere m g).1.x (normalize m (perpendicular n))
              + Vec3.scale (cosineSampleHemisphere m g).1.y
                  (normalize m (cross (normalize m (perpendicular n)) n))
              + Vec3.scale (cosineSampleHemisphere m g).1.z n)
      ∧ (Diffuse.sample_wi m color wi0 wo n p0 g).p
        = (if 0 < dot (Diffuse.sample_wi m color wi0 wo n p0 g).wi n
           then max 0 (dot n (Diffuse.sample_wi m color wi0 wo n p0 g).wi) / m.pi
           else 0)
      ∧ (Diffuse.sample_wi m color wi0 wo n p0 g).weight
        = Diffuse.f m color (Diffuse.sample_wi m color wi0 wo n p0 g).wi wo n
      ∧ (Diffuse.sample_wi m color wi0 wo n p0 g).gen = fun i => g (i + 2) := by
  refine ⟨rfl, ?_, rfl, ?_⟩
  · simp only [Diffuse.sample_wi]
    split_ifs with h1 h2 h2
    · exact absurd h1 (not_le.mpr h2)
    · rfl
    · rfl
    · exact absurd (not_le.mp h1) h2
  · simp only [Diffuse.sample_wi, cosineSampleHemisphere, concentricSampleDisk, randf]
    split_ifs <;> rfl

/-! ## Auxiliary lemmas for the BRDF tree and the sampling utilities -/

theorem BlinnPhong_sample_wi_null_refraction {F : Type} [LinearOrderedField F] (m : MathOps F)
    (shininess R0 : F) (refl : Vec3 F → Vec3 F → Vec3 F → Vec3 F)
    (wi0 wo n : Vec3 F) (p0 : F) (g : Gen)
    (hwo : 0 < dot wo n) (hsel : (1 / 2 : F) ≤ BlinnPhong.selector g) :
    BlinnPhong.sample_wi m shininess R0 refl none wi0 wo n p0 g
      = ⟨Vec3.splat 0, wi0, p0, BlinnPhong.genAfter g⟩ := by
  have h1 : ¬ dot wo n ≤ 0 := not_le.mpr hwo
  have h2 : ¬ (randf (randf (F := F) (randf (F := F) g).2).2).1 < (1 / 2 : F) :=
    not_lt.mpr hsel
  simp only [BlinnPhong.sample_wi, if_neg h1, if_neg h2]
  rfl

theorem concentricSampleDisk_eq_map {F : Type} [LinearOrderedField F] (m : MathOps F) (g : Gen) :
    concentricSampleDisk m g
      = ((concentricMap m (randf g).1 (randf (randf (F := F) g).2).1).1,
         (concentricMap m (randf g).1 (randf (randf (F := F) g).2).1).2,
         (randf (F := F) (randf (F := F) g).2).2) := by
  simp only [concentricSampleDisk, concentricMap]
  split_ifs <;> rfl

theorem cosineSampleHemisphere_eq_map {F : Type} [LinearOrderedField F] (m : MathOps F)
    (g : Gen) :
    (cosineSampleHemisphere m g).1
      = hemisphereMap m (randf g).1 (randf (randf (F := F) g).2).1 := by
  simp only [cosineSampleHemisphere, hemisphereMap, concentricSampleDisk_eq_map]

theorem randf_mem_unit {F : Type} [LinearOrderedField F] (g : Gen) :
    (0 : F) ≤ (randf g).1 ∧ (randf g).1 ≤ (1 : F) := by
  have h : ((g 0).val : F) ≤ 4294967295 := by
    have : (g 0).val ≤ 4294967295 := by
      have := (g 0).isLt
      omega
    exact_mod_cast this
  simp only [randf]
  constructor
  · positivity
  · rw [div_le_one (by norm_num)]
    exact h

theorem concentricMap_sq {F : Type} [LinearOrderedField F] (m : MathOps F)
    (hcs : ∀ t : F, m.cos t ^ 2 + m.sin t ^ 2 = 1) (u1 u2 : F)
    (h1 : 0 ≤ u1) (h1' : u1 ≤ 1) (h2 : 0 ≤ u2) (h2' : u2 ≤ 1) :
    (concentricMap m u1 u2).1 ^ 2 + (concentricMap m u1 u2).2 ^ 2 ≤ 1 := by
  have key : ∀ r t : F, -1 ≤ r → r ≤ 1 → (r * m.cos t) ^ 2 + (r * m.sin t) ^ 2 ≤ 1 := by
    intro r t hr hr'
    have e : (r * m.cos t) ^ 2 + (r * m.sin t) ^ 2 = r ^ 2 * (m.cos t ^ 2 + m.sin t ^ 2) := by
      ring
    rw [e, hcs, mul_one]
    nlinarith
  simp only [concentricMap]
  split_ifs
  · norm_num
  all_goals (apply key <;> linarith)

theorem hemisphereMap_unit {F : Type} [LinearOrderedField F] (m : MathOps F)
    (hcs : ∀ t : F, m.cos t ^ 2 + m.sin t ^ 2 = 1)
    (hs0 : ∀ a : F, 0 ≤ m.sqrt a)
    (hs : ∀ a : F, 0 ≤ a → m.sqrt a * m.sqrt a = a) (u1 u2 : F)
    (h1 : 0 ≤ u1) (h1' : u1 ≤ 1) (h2 : 0 ≤ u2) (h2' : u2 ≤ 1) :
    0 ≤ (hemisphereMap m u1 u2).z
      ∧ (hemisphereMap m u1 u2).x ^ 2 + (hemisphereMap m u1 u2).y ^ 2
          + (hemisphereMap m u1 u2).z ^ 2 = 1
      ∧ (hemisphereMap m u1 u2).z
          = m.sqrt (max 0 (1 - (hemisphereMap m u1 u2).x ^ 2 - (hemisphereMap m u1 u2).y ^ 2)) := by
  have hd := concentricMap_sq m hcs u1 u2 h1 h1' h2 h2'
  simp only [hemisphereMap]
  refine ⟨hs0 _, ?_, ?_⟩
  · have hmax : max 0 (1 - (concentricMap m u1 u2).1 * (concentricMap m u1 u2).1
        - (concentricMap m u1 u2).2 * (concentricMap m u1 u2).2)
        = 1 - (concentricMap m u1 u2).1 * (concentricMap m u1 u2).1
          - (concentricMap m u1 u2).2 * (concentricMap m u1 u2).2 := by
      apply max_eq_right
      nlinarith
    rw [hmax, pow_two (m.sqrt _), hs _ (by nlinarith)]
    ring
  · congr 2
    ring

theorem BlinnPhong_sample_wi_reflection {F : Type} [LinearOrderedField F] (m : MathOps F)
    (shininess R0 : F) (refl : Vec3 F → Vec3 F → Vec3 F → Vec3 F)
    (layer : Option (Vec3 F → Vec3 F → Vec3 F → F → Gen → Sample F))
    (wi0 wo n : Vec3 F) (p0 : F) (g : Gen)
    (hwo : 0 < dot wo n) (hsel : BlinnPhong.selector g < (1 / 2 : F)) :
    BlinnPhong.sample_wi m shininess R0 refl layer wi0 wo n p0 g
      = ⟨refl (normalize m (-wo + Vec3.scale
            (2 * dot (BlinnPhong.sampled_wh m shininess n g) wo)
            (BlinnPhong.sampled_wh m shininess n g))) wo n,
         normalize m (-wo + Vec3.scale
            (2 * dot (BlinnPhong.sampled_wh m shininess n g) wo)
            (BlinnPhong.sampled_wh m shininess n g)),
         (shininess + 1)
            * m.pow (dot n (BlinnPhong.sampled_wh m shininess n g)) shininess / (2 * m.pi)
            / (4 * dot wo (BlinnPhong.sampled_wh m shininess n g)) * (1 / 2),
         BlinnPhong.genAfter g⟩ := by
  have h1 : ¬ dot wo n ≤ 0 := not_le.mpr hwo
  have h2 : (randf (randf (F := F) (randf (F := F) g).2).2).1 < (1 / 2 : F) := hsel
  simp only [BlinnPhong.sample_wi, if_neg h1, if_pos h2]
  rfl

theorem BlinnPhong_sample_wi_layer_refraction {F : Type} [LinearOrderedField F]
    (m : MathOps F) (shininess R0 : F) (refl : Vec3 F → Vec3 F → Vec3 F → Vec3 F)
    (samp : Vec3 F → Vec3 F → Vec3 F → F → Gen → Sample F)
    (wi0 wo n : Vec3 F) (p0 : F) (g : Gen)
    (hwo : 0 < dot wo n) (hsel : (1 / 2 : F) ≤ BlinnPhong.selector g) :
    BlinnPhong.sample_wi m shininess R0 refl (some samp) wi0 wo n p0 g
      = ⟨Vec3.scale
           (1 - fresnel m R0 (BlinnPhong.sampled_wh m shininess n g)
             (samp wi0 wo n p0 (BlinnPhong.genAfter g)).wi)
           (samp wi0 wo n p0 (BlinnPhong.genAfter g)).weight,
         (samp wi0 wo n p0 (BlinnPhong.genAfter g)).wi,
         (samp wi0 wo n p0 (BlinnPhong.genAfter g)).p * (1 / 2),
         (samp wi0 wo n p0 (BlinnPhong.genAfter g)).gen⟩ := by
  have h1 : ¬ dot wo n ≤ 0 := not_le.mpr hwo
  have h2 : ¬ (randf (randf (F := F) (randf (F := F) g).2).2).1 < (1 / 2 : F) :=
    not_lt.mpr hsel
  simp only [BlinnPhong.sample_wi, if_neg h1, if_neg h2]
  rfl

theorem realOps_exact :
    MathOps.Exact (MathOps.mk Real.pi Real.sqrt (fun x y => x ^ y) Real.cos Real.sin
      Real.arccos (fun y x => Complex.arg ⟨x, y⟩) 340282346638528859811704183484516925440) where
  pi_pos := Real.pi_pos
  cos_sq_add_sin_sq := Real.cos_sq_add_sin_sq
  sqrt_nonneg := Real.sqrt_nonneg
  sqrt_mul_self := fun _ h => Real.mul_self_sqrt h
  pow_one := fun x _ => Real.rpow_one x
  pow_five := fun x _ => by
    show x ^ (5 : ℝ) = x ^ 5
    have : (5 : ℝ) = ((5 : ℕ) : ℝ) := by norm_num
    rw [this, Real.rpow_natCast]
  pow_zero := Real.rpow_zero

theorem MathOps.Exact.sqrt_sq_eq {F : Type} [LinearOrderedField F] {m : MathOps F}
    (hm : m.Exact) (a b : F) (hb : 0 ≤ b) (h : a = b * b) : m.sqrt a = b := by
  have ha : 0 ≤ a := by rw [h]; exact mul_nonneg hb hb
  have h1 := hm.sqrt_mul_self a ha
  have h2 := hm.sqrt_nonneg a
  nlinarith [sq_nonneg (m.sqrt a - b), sq_nonneg (m.sqrt a + b)]

theorem MathOps.Exact.sqrt_one {F : Type} [LinearOrderedField F] {m : MathOps F}
    (hm : m.Exact) : m.sqrt 1 = 1 :=
  hm.sqrt_sq_eq 1 1 zero_le_one (by norm_num)

theorem frame_tangent_ez {F : Type} [LinearOrderedField F] {m : MathOps F} (hm : m.Exact) :
    normalize m (perpendicular (⟨0, 0, 1⟩ : Vec3 F)) = ⟨-1, 0, 0⟩ := by
  have h : dot (⟨-1, 0, 0⟩ : Vec3 F) ⟨-1, 0, 0⟩ = 1 := by simp [dot]
  simp only [perpendicular, normalize, abs_zero, lt_self_iff_false, if_false, h, hm.sqrt_one]
  ext <;> simp

theorem frame_bitangent_ez {F : Type} [LinearOrderedField F] {m : MathOps F} (hm : m.Exact) :
    normalize m (cross (⟨-1, 0, 0⟩ : Vec3 F) ⟨0, 0, 1⟩) = ⟨0, 1, 0⟩ := by
  have h : cross (⟨-1, 0, 0⟩ : Vec3 F) ⟨0, 0, 1⟩ = ⟨0, 1, 0⟩ := by
    ext <;> simp [cross]
  have h2 : dot (⟨0, 1, 0⟩ : Vec3 F) ⟨0, 1, 0⟩ = 1 := by simp [dot]
  simp only [h, normalize, h2, hm.sqrt_one]
  ext <;> simp

theorem frame_combine_ez {F : Type} [LinearOrderedField F] {m : MathOps F} (hm : m.Exact)
    (a b c : F) (h : a ^ 2 + b ^ 2 + c ^ 2 = 1) :
    normalize m (Vec3.scale a ⟨-1, 0, 0⟩ + Vec3.scale b ⟨0, 1, 0⟩ + Vec3.scale c ⟨0, 0, 1⟩)
      = ⟨-a, b, c⟩ := by
  have e : Vec3.scale a (⟨-1, 0, 0⟩ : Vec3 F) + Vec3.scale b ⟨0, 1, 0⟩
      + Vec3.scale c ⟨0, 0, 1⟩ = ⟨-a, b, c⟩ := by
    ext <;> simp
  have d : dot (⟨-a, b, c⟩ : Vec3 F) ⟨-a, b, c⟩ = 1 := by
    simp only [dot]; linear_combination h
  simp only [e, normalize, d, hm.sqrt_one]
  ext <;> simp

theorem randf_constGen {F : Type} [LinearOrderedField F] (v : Fin 4294967296) :
    randf (F := F) (constGen v) = ((v.val : F) / 4294967295, constGen v) := rfl

theorem randf_const_four_fifths {F : Type} [LinearOrderedField F] :
    (randf (F := F) (constGen 3435973836)).1 = 4 / 5 := by
  have h : ((3435973836 : Fin 4294967296).val : F) = 3435973836 := by
    have : (3435973836 : Fin 4294967296).val = 3435973836 := rfl
    rw [this]; norm_num
  rw [randf_constGen]
  simp only [h]
  norm_num

theorem concentricMap_four_fifths {F : Type} [LinearOrderedField F] (m : MathOps F) :
    concentricMap m (4 / 5) (4 / 5)
      = (3 / 5 * m.cos (1 * (m.pi / 4)), 3 / 5 * m.sin (1 * (m.pi / 4))) := by
  simp only [concentricMap]
  norm_num

theorem hemisphereMap_four_fifths {F : Type} [LinearOrderedField F] {m : MathOps F}
    (hm : m.Exact) :
    (hemisphereMap m (4 / 5) (4 / 5)).z = 4 / 5
      ∧ (hemisphereMap m (4 / 5) (4 / 5)).x ^ 2 + (hemisphereMap m (4 / 5) (4 / 5)).y ^ 2
          + (hemisphereMap m (4 / 5) (4 / 5)).z ^ 2 = 1 := by
  have hc := hm.cos_sq_add_sin_sq (1 * (m.pi / 4))
  have hz : (hemisphereMap m (4 / 5) (4 / 5)).z = 4 / 5 := by
    simp only [hemisphereMap, concentricMap_four_fifths]
    apply hm.sqrt_sq_eq _ _ (by norm_num)
    have : (1 : F) - 3 / 5 * m.cos (1 * (m.pi / 4)) * (3 / 5 * m.cos (1 * (m.pi / 4)))
        - 3 / 5 * m.sin (1 * (m.pi / 4)) * (3 / 5 * m.sin (1 * (m.pi / 4))) = 16 / 25 := by
      linear_combination (-9 / 25 : F) * hc
    rw [this]
    norm_num
  refine ⟨hz, ?_⟩
  rw [hz]
  simp only [hemisphereMap, concentricMap_four_fifths]
  linear_combination (9 / 25 : F) * hc

theorem Diffuse_f_valid {F : Type} [LinearOrderedField F] (m : MathOps F)
    (color wi wo n : Vec3 F) (h1 : 0 < dot wi n) (h2 : 0 < dot wo n) :
    Diffuse.f m color wi wo n = Vec3.scale (1 / m.pi) color := by
  have hs : sameHemisphere wi wo n = true := by
    simp [sameHemisphere, sign, h1, h2]
  simp [Diffuse.f, not_le.mpr h1, hs]

theorem diffuse_sample_ez {F : Type} [LinearOrderedField F] {m : MathOps F} (hm : m.Exact)
    (color wi0 : Vec3 F) (p0 : F) :
    dot (Diffuse.sample_wi m color wi0 ⟨0, 0, 1⟩ ⟨0, 0, 1⟩ p0 (constGen 3435973836)).wi
        ⟨0, 0, 1⟩ = 4 / 5
      ∧ (Diffuse.sample_wi m color wi0 ⟨0, 0, 1⟩ ⟨0, 0, 1⟩ p0 (constGen 3435973836)).weight
        = Vec3.scale (1 / m.pi) color := by
  obtain ⟨hz, hu⟩ := hemisphereMap_four_fifths hm
  have hwi : (Diffuse.sample_wi m color wi0 ⟨0, 0, 1⟩ ⟨0, 0, 1⟩ p0 (constGen 3435973836)).wi
      = ⟨-(hemisphereMap m (4 / 5) (4 / 5)).x, (hemisphereMap m (4 / 5) (4 / 5)).y,
          (hemisphereMap m (4 / 5) (4 / 5)).z⟩ := by
    simp only [Diffuse.sample_wi, cosineSampleHemisphere_eq_map, randf_constGen,
      frame_tangent_ez hm, frame_bitangent_ez hm]
    have h : ((3435973836 : Fin 4294967296).val : F) / 4294967295 = 4 / 5 := by
      have := randf_const_four_fifths (F := F)
      rwa [randf_constGen] at this
    rw [h]
    exact frame_combine_ez hm _ _ _ hu
  have hd : dot (Diffuse.sample_wi m color wi0 ⟨0, 0, 1⟩ ⟨0, 0, 1⟩ p0
      (constGen 3435973836)).wi ⟨0, 0, 1⟩ = 4 / 5 := by
    rw [hwi]
    simp [dot, hz]
  refine ⟨hd, ?_⟩
  have hw : (Diffuse.sample_wi m color wi0 ⟨0, 0, 1⟩ ⟨0, 0, 1⟩ p0 (constGen 3435973836)).weight
      = Diffuse.f m color
          (Diffuse.sample_wi m color wi0 ⟨0, 0, 1⟩ ⟨0, 0, 1⟩ p0 (constGen 3435973836)).wi
          ⟨0, 0, 1⟩ ⟨0, 0, 1⟩ := rfl
  rw [hw]
  apply Diffuse_f_valid
  · rw [hd]; norm_num
  · simp [dot]

theorem blend_weight_ne_f {F : Type} [LinearOrderedField F] {m : MathOps F} (hm : m.Exact) :
    (BRDF.sample_wi m (BRDF.LinearBlend (9 / 10) (BRDF.Diffuse ⟨1, 1, 1⟩)
        (BRDF.Diffuse ⟨0, 0, 0⟩)) ⟨0, 0, 0⟩ ⟨0, 0, 1⟩ ⟨0, 0, 1⟩ 0 (constGen 3435973836)).weight
      ≠ BRDF.f m (BRDF.LinearBlend (9 / 10) (BRDF.Diffuse ⟨1, 1, 1⟩) (BRDF.Diffuse ⟨0, 0, 0⟩))
          (BRDF.sample_wi m (BRDF.LinearBlend (9 / 10) (BRDF.Diffuse ⟨1, 1, 1⟩)
            (BRDF.Diffuse ⟨0, 0, 0⟩)) ⟨0, 0, 0⟩ ⟨0, 0, 1⟩ ⟨0, 0, 1⟩ 0
            (constGen 3435973836)).wi ⟨0, 0, 1⟩ ⟨0, 0, 1⟩ := by
  have hu : (randf (F := F) (constGen 3435973836)).1 < 9 / 10 := by
    rw [randf_const_four_fifths]; norm_num
  have hg : (randf (F := F) (constGen 3435973836)).2 = constGen 3435973836 := rfl
  obtain ⟨hd, hw⟩ := diffuse_sample_ez hm (⟨1, 1, 1⟩ : Vec3 F) ⟨0, 0, 0⟩ 0
  have hpi := hm.pi_pos
  simp only [BRDF.sample_wi, if_pos hu, hg, BRDF.f]
  rw [hw]
  rw [Diffuse_f_valid m _ _ _ _ (by rw [hd]; norm_num) (by simp [dot]),
    Diffuse_f_valid m _ _ _ _ (by rw [hd]; norm_num) (by simp [dot])]
  intro h
  have hx := congrArg Vec3.x h
  simp only [Vec3.scale_x, Vec3.add_x] at hx
  have : (1 : F) / m.pi ≠ 0 := by positivity
  apply this
  linear_combination (10 : F) * hx

theorem randf_lowThirdGen {F : Type} [LinearOrderedField F] :
    (randf (F := F) lowThirdGen).1 = 4 / 5
      ∧ (randf (F := F) (randf (F := F) lowThirdGen).2).1 = 4 / 5
      ∧ BlinnPhong.selector (F := F) lowThirdGen = 0 := by
  have h : ((3435973836 : Fin 4294967296).val : F) = 3435973836 := by
    have : (3435973836 : Fin 4294967296).val = 3435973836 := rfl
    rw [this]; norm_num
  have h0 : ((0 : Fin 4294967296).val : F) = 0 := by
    have : (0 : Fin 4294967296).val = 0 := rfl
    rw [this]; norm_num
  refine ⟨?_, ?_, ?_⟩
  · show ((lowThirdGen 0).val : F) / 4294967295 = 4 / 5
    have : lowThirdGen 0 = 3435973836 := rfl
    rw [this, h]; norm_num
  · show ((lowThirdGen 1).val : F) / 4294967295 = 4 / 5
    have : lowThirdGen 1 = 3435973836 := rfl
    rw [this, h]; norm_num
  · show ((lowThirdGen 2).val : F) / 4294967295 = 0
    have : lowThirdGen 2 = 0 := rfl
    rw [this, h0]; norm_num

theorem sampled_wh_ez {F : Type} [LinearOrderedField F] {m : MathOps F} (hm : m.Exact) :
    BlinnPhong.sampled_wh m 0 ⟨0, 0, 1⟩ lowThirdGen
      = ⟨-(3 / 5 * m.cos (2 * m.pi * (4 / 5))), 3 / 5 * m.sin (2 * m.pi * (4 / 5)), 4 / 5⟩ := by
  obtain ⟨r1, r2, _⟩ := randf_lowThirdGen (F := F)
  have hc := hm.cos_sq_add_sin_sq (2 * m.pi * (4 / 5))
  have hp : m.pow (4 / 5) (1 / (0 + 1)) = 4 / 5 := by
    have : (1 : F) / (0 + 1) = 1 := by norm_num
    rw [this]
    exact hm.pow_one _ (by norm_num)
  have hs : m.sqrt (max 0 (1 - 4 / 5 * (4 / 5))) = 3 / 5 := by
    apply hm.sqrt_sq_eq _ _ (by norm_num)
    norm_num
  simp only [BlinnPhong.sampled_wh, frame_tangent_ez hm, frame_bitangent_ez hm, r1, r2, hp, hs]
  apply frame_combine_ez hm
  linear_combination (9 / 25 : F) * hc

theorem reflected_wi_ez {F : Type} [LinearOrderedField F] {m : MathOps F} (hm : m.Exact) :
    normalize m (-(⟨0, 0, 1⟩ : Vec3 F) + Vec3.scale
        (2 * dot (BlinnPhong.sampled_wh m 0 ⟨0, 0, 1⟩ lowThirdGen) ⟨0, 0, 1⟩)
        (BlinnPhong.sampled_wh m 0 ⟨0, 0, 1⟩ lowThirdGen))
      = ⟨-(24 / 25 * m.cos (2 * m.pi * (4 / 5))), 24 / 25 * m.sin (2 * m.pi * (4 / 5)),
          7 / 25⟩ := by
  have hc := hm.cos_sq_add_sin_sq (2 * m.pi * (4 / 5))
  rw [sampled_wh_ez hm]
  have e : -(⟨0, 0, 1⟩ : Vec3 F) + Vec3.scale
      (2 * dot (⟨-(3 / 5 * m.cos (2 * m.pi * (4 / 5))), 3 / 5 * m.sin (2 * m.pi * (4 / 5)),
        4 / 5⟩ : Vec3 F) ⟨0, 0, 1⟩)
      ⟨-(3 / 5 * m.cos (2 * m.pi * (4 / 5))), 3 / 5 * m.sin (2 * m.pi * (4 / 5)), 4 / 5⟩
      = ⟨-(24 / 25 * m.cos (2 * m.pi * (4 / 5))), 24 / 25 * m.sin (2 * m.pi * (4 / 5)),
          7 / 25⟩ := by
    ext
    · show -(0 : F) + _ = _
      simp only [dot, Vec3.scale_x]; ring
    · show -(0 : F) + _ = _
      simp only [dot, Vec3.scale_y]; ring
    · show -(1 : F) + _ = _
      simp only [dot, Vec3.scale_z]; ring
  have d : dot (⟨-(24 / 25 * m.cos (2 * m.pi * (4 / 5))),
      24 / 25 * m.sin (2 * m.pi * (4 / 5)), 7 / 25⟩ : Vec3 F)
      ⟨-(24 / 25 * m.cos (2 * m.pi * (4 / 5))), 24 / 25 * m.sin (2 * m.pi * (4 / 5)), 7 / 25⟩
      = 1 := by
    simp only [dot]; linear_combination (576 / 625 : F) * hc
  simp only [e, normalize, d, hm.sqrt_one]
  ext <;> simp

theorem fresnel_reflected_ez {F : Type} [LinearOrderedField F] {m : MathOps F} (hm : m.Exact)
    (c s : F) (hc : c ^ 2 + s ^ 2 = 1) :
    fresnel m 0 (normalize m ((⟨-(24 / 25 * c), 24 / 25 * s, 7 / 25⟩ : Vec3 F) + ⟨0, 0, 1⟩))
        ⟨-(24 / 25 * c), 24 / 25 * s, 7 / 25⟩ = 1 / 3125 := by
  have d : dot ((⟨-(24 / 25 * c), 24 / 25 * s, 7 / 25⟩ : Vec3 F) + ⟨0, 0, 1⟩)
      ((⟨-(24 / 25 * c), 24 / 25 * s, 7 / 25⟩ : Vec3 F) + ⟨0, 0, 1⟩) = 8 / 5 * (8 / 5) := by
    simp only [dot, Vec3.add_x, Vec3.add_y, Vec3.add_z]
    linear_combination (576 / 625 : F) * hc
  have hs := hm.sqrt_sq_eq _ (8 / 5) (by norm_num) d
  have hd : dot (normalize m ((⟨-(24 / 25 * c), 24 / 25 * s, 7 / 25⟩ : Vec3 F) + ⟨0, 0, 1⟩))
      ⟨-(24 / 25 * c), 24 / 25 * s, 7 / 25⟩ = 4 / 5 := by
    simp only [normalize]
    rw [hs]
    simp only [dot, Vec3.divS_x, Vec3.divS_y, Vec3.divS_z, Vec3.add_x, Vec3.add_y, Vec3.add_z]
    linear_combination (72 / 125 : F) * hc
  simp only [fresnel, hd]
  have : (1 : F) - |4 / 5| = 1 / 5 := by
    rw [abs_of_pos (by norm_num)]; norm_num
  rw [this, hm.pow_five _ (by norm_num)]
  norm_num

theorem layered_weight_ne_f {F : Type} [LinearOrderedField F] {m : MathOps F}
    (hm : m.Exact) :
    (BRDF.sample_wi m (BRDF.BlinnPhong 0 0 (some (BRDF.Diffuse ⟨1, 1, 1⟩)))
        ⟨0, 0, 0⟩ ⟨0, 0, 1⟩ ⟨0, 0, 1⟩ 0 lowThirdGen).weight
      ≠ BRDF.f m (BRDF.BlinnPhong 0 0 (some (BRDF.Diffuse ⟨1, 1, 1⟩)))
          (BRDF.sample_wi m (BRDF.BlinnPhong 0 0 (some (BRDF.Diffuse ⟨1, 1, 1⟩)))
            ⟨0, 0, 0⟩ ⟨0, 0, 1⟩ ⟨0, 0, 1⟩ 0 lowThirdGen).wi ⟨0, 0, 1⟩ ⟨0, 0, 1⟩ := by
  have hwo : 0 < dot (⟨0, 0, 1⟩ : Vec3 F) ⟨0, 0, 1⟩ := by simp [dot]
  have hsel : BlinnPhong.selector (F := F) lowThirdGen < 1 / 2 := by
    rw [randf_lowThirdGen.2.2]; norm_num
  have hc := hm.cos_sq_add_sin_sq (2 * m.pi * (4 / 5))
  have hpi := hm.pi_pos
  simp only [BRDF.sample_wi, BRDF.f]
  rw [BlinnPhong_sample_wi_reflection m 0 0 _ _ _ _ _ _ _ hwo hsel]
  simp only [reflected_wi_ez hm, BlinnPhong.refraction_brdf]
  rw [fresnel_reflected_ez hm _ _ hc,
    Diffuse_f_valid m _ _ _ _ (by simp only [dot]; norm_num) hwo]
  intro h
  have hx := congrArg Vec3.x h
  simp only [Vec3.add_x, Vec3.mul_x, Vec3.splat_x, Vec3.scale_x] at hx
  have h1 : (1 : F) / m.pi ≠ 0 := by positivity
  apply h1
  linear_combination (-3125 / 3124 : F) * hx

theorem diffuse_sample_wi_ez {F : Type} [LinearOrderedField F] {m : MathOps F}
    (hm : m.Exact) (color wi0 : Vec3 F) (p0 : F) :
    ∃ a b : F, a ^ 2 + b ^ 2 = 9 / 25
      ∧ (Diffuse.sample_wi m color wi0 ⟨0, 0, 1⟩ ⟨0, 0, 1⟩ p0 (constGen 3435973836)).wi
        = ⟨a, b, 4 / 5⟩ := by
  obtain ⟨hz, hu⟩ := hemisphereMap_four_fifths hm
  refine ⟨-(hemisphereMap m (4 / 5) (4 / 5)).x, (hemisphereMap m (4 / 5) (4 / 5)).y, ?_, ?_⟩
  · rw [hz] at hu
    linear_combination hu
  · simp only [Diffuse.sample_wi, cosineSampleHemisphere_eq_map, randf_constGen,
      frame_tangent_ez hm, frame_bitangent_ez hm]
    have h : ((3435973836 : Fin 4294967296).val : F) / 4294967295 = 4 / 5 := by
      have := randf_const_four_fifths (F := F)
      rwa [randf_constGen] at this
    rw [h, frame_combine_ez hm _ _ _ hu, hz]

theorem reflection_brdf_ez {F : Type} [LinearOrderedField F] {m : MathOps F} (hm : m.Exact)
    (a b : F) (h : a ^ 2 + b ^ 2 = 9 / 25) :
    BlinnPhong.reflection_brdf m 0 1 ⟨a, b, 4 / 5⟩ ⟨0, 0, 1⟩ ⟨0, 0, 1⟩
      = Vec3.splat (5 / (16 * m.pi)) := by
  have hpi := hm.pi_pos
  have d : dot ((⟨a, b, 4 / 5⟩ : Vec3 F) + ⟨0, 0, 1⟩) ((⟨a, b, 4 / 5⟩ : Vec3 F) + ⟨0, 0, 1⟩)
      = 18 / 5 := by
    simp only [dot, Vec3.add_x, Vec3.add_y, Vec3.add_z]
    linear_combination h
  have hq := hm.sqrt_mul_self (18 / 5) (by norm_num)
  have hq0 := hm.sqrt_nonneg (18 / 5)
  have hqpos : 0 < m.sqrt (18 / 5) := by
    rcases hq0.lt_or_eq with h1 | h1
    · exact h1
    · rw [← h1] at hq; norm_num at hq
  have hn : dot (⟨0, 0, 1⟩ : Vec3 F) (normalize m ((⟨a, b, 4 / 5⟩ : Vec3 F) + ⟨0, 0, 1⟩))
      = 9 / 5 / m.sqrt (18 / 5) := by
    simp only [normalize]
    rw [d]
    simp only [dot, Vec3.divS_x, Vec3.divS_y, Vec3.divS_z, Vec3.add_x, Vec3.add_y, Vec3.add_z]
    ring
  have hni : dot (⟨0, 0, 1⟩ : Vec3 F) (⟨a, b, 4 / 5⟩ : Vec3 F) = 4 / 5 := by
    simp only [dot]; ring
  have hno : dot (⟨0, 0, 1⟩ : Vec3 F) (⟨0, 0, 1⟩ : Vec3 F) = 1 := by
    simp only [dot]; ring
  have ht : (0 : F) < 9 / 5 / m.sqrt (18 / 5) := by positivity
  have hG : min (1 : F) (min (2 * (9 / 5 / m.sqrt (18 / 5) * 1 / (9 / 5 / m.sqrt (18 / 5))))
      (2 * (9 / 5 / m.sqrt (18 / 5) * (4 / 5) / (9 / 5 / m.sqrt (18 / 5))))) = 1 := by
    have e1 : 2 * (9 / 5 / m.sqrt (18 / 5) * 1 / (9 / 5 / m.sqrt (18 / 5))) = (2 : F) := by
      field_simp
    have e2 : 2 * (9 / 5 / m.sqrt (18 / 5) * (4 / 5) / (9 / 5 / m.sqrt (18 / 5)))
        = (8 / 5 : F) := by
      field_simp; ring
    rw [e1, e2]
    norm_num
  have hf : ∀ wh : Vec3 F, fresnel m 1 wh ⟨a, b, 4 / 5⟩ = 1 := by
    intro wh; simp [fresnel]
  simp only [BlinnPhong.reflection_brdf, hn, hni, hno, hf, hm.pow_zero, hG]
  norm_num
  congr 1
  field_simp
  ring

theorem layered_refraction_weight_ne_f {F : Type} [LinearOrderedField F] {m : MathOps F}
    (hm : m.Exact) :
    (BRDF.sample_wi m (BRDF.BlinnPhong 0 1 (some (BRDF.Diffuse ⟨1, 1, 1⟩)))
        ⟨0, 0, 0⟩ ⟨0, 0, 1⟩ ⟨0, 0, 1⟩ 0 (constGen 3435973836)).weight
      ≠ BRDF.f m (BRDF.BlinnPhong 0 1 (some (BRDF.Diffuse ⟨1, 1, 1⟩)))
          (BRDF.sample_wi m (BRDF.BlinnPhong 0 1 (some (BRDF.Diffuse ⟨1, 1, 1⟩)))
            ⟨0, 0, 0⟩ ⟨0, 0, 1⟩ ⟨0, 0, 1⟩ 0 (constGen 3435973836)).wi ⟨0, 0, 1⟩ ⟨0, 0, 1⟩ := by
  have hwo : 0 < dot (⟨0, 0, 1⟩ : Vec3 F) ⟨0, 0, 1⟩ := by simp [dot]
  have hsel : (1 / 2 : F) ≤ BlinnPhong.selector (constGen 3435973836) := by
    have : BlinnPhong.selector (F := F) (constGen 3435973836) = 4 / 5 :=
      randf_const_four_fifths
    rw [this]; norm_num
  have hpi := hm.pi_pos
  obtain ⟨a, b, hab, hwi⟩ := diffuse_sample_wi_ez hm (⟨1, 1, 1⟩ : Vec3 F) ⟨0, 0, 0⟩ 0
  have hg : BlinnPhong.genAfter (constGen 3435973836) = constGen 3435973836 := rfl
  have hf : ∀ wh wi : Vec3 F, fresnel m 1 wh wi = 1 := by
    intro wh wi; simp [fresnel]
  simp only [BRDF.sample_wi, BRDF.f]
  rw [BlinnPhong_sample_wi_layer_refraction m 0 1 _ _ _ _ _ _ _ hwo hsel]
  simp only [hg, hwi, hf, BlinnPhong.refraction_brdf, reflection_brdf_ez hm a b hab]
  intro h
  have hx := congrArg Vec3.x h
  simp only [Vec3.add_x, Vec3.mul_x, Vec3.splat_x, Vec3.scale_x] at hx
  have h1 : (5 : F) / (16 * m.pi) ≠ 0 := by positivity
  apply h1
  linear_combination -hx

section StepIntegral

open MeasureTheory

theorem integral_select_const (w a b : ℝ) (hw0 : 0 ≤ w) (hw1 : w ≤ 1) :
    ∫ u in (0:ℝ)..1, LinearBlend.select w u a b = w * a + (1 - w) * b := by
  simp only [LinearBlend.select]
  have hne : ∀ᵐ x ∂(volume : Measure ℝ), x ≠ w := by
    simp [ae_iff, Real.volume_singleton]
  have h1 : ∫ u in (0:ℝ)..w, (if u < w then a else b) = ∫ _u in (0:ℝ)..w, a := by
    apply intervalIntegral.integral_congr_ae
    filter_upwards [hne] with x hx hxm
    rw [Set.uIoc_of_le hw0] at hxm
    simp [lt_of_le_of_ne hxm.2 hx]
  have h2 : ∫ u in w..1, (if u < w then a else b) = ∫ _u in w..1, b := by
    apply intervalIntegral.integral_congr_ae
    filter_upwards with x hxm
    rw [Set.uIoc_of_le hw1] at hxm
    simp [not_lt.mpr hxm.1.le]
  have i1 : IntervalIntegrable (fun u : ℝ => if u < w then a else b) volume 0 w := by
    apply (intervalIntegrable_const (c := a)).congr
    have hm : ∀ᵐ x ∂(volume.restrict (Set.uIoc 0 w)), x ∈ Set.uIoc 0 w :=
      ae_restrict_mem measurableSet_uIoc
    filter_upwards [ae_restrict_of_ae hne, hm] with x hx hxm
    rw [Set.uIoc_of_le hw0] at hxm
    simp [lt_of_le_of_ne hxm.2 hx]
  have i2 : IntervalIntegrable (fun u : ℝ => if u < w then a else b) volume w 1 := by
    apply (intervalIntegrable_const (c := b)).congr
    have hm : ∀ᵐ x ∂(volume.restrict (Set.uIoc w 1)), x ∈ Set.uIoc w 1 :=
      ae_restrict_mem measurableSet_uIoc
    filter_upwards [hm] with x hxm
    rw [Set.uIoc_of_le hw1] at hxm
    simp [not_lt.mpr hxm.1.le]
  rw [← intervalIntegral.integral_add_adjacent_intervals i1 i2, h1, h2]
  simp

end StepIntegral

theorem select_apply {α β : Type} (w u : ℝ) (a b : α) (f : α → β) :
    f (LinearBlend.select w u a b) = LinearBlend.select w u (f a) (f b) := by
  simp only [LinearBlend.select]
  split_ifs <;> rfl

theorem diffuse_estimate_ez {F : Type} [LinearOrderedField F] {m : MathOps F} (hm : m.Exact)
    (color wi0 : Vec3 F) (p0 : F) :
    (Diffuse.sample_wi m color wi0 ⟨0, 0, 1⟩ ⟨0, 0, 1⟩ p0 (constGen 3435973836)).estimate
      = Vec3.scale (5 / 4) color := by
  obtain ⟨hd, hw⟩ := diffuse_sample_ez hm color wi0 p0
  obtain ⟨a, b, _, hwi⟩ := diffuse_sample_wi_ez hm color wi0 p0
  have hpi := hm.pi_pos
  have hp : (Diffuse.sample_wi m color wi0 ⟨0, 0, 1⟩ ⟨0, 0, 1⟩ p0 (constGen 3435973836)).p
      = 4 / 5 / m.pi := by
    have e : (Diffuse.sample_wi m color wi0 ⟨0, 0, 1⟩ ⟨0, 0, 1⟩ p0 (constGen 3435973836)).p
        = (if dot (Diffuse.sample_wi m color wi0 ⟨0, 0, 1⟩ ⟨0, 0, 1⟩ p0
              (constGen 3435973836)).wi ⟨0, 0, 1⟩ ≤ 0 then 0
           else max 0 (dot ⟨0, 0, 1⟩ (Diffuse.sample_wi m color wi0 ⟨0, 0, 1⟩ ⟨0, 0, 1⟩ p0
              (constGen 3435973836)).wi) / m.pi) := rfl
    rw [e, hd, hwi]
    have d2 : dot (⟨0, 0, 1⟩ : Vec3 F) ⟨a, b, 4 / 5⟩ = 4 / 5 := by simp only [dot]; ring
    rw [d2]
    norm_num
  simp only [Sample.estimate, hw, hp]
  ext <;> simp only [Vec3.divS_x, Vec3.divS_y, Vec3.divS_z, Vec3.scale_x, Vec3.scale_y,
    Vec3.scale_z] <;> field_simp <;> ring

/-! ## Claims about the BRDF tree and the sampling utilities -/

/-- Claim C11, as amended: on every call that does not return early, `Diffuse`,
`BlinnPhong` without a refraction layer and `BlinnPhongMetal` return as weight
the node's own `f(wi, wo, n)` at the sampled `wi`.  A `BlinnPhong` node with a
layer returns the term of the branch it took: `reflection_brdf(wi, wo, n)` on
the reflection branch, and on the refraction branch the layer's returned
weight times `1 - F`, with `F` computed from the sampled half-vector.  A
`LinearBlend` node returns the weight of the child it selected. -/
theorem sample_weight_by_variant {F : Type} [LinearOrderedField F] (m : MathOps F)
    (wi0 wo n : Vec3 F) (p0 : F) (g : Gen) :
    (∀ color : Vec3 F,
        (BRDF.sample_wi m (BRDF.Diffuse color) wi0 wo n p0 g).weight
          = BRDF.f m (BRDF.Diffuse color)
              (BRDF.sample_wi m (BRDF.Diffuse color) wi0 wo n p0 g).wi wo n)
      ∧ (∀ shininess R0 : F, 0 < dot wo n → BlinnPhong.selector g < (1 / 2 : F) →
        (BRDF.sample_wi m (BRDF.BlinnPhong shininess R0 none) wi0 wo n p0 g).weight
          = BRDF.f m (BRDF.BlinnPhong shininess R0 none)
              (BRDF.sample_wi m (BRDF.BlinnPhong shininess R0 none) wi0 wo n p0 g).wi wo n)
      ∧ (∀ (color : Vec3 F) (shininess R0 : F),
        0 < dot wo n → BlinnPhong.selector g < (1 / 2 : F) →
        (BRDF.sample_wi m (BRDF.BlinnPhongMetal color shininess R0) wi0 wo n p0 g).weight
          = BRDF.f m (BRDF.BlinnPhongMetal color shininess R0)
              (BRDF.sample_wi m (BRDF.BlinnPhongMetal color shininess R0) wi0 wo n p0 g).wi
              wo n)
      ∧ (∀ (shininess R0 : F) (layer : BRDF F),
        0 < dot wo n → BlinnPhong.selector g < (1 / 2 : F) →
        (BRDF.sample_wi m (BRDF.BlinnPhong shininess R0 (some layer)) wi0 wo n p0 g).weight
          = BlinnPhong.reflection_brdf m shininess R0
              (BRDF.sample_wi m (BRDF.BlinnPhong shininess R0 (some layer)) wi0 wo n p0 g).wi
              wo n)
      ∧ (∀ (shininess R0 : F) (layer : BRDF F),
        0 < dot wo n → (1 / 2 : F) ≤ BlinnPhong.selector g →
        (BRDF.sample_wi m (BRDF.BlinnPhong shininess R0 (some layer)) wi0 wo n p0 g).weight
          = Vec3.scale
              (1 - fresnel m R0 (BlinnPhong.sampled_wh m shininess n g)
                (BRDF.sample_wi m layer wi0 wo n p0 (BlinnPhong.genAfter g)).wi)
              (BRDF.sample_wi m layer wi0 wo n p0 (BlinnPhong.genAfter g)).weight)
      ∧ (∀ (w : F) (A B : BRDF F),
        (BRDF.sample_wi m (BRDF.LinearBlend w A B) wi0 wo n p0 g).weight
          = (LinearBlend.select w (randf g).1
              (BRDF.sample_wi m A wi0 wo n 0 (randf (F := F) g).2)
              (BRDF.sample_wi m B wi0 wo n 0 (randf (F := F) g).2)).weight) := by
  refine ⟨fun color => rfl, ?_, ?_, ?_, ?_, ?_⟩
  · intro shininess R0 hwo hsel
    simp only [BRDF.sample_wi, BRDF.f]
    rw [BlinnPhong_sample_wi_reflection m shininess R0 _ none wi0 wo n p0 g hwo hsel]
    simp only [BlinnPhong.refraction_brdf, Vec3.add_splat_zero]
  · intro color shininess R0 hwo hsel
    simp only [BRDF.sample_wi, BRDF.f]
    rw [BlinnPhong_sample_wi_reflection m shininess R0 _ none wi0 wo n p0 g hwo hsel]
    simp only [BlinnPhongMetal.refraction_brdf, Vec3.add_splat_zero]
  · intro shininess R0 layer hwo hsel
    simp only [BRDF.sample_wi]
    rw [BlinnPhong_sample_wi_reflection m shininess R0 _ _ wi0 wo n p0 g hwo hsel]
  · intro shininess R0 layer hwo hsel
    simp only [BRDF.sample_wi]
    rw [BlinnPhong_sample_wi_layer_refraction m shininess R0 _ _ wi0 wo n p0 g hwo hsel]
  · intro w A B
    simp only [BRDF.sample_wi, LinearBlend.select]

/-- Witness for C11: a `BlinnPhong` node without layer on the reflection branch,
over the reals. -/
theorem sample_weight_by_variant_witness :
    let m : MathOps ℝ := MathOps.mk Real.pi Real.sqrt (fun x y => x ^ y) Real.cos Real.sin
      Real.arccos (fun y x => Complex.arg ⟨x, y⟩) 340282346638528859811704183484516925440
    let s := BRDF.sample_wi m (BRDF.BlinnPhong 0 0 none) ⟨0, 0, 0⟩ ⟨0, 0, 1⟩ ⟨0, 0, 1⟩ 0
      lowThirdGen
    0 < dot (⟨0, 0, 1⟩ : Vec3 ℝ) ⟨0, 0, 1⟩
      ∧ BlinnPhong.selector (F := ℝ) lowThirdGen < 1 / 2
      ∧ s.weight = BRDF.f m (BRDF.BlinnPhong 0 0 none) s.wi ⟨0, 0, 1⟩ ⟨0, 0, 1⟩ := by
  intro m s
  have hwo : 0 < dot (⟨0, 0, 1⟩ : Vec3 ℝ) ⟨0, 0, 1⟩ := by simp [dot]
  have hsel : BlinnPhong.selector (F := ℝ) lowThirdGen < 1 / 2 := by
    rw [randf_lowThirdGen.2.2]; norm_num
  exact ⟨hwo, hsel,
    (sample_weight_by_variant m ⟨0, 0, 0⟩ ⟨0, 0, 1⟩ ⟨0, 0, 1⟩ 0 lowThirdGen).2.1 0 0 hwo hsel⟩

/-- Counterexample for C11, over the reals with `n = wo = (0, 0, 1)`: the weight
returned by `sample_wi` differs from the node's `f` at the sampled direction
for `LinearBlend(0.9, Diffuse(1,1,1), Diffuse(0,0,0))` with `randf = 0.8`
(weight `1/pi`, `f = 0.9/pi` in every channel), for a `BlinnPhong` node with a
diffuse layer on the reflection branch (`f` exceeds the weight by the
refraction term `(3124/3125)/pi`), and for such a node with `R0 = 1` on the
refraction branch (weight `0`, `f = 5/(16 pi)`). -/
theorem sample_weight_counterexample :
    let m : MathOps ℝ := MathOps.mk Real.pi Real.sqrt (fun x y => x ^ y) Real.cos Real.sin
      Real.arccos (fun y x => Complex.arg ⟨x, y⟩) 340282346638528859811704183484516925440
    let blend : BRDF ℝ :=
      BRDF.LinearBlend (9 / 10) (BRDF.Diffuse ⟨1, 1, 1⟩) (BRDF.Diffuse ⟨0, 0, 0⟩)
    let layered : BRDF ℝ := BRDF.BlinnPhong 0 0 (some (BRDF.Diffuse ⟨1, 1, 1⟩))
    let layered1 : BRDF ℝ := BRDF.BlinnPhong 0 1 (some (BRDF.Diffuse ⟨1, 1, 1⟩))
    let s1 := BRDF.sample_wi m blend ⟨0, 0, 0⟩ ⟨0, 0, 1⟩ ⟨0, 0, 1⟩ 0 (constGen 3435973836)
    let s2 := BRDF.sample_wi m layered ⟨0, 0, 0⟩ ⟨0, 0, 1⟩ ⟨0, 0, 1⟩ 0 lowThirdGen
    let s3 := BRDF.sample_wi m layered1 ⟨0, 0, 0⟩ ⟨0, 0, 1⟩ ⟨0, 0, 1⟩ 0 (constGen 3435973836)
    s1.weight ≠ BRDF.f m blend s1.wi ⟨0, 0, 1⟩ ⟨0, 0, 1⟩
      ∧ s2.weight ≠ BRDF.f m layered s2.wi ⟨0, 0, 1⟩ ⟨0, 0, 1⟩
      ∧ s3.weight ≠ BRDF.f m layered1 s3.wi ⟨0, 0, 1⟩ ⟨0, 0, 1⟩ := by
  intro m blend layered layered1 s1 s2 s3
  exact ⟨blend_weight_ne_f realOps_exact, layered_weight_ne_f realOps_exact,
    layered_refraction_weight_ne_f realOps_exact⟩

/-- Claim C12: `LinearBlend(w, A, B).f(wi, wo, n)` is
`w * A.f(wi, wo, n) + (1 - w) * B.f(wi, wo, n)` for every weight and every pair
of sub-BRDFs; with `w = 1/2` it is `1/2 * A.f + 1/2 * B.f`. -/
theorem LinearBlend_f_spec {F : Type} [LinearOrderedField F] (m : MathOps F)
    (A B : BRDF F) (wi wo n : Vec3 F) :
    (∀ w : F, BRDF.f m (BRDF.LinearBlend w A B) wi wo n
        = Vec3.scale w (BRDF.f m A wi wo n) + Vec3.scale (1 - w) (BRDF.f m B wi wo n))
      ∧ BRDF.f m (BRDF.LinearBlend (1 / 2) A B) wi wo n
        = Vec3.scale (1 / 2) (BRDF.f m A wi wo n) + Vec3.scale (1 / 2) (BRDF.f m B wi wo n) := by
  refine ⟨fun w => ?_, ?_⟩
  · simp only [BRDF.f]
  · simp only [BRDF.f]
    norm_num

/-- Claim C13: `LinearBlend(w, A, B).sample_wi` draws one variate `u`; when
`u < w` it returns exactly what `A.sample_wi` returns (weight, direction, pdf
and generator) and when `u >= w` exactly what `B.sample_wi` returns, the child
being called with `p` already set to `0`; the pdf is the child's own, with no
factor `w` or `1 - w`. -/
theorem LinearBlend_sample_wi_spec {F : Type} [LinearOrderedField F] (m : MathOps F)
    (w : F) (A B : BRDF F) (wi0 wo n : Vec3 F) (p0 : F) (g : Gen) :
    ((randf g).1 < w →
        BRDF.sample_wi m (BRDF.LinearBlend w A B) wi0 wo n p0 g
          = BRDF.sample_wi m A wi0 wo n 0 (randf (F := F) g).2)
      ∧ (w ≤ (randf g).1 →
        BRDF.sample_wi m (BRDF.LinearBlend w A B) wi0 wo n p0 g
          = BRDF.sample_wi m B wi0 wo n 0 (randf (F := F) g).2)
      ∧ BRDF.sample_wi m (BRDF.LinearBlend w A B) wi0 wo n p0 g
        = LinearBlend.select w (randf g).1
            (BRDF.sample_wi m A wi0 wo n 0 (randf (F := F) g).2)
            (BRDF.sample_wi m B wi0 wo n 0 (randf (F := F) g).2) := by
  refine ⟨fun h => ?_, fun h => ?_, ?_⟩
  · simp only [BRDF.sample_wi, if_pos h]
  · simp only [BRDF.sample_wi, if_neg (not_lt.mpr h)]
  · simp only [BRDF.sample_wi, LinearBlend.select]

/-- Witness for C13: with `randf = 4/5 < w = 9/10` the blend returns the sample
of its first child. -/
theorem LinearBlend_sample_wi_spec_witness :
    (randf (F := ℚ) (constGen 3435973836)).1 < 9 / 10
      ∧ BRDF.sample_wi tableOps
          (BRDF.LinearBlend (9 / 10) (BRDF.Diffuse ⟨1, 1, 1⟩) (BRDF.Diffuse ⟨0, 0, 0⟩))
          ⟨0, 0, 0⟩ ⟨0, 0, 1⟩ ⟨0, 0, 1⟩ 7 (constGen 3435973836)
        = BRDF.sample_wi tableOps (BRDF.Diffuse ⟨1, 1, 1⟩) ⟨0, 0, 0⟩ ⟨0, 0, 1⟩ ⟨0, 0, 1⟩ 0
            (randf (F := ℚ) (constGen 3435973836)).2 :=
  ⟨by with_unfolding_all decide,
   (LinearBlend_sample_wi_spec tableOps (9 / 10) (BRDF.Diffuse ⟨1, 1, 1⟩)
     (BRDF.Diffuse ⟨0, 0, 0⟩) ⟨0, 0, 0⟩ ⟨0, 0, 1⟩ ⟨0, 0, 1⟩ 7 (constGen 3435973836)).1
     (by with_unfolding_all decide)⟩

section Expectation

open MeasureTheory

/-- Claim C14: let the selection variate `u` be uniform on the unit interval and
independent of the generator state `R` handed on to the selected child
(distributed by the probability measure `mu`), and let the generator `G u omega`
on which `LinearBlend(w, A, B).sample_wi` is called realise that variate: its
`randf()` falls below `w` exactly when `u` does, and the state it leaves is
`R omega`.  For `w` in `[0, 1]` the expectation of any linear channel `ch` of the
estimate `weight / pdf` returned by `LinearBlend(w, A, B).sample_wi` is
`w * E_A + (1 - w) * E_B`, where `E_A`, `E_B` are the expectations of the
children's own estimates.  Hence, when each child's estimate is unbiased for
the integral of its `f` against a measure `nu` on directions, the blend's
estimate is unbiased for the integral of
`LinearBlend(w, A, B).f = w * A.f + (1 - w) * B.f`. -/
theorem blend_estimator_unbiased {Ω D : Type} [MeasurableSpace Ω] [MeasurableSpace D]
    (μ : Measure Ω) [IsProbabilityMeasure μ] (ν : Measure D) (dir : D → Vec3 ℝ)
    (m : MathOps ℝ) (w : ℝ) (A B : BRDF ℝ) (wi0 wo n : Vec3 ℝ) (p0 : ℝ)
    (G : ℝ → Ω → Gen) (R : Ω → Gen)
    (ch : Vec3 ℝ → ℝ)
    (hch : ∀ (a b : ℝ) (u v : Vec3 ℝ),
      ch (Vec3.scale a u + Vec3.scale b v) = a * ch u + b * ch v)
    (hw0 : 0 ≤ w) (hw1 : w ≤ 1)
    (hsel : ∀ (u : ℝ) (ω : Ω), 0 ≤ u → u ≤ 1 →
      ((randf (F := ℝ) (G u ω)).1 < w ↔ u < w))
    (hrest : ∀ (u : ℝ) (ω : Ω), (randf (F := ℝ) (G u ω)).2 = R ω)
    (hA : Integrable (fun ω => ch (BRDF.sample_wi m A wi0 wo n 0 (R ω)).estimate) μ)
    (hB : Integrable (fun ω => ch (BRDF.sample_wi m B wi0 wo n 0 (R ω)).estimate) μ)
    (hfA : Integrable (fun d => ch (BRDF.f m A (dir d) wo n)) ν)
    (hfB : Integrable (fun d => ch (BRDF.f m B (dir d) wo n)) ν) :
    (∫ ω, (∫ u in (0:ℝ)..1,
        ch (BRDF.sample_wi m (BRDF.LinearBlend w A B) wi0 wo n p0 (G u ω)).estimate) ∂μ
      = w * ∫ ω, ch (BRDF.sample_wi m A wi0 wo n 0 (R ω)).estimate ∂μ
        + (1 - w) * ∫ ω, ch (BRDF.sample_wi m B wi0 wo n 0 (R ω)).estimate ∂μ)
    ∧ ((∫ ω, ch (BRDF.sample_wi m A wi0 wo n 0 (R ω)).estimate ∂μ
          = ∫ d, ch (BRDF.f m A (dir d) wo n) ∂ν) →
       (∫ ω, ch (BRDF.sample_wi m B wi0 wo n 0 (R ω)).estimate ∂μ
          = ∫ d, ch (BRDF.f m B (dir d) wo n) ∂ν) →
       ∫ ω, (∫ u in (0:ℝ)..1,
          ch (BRDF.sample_wi m (BRDF.LinearBlend w A B) wi0 wo n p0 (G u ω)).estimate) ∂μ
        = ∫ d, ch (BRDF.f m (BRDF.LinearBlend w A B) (dir d) wo n) ∂ν) := by
  have hblend : ∀ (ω : Ω) (u : ℝ), u ∈ Set.uIcc (0 : ℝ) 1 →
      ch (BRDF.sample_wi m (BRDF.LinearBlend w A B) wi0 wo n p0 (G u ω)).estimate
        = LinearBlend.select w u
            (ch (BRDF.sample_wi m A wi0 wo n 0 (R ω)).estimate)
            (ch (BRDF.sample_wi m B wi0 wo n 0 (R ω)).estimate) := by
    intro ω u hu
    rw [Set.uIcc_of_le zero_le_one] at hu
    have hs := hsel u ω hu.1 hu.2
    simp only [BRDF.sample_wi, LinearBlend.select, hrest u ω]
    by_cases h : u < w
    · rw [if_pos (hs.mpr h), if_pos h]
    · rw [if_neg (fun h' => h (hs.mp h')), if_neg h]
  have key : ∫ ω, (∫ u in (0:ℝ)..1,
        ch (BRDF.sample_wi m (BRDF.LinearBlend w A B) wi0 wo n p0 (G u ω)).estimate) ∂μ
      = w * ∫ ω, ch (BRDF.sample_wi m A wi0 wo n 0 (R ω)).estimate ∂μ
        + (1 - w) * ∫ ω, ch (BRDF.sample_wi m B wi0 wo n 0 (R ω)).estimate ∂μ := by
    have inner : ∀ ω : Ω, (∫ u in (0:ℝ)..1,
        ch (BRDF.sample_wi m (BRDF.LinearBlend w A B) wi0 wo n p0 (G u ω)).estimate)
        = w * ch (BRDF.sample_wi m A wi0 wo n 0 (R ω)).estimate
          + (1 - w) * ch (BRDF.sample_wi m B wi0 wo n 0 (R ω)).estimate := by
      intro ω
      rw [intervalIntegral.integral_congr (hblend ω)]
      exact integral_select_const w _ _ hw0 hw1
    simp only [inner]
    rw [integral_add (hA.const_mul w) (hB.const_mul (1 - w)), integral_mul_left,
      integral_mul_left]
  refine ⟨key, fun eA eB => ?_⟩
  rw [key, eA, eB]
  simp only [BRDF.f, hch]
  rw [integral_add (hfA.const_mul w) (hfB.const_mul (1 - w)), integral_mul_left,
    integral_mul_left]

end Expectation

section ExpectationWitness

open MeasureTheory

/-- Witness for C14: children `Diffuse(1,1,1)` and `Diffuse(0,0,0)`, `w = 1/2`.
The generator returns `0` (so `randf() = 0`) when `u < 1/2` and its maximum
(so `randf() = 1`) otherwise, and `3435973836` from then on; the children's
estimates are `5/4` and `0` in the first channel and the expectation of the
blend's estimate over `u` is `5/8`. -/
theorem blend_estimator_unbiased_witness :
    let m : MathOps ℝ := MathOps.mk Real.pi Real.sqrt (fun x y => x ^ y) Real.cos Real.sin
      Real.arccos (fun y x => Complex.arg ⟨x, y⟩) 340282346638528859811704183484516925440
    let G : ℝ → ℝ → Gen := fun u _ i =>
      if i = 0 then (if u < 1 / 2 then 0 else 4294967295) else 3435973836
    let blend : BRDF ℝ :=
      BRDF.LinearBlend (1 / 2) (BRDF.Diffuse ⟨1, 1, 1⟩) (BRDF.Diffuse ⟨0, 0, 0⟩)
    (0 : ℝ) ≤ 1 / 2 ∧ (1 / 2 : ℝ) ≤ 1
      ∧ (∀ (u ω : ℝ), 0 ≤ u → u ≤ 1 → ((randf (F := ℝ) (G u ω)).1 < 1 / 2 ↔ u < 1 / 2))
      ∧ (∀ (u ω : ℝ), (randf (F := ℝ) (G u ω)).2 = constGen 3435973836)
      ∧ ∫ _ω, (BRDF.sample_wi m (BRDF.Diffuse ⟨1, 1, 1⟩) ⟨0, 0, 0⟩ ⟨0, 0, 1⟩ ⟨0, 0, 1⟩ 0
          (constGen 3435973836)).estimate.x ∂(Measure.dirac (0 : ℝ)) = 5 / 4
      ∧ ∫ _ω, (BRDF.sample_wi m (BRDF.Diffuse ⟨0, 0, 0⟩) ⟨0, 0, 0⟩ ⟨0, 0, 1⟩ ⟨0, 0, 1⟩ 0
          (constGen 3435973836)).estimate.x ∂(Measure.dirac (0 : ℝ)) = 0
      ∧ ∫ ω, (∫ u in (0:ℝ)..1,
          (BRDF.sample_wi m blend ⟨0, 0, 0⟩ ⟨0, 0, 1⟩ ⟨0, 0, 1⟩ 7 (G u ω)).estimate.x)
            ∂(Measure.dirac (0 : ℝ))
        = 5 / 8 := by
  intro m G blend
  have hm : m.Exact := realOps_exact
  have hsel : ∀ (u ω : ℝ), 0 ≤ u → u ≤ 1 →
      ((randf (F := ℝ) (G u ω)).1 < 1 / 2 ↔ u < 1 / 2) := by
    intro u ω _ _
    by_cases h : u < 1 / 2
    · have g0 : G u ω 0 = 0 := by
        show (if (0 : ℕ) = 0 then (if u < 1 / 2 then 0 else 4294967295) else 3435973836)
          = (0 : Fin 4294967296)
        rw [if_pos rfl, if_pos h]
      have e : (randf (F := ℝ) (G u ω)).1 = 0 := by
        show ((G u ω 0).val : ℝ) / 4294967295 = 0
        rw [g0]
        simp
      rw [e]
      exact ⟨fun _ => h, fun _ => by norm_num⟩
    · have g0 : G u ω 0 = 4294967295 := by
        show (if (0 : ℕ) = 0 then (if u < 1 / 2 then 0 else 4294967295) else 3435973836)
          = (4294967295 : Fin 4294967296)
        rw [if_pos rfl, if_neg h]
      have e : (randf (F := ℝ) (G u ω)).1 = 1 := by
        show ((G u ω 0).val : ℝ) / 4294967295 = 1
        rw [g0]
        have hv : ((4294967295 : Fin 4294967296).val : ℝ) = 4294967295 := by
          have : (4294967295 : Fin 4294967296).val = 4294967295 := rfl
          rw [this]
          norm_num
        rw [hv]
        norm_num
      rw [e]
      exact ⟨fun h1 => absurd h1 (by norm_num), fun h1 => absurd h1 h⟩
  have hrest : ∀ (u ω : ℝ), (randf (F := ℝ) (G u ω)).2 = constGen 3435973836 := by
    intro u ω
    funext i
    simp [randf, G, constGen]
  have eA : ∫ _ω, (BRDF.sample_wi m (BRDF.Diffuse ⟨1, 1, 1⟩) ⟨0, 0, 0⟩ ⟨0, 0, 1⟩ ⟨0, 0, 1⟩ 0
      (constGen 3435973836)).estimate.x ∂(Measure.dirac (0 : ℝ)) = 5 / 4 := by
    rw [integral_dirac]
    show (Diffuse.sample_wi m _ _ _ _ _ _).estimate.x = 5 / 4
    rw [diffuse_estimate_ez hm]
    simp
  have eB : ∫ _ω, (BRDF.sample_wi m (BRDF.Diffuse ⟨0, 0, 0⟩) ⟨0, 0, 0⟩ ⟨0, 0, 1⟩ ⟨0, 0, 1⟩ 0
      (constGen 3435973836)).estimate.x ∂(Measure.dirac (0 : ℝ)) = 0 := by
    rw [integral_dirac]
    show (Diffuse.sample_wi m _ _ _ _ _ _).estimate.x = 0
    rw [diffuse_estimate_ez hm]
    simp
  refine ⟨by norm_num, by norm_num, hsel, hrest, eA, eB, ?_⟩
  have h := (blend_estimator_unbiased (Measure.dirac (0 : ℝ)) (Measure.dirac (0 : ℝ))
    (fun _ => ⟨0, 0, 1⟩) m (1 / 2) (BRDF.Diffuse ⟨1, 1, 1⟩) (BRDF.Diffuse ⟨0, 0, 0⟩)
    ⟨0, 0, 0⟩ ⟨0, 0, 1⟩ ⟨0, 0, 1⟩ 7 G (fun _ => constGen 3435973836) Vec3.x
    (fun _ _ _ _ => rfl) (by norm_num) (by norm_num) hsel hrest
    (integrable_const _) (integrable_const _) (integrable_const _) (integrable_const _)).1
  rw [h, eA, eB]
  norm_num

end ExpectationWitness

/-- Claim C15: `BlinnPhong::reflection_brdf(wi, wo, n)` is the zero vector when
`dot(n, wi) <= 0` or `dot(n, wo) <= 0` and otherwise has, in every channel, the
value `F * D * G / (4 * (n.wo) * (n.wi))` with `wh = normalize(wi + wo)`,
`F = R0 + (1 - R0) * pow(1 - |wh.wi|, 5)`,
`D = (shininess + 2) / (2 * pi) * pow(n.wh, shininess)` and
`G = min(1, 2 (n.wh)(n.wo) / (wo.wh), 2 (n.wh)(n.wi) / (wo.wh))`. -/
theorem reflection_brdf_spec {F : Type} [LinearOrderedField F] (m : MathOps F)
    (shininess R0 : F) (wi wo n : Vec3 F) :
    BlinnPhong.reflection_brdf m shininess R0 wi wo n
      = (if dot n wi ≤ 0 ∨ dot n wo ≤ 0 then Vec3.splat 0
         else Vec3.splat
          ((R0 + (1 - R0) * m.pow (1 - |dot (normalize m (wi + wo)) wi|) 5)
            * ((shininess + 2) / (2 * m.pi) * m.pow (dot n (normalize m (wi + wo))) shininess)
            * min 1 (min
                (2 * (dot n (normalize m (wi + wo)) * dot n wo / dot wo (normalize m (wi + wo))))
                (2 * (dot n (normalize m (wi + wo)) * dot n wi / dot wo (normalize m (wi + wo)))))
            / (4 * dot n wo * dot n wi))) := by
  unfold BlinnPhong.reflection_brdf fresnel
  by_cases h1 : dot n wi ≤ 0
  · simp [h1]
  · by_cases h2 : dot n wo ≤ 0
    · simp [h1, h2]
    · simp [h1, h2]

/-- Claim C16: for a `BlinnPhong` node whose `refraction_layer` is `NULL` (also a
`BlinnPhongMetal` node), `dot(wo, n) > 0` and a third variate `>= 0.5`,
`sample_wi` returns the zero vector as weight; and `refraction_brdf` of such a
node is the zero vector for all `wi`, `wo`, `n`. -/
theorem null_layer_refraction_weight {F : Type} [LinearOrderedField F] (m : MathOps F)
    (color : Vec3 F) (shininess R0 : F) (wi0 wo n : Vec3 F) (p0 : F) (g : Gen)
    (hwo : 0 < dot wo n) (hsel : (1 / 2 : F) ≤ BlinnPhong.selector g) :
    (BRDF.sample_wi m (BRDF.BlinnPhong shininess R0 none) wi0 wo n p0 g).weight = Vec3.splat 0
      ∧ (BRDF.sample_wi m (BRDF.BlinnPhongMetal color shininess R0) wi0 wo n p0 g).weight
          = Vec3.splat 0
      ∧ (∀ wi1 wo1 n1 : Vec3 F,
          BlinnPhong.refraction_brdf m R0 none wi1 wo1 n1 = Vec3.splat 0)
      ∧ (∀ wi1 wo1 n1 : Vec3 F,
          BlinnPhongMetal.refraction_brdf wi1 wo1 n1 = Vec3.splat 0) := by
  refine ⟨?_, ?_, fun _ _ _ => rfl, fun _ _ _ => rfl⟩
  · simp only [BRDF.sample_wi]
    rw [BlinnPhong_sample_wi_null_refraction m shininess R0 _ wi0 wo n p0 g hwo hsel]
  · simp only [BRDF.sample_wi]
    rw [BlinnPhong_sample_wi_null_refraction m shininess R0 _ wi0 wo n p0 g hwo hsel]

/-- Witness for C16: `wo = n = (0, 0, 1)` and a generator with `randf = 4/5`. -/
theorem null_layer_refraction_weight_witness :
    0 < dot (⟨0, 0, 1⟩ : Vec3 ℚ) ⟨0, 0, 1⟩
      ∧ (1 / 2 : ℚ) ≤ BlinnPhong.selector (constGen 3435973836)
      ∧ (BRDF.sample_wi tableOps (BRDF.BlinnPhong 1 0 none) ⟨1, 0, 0⟩ ⟨0, 0, 1⟩ ⟨0, 0, 1⟩ 1
          (constGen 3435973836)).weight = Vec3.splat 0 :=
  ⟨by with_unfolding_all decide, by with_unfolding_all decide,
   (null_layer_refraction_weight tableOps ⟨1, 1, 1⟩ 1 0 ⟨1, 0, 0⟩ ⟨0, 0, 1⟩ ⟨0, 0, 1⟩ 1
     (constGen 3435973836) (by with_unfolding_all decide) (by with_unfolding_all decide)).1⟩

/-- Claim C17, as amended: for a `BlinnPhong` node whose `refraction_layer` is
`NULL` (also a `BlinnPhongMetal` node), a call of `sample_wi` that takes the
refraction branch returns without assigning `p` or `wi`: the caller's variable
keeps the value `p0` it held before the call.  When the node is sampled
through `LinearBlend::sample_wi`, which stores `p = 0` before it delegates,
the pdf returned is `0` whatever the caller's variable held; this is the case
of the `BlinnPhongMetal` leaf of the material tree that `Li` samples, whose
result does not depend on the caller's `p` at all. -/
theorem null_layer_refraction_keeps_pdf {F : Type} [LinearOrderedField F] (m : MathOps F)
    (color : Vec3 F) (shininess R0 : F) (wi0 wo n : Vec3 F) (p0 : F) (g : Gen)
    (hwo : 0 < dot wo n) (hsel : (1 / 2 : F) ≤ BlinnPhong.selector g) :
    (BRDF.sample_wi m (BRDF.BlinnPhong shininess R0 none) wi0 wo n p0 g).p = p0
      ∧ (BRDF.sample_wi m (BRDF.BlinnPhong shininess R0 none) wi0 wo n p0 g).wi = wi0
      ∧ (BRDF.sample_wi m (BRDF.BlinnPhongMetal color shininess R0) wi0 wo n p0 g).p = p0
      ∧ (BRDF.sample_wi m (BRDF.BlinnPhongMetal color shininess R0) wi0 wo n p0 g).wi = wi0
      ∧ (∀ (w : F) (other : BRDF F) (g0 : Gen),
          (randf (F := F) g0).2 = g → (randf g0).1 < w →
          (BRDF.sample_wi m (BRDF.LinearBlend w (BRDF.BlinnPhong shininess R0 none) other)
              wi0 wo n p0 g0).p = 0
          ∧ (BRDF.sample_wi m
              (BRDF.LinearBlend w (BRDF.BlinnPhongMetal color shininess R0) other)
              wi0 wo n p0 g0).p = 0)
      ∧ (∀ (mat : Material F) (g0 : Gen),
          mat.m_color = color → mat.m_shininess = shininess → mat.m_fresnel = R0 →
          (randf (F := F) (randf (F := F) g0).2).2 = g →
          (randf g0).1 < mat.m_reflectivity →
          (randf (randf (F := F) g0).2).1 < mat.m_metalness →
          (BRDF.sample_wi m (materialTree mat) wi0 wo n p0 g0).p = 0
          ∧ (BRDF.sample_wi m (materialTree mat) wi0 wo n p0 g0).weight = Vec3.splat 0)
      ∧ (∀ (mat : Material F) (g0 : Gen) (p1 : F),
          BRDF.sample_wi m (materialTree mat) wi0 wo n p0 g0
            = BRDF.sample_wi m (materialTree mat) wi0 wo n p1 g0) := by
  refine ⟨?_, ?_, ?_, ?_, ?_, ?_, ?_⟩
  · simp only [BRDF.sample_wi]
    rw [BlinnPhong_sample_wi_null_refraction m shininess R0 _ wi0 wo n p0 g hwo hsel]
  · simp only [BRDF.sample_wi]
    rw [BlinnPhong_sample_wi_null_refraction m shininess R0 _ wi0 wo n p0 g hwo hsel]
  · simp only [BRDF.sample_wi]
    rw [BlinnPhong_sample_wi_null_refraction m shininess R0 _ wi0 wo n p0 g hwo hsel]
  · simp only [BRDF.sample_wi]
    rw [BlinnPhong_sample_wi_null_refraction m shininess R0 _ wi0 wo n p0 g hwo hsel]
  · intro w other g0 hg hlt
    simp only [BRDF.sample_wi, if_pos hlt, hg]
    rw [BlinnPhong_sample_wi_null_refraction m shininess R0 _ wi0 wo n 0 g hwo hsel,
      BlinnPhong_sample_wi_null_refraction m shininess R0 _ wi0 wo n 0 g hwo hsel]
    exact ⟨rfl, rfl⟩
  · intro mat g0 hc hs hr hg h1 h2
    simp only [materialTree, BRDF.sample_wi, if_pos h1, if_pos h2, hg, hc, hs, hr]
    rw [BlinnPhong_sample_wi_null_refraction m shininess R0 _ wi0 wo n 0 g hwo hsel]
    exact ⟨rfl, rfl⟩
  · intro mat g0 p1
    simp only [materialTree, BRDF.sample_wi]

/-- Witness for C17: the material tree of a fully reflective, fully metallic
material, sampled with the caller's variable holding `1`: both blends select
their first child, the metal leaf takes the refraction branch and the pdf
returned is the `0` stored by `LinearBlend::sample_wi`. -/
theorem null_layer_refraction_keeps_pdf_witness :
    0 < dot (⟨0, 0, 1⟩ : Vec3 ℚ) ⟨0, 0, 1⟩
      ∧ (1 / 2 : ℚ) ≤ BlinnPhong.selector (constGen 3435973836)
      ∧ (randf (F := ℚ) (constGen 3435973836)).1 < (shinyMaterial 1).m_reflectivity
      ∧ (randf (randf (F := ℚ) (constGen 3435973836)).2).1 < (shinyMaterial 1).m_metalness
      ∧ (BRDF.sample_wi tableOps (materialTree (shinyMaterial 1)) ⟨1, 0, 0⟩ ⟨0, 0, 1⟩
          ⟨0, 0, 1⟩ 1 (constGen 3435973836)).p = 0 :=
  ⟨by with_unfolding_all decide, by with_unfolding_all decide, by with_unfolding_all decide,
   by with_unfolding_all decide,
   ((null_layer_refraction_keeps_pdf tableOps ⟨1, 1, 1⟩ 1 0 ⟨1, 0, 0⟩ ⟨0, 0, 1⟩ ⟨0, 0, 1⟩ 1
     (constGen 3435973836) (by with_unfolding_all decide)
     (by with_unfolding_all decide)).2.2.2.2.2.1 (shinyMaterial 1) (constGen 3435973836)
     rfl rfl rfl rfl (by with_unfolding_all decide) (by with_unfolding_all decide)).1⟩

/-- Counterexample for C17: a `BlinnPhong` node without layer, `wo = n =
(0, 0, 1)` and `randf = 4/5`, so that the refraction branch is taken, called
with the caller's variable holding `1`: the pdf after the call is `1`, not
`0`. -/
theorem null_layer_refraction_pdf_not_zero :
    0 < dot (⟨0, 0, 1⟩ : Vec3 ℚ) ⟨0, 0, 1⟩
      ∧ (1 / 2 : ℚ) ≤ BlinnPhong.selector (constGen 3435973836)
      ∧ (BRDF.sample_wi tableOps (BRDF.BlinnPhong 1 0 none) ⟨1, 0, 0⟩ ⟨0, 0, 1⟩ ⟨0, 0, 1⟩ 1
          (constGen 3435973836)).p = 1
      ∧ (BRDF.sample_wi tableOps (BRDF.BlinnPhong 1 0 none) ⟨1, 0, 0⟩ ⟨0, 0, 1⟩ ⟨0, 0, 1⟩ 1
          (constGen 3435973836)).p ≠ 0 :=
  ⟨by with_unfolding_all decide, by with_unfolding_all decide, by with_unfolding_all decide,
   by with_unfolding_all decide⟩

/-- Claim C18: when `cos^2 + sin^2 = 1`, the point `(x, y)` produced by
`concentricSampleDisk` satisfies `x^2 + y^2 <= 1`, for all uniform inputs
`(u1, u2)` in `[0, 1)^2` and for every state of the generator. -/
theorem concentric_in_unit_disk {F : Type} [LinearOrderedField F] (m : MathOps F)
    (hcs : ∀ t : F, m.cos t ^ 2 + m.sin t ^ 2 = 1) :
    (∀ u1 u2 : F, 0 ≤ u1 → u1 < 1 → 0 ≤ u2 → u2 < 1 →
        (concentricMap m u1 u2).1 ^ 2 + (concentricMap m u1 u2).2 ^ 2 ≤ 1)
      ∧ ∀ g : Gen,
        (concentricSampleDisk m g).1 ^ 2 + (concentricSampleDisk m g).2.1 ^ 2 ≤ 1 := by
  refine ⟨fun u1 u2 a b c d => concentricMap_sq m hcs u1 u2 a b.le c d.le, fun g => ?_⟩
  rw [concentricSampleDisk_eq_map]
  exact concentricMap_sq m hcs _ _ (randf_mem_unit g).1 (randf_mem_unit g).2
    (randf_mem_unit _).1 (randf_mem_unit _).2

/-- Witness for C18: the real cosine and sine, inputs `(1/4, 3/4)`. -/
theorem concentric_in_unit_disk_witness :
    let m : MathOps ℝ := MathOps.mk Real.pi Real.sqrt (fun x y => x ^ y) Real.cos Real.sin
      Real.arccos (fun y x => Complex.arg ⟨x, y⟩) 340282346638528859811704183484516925440
    (concentricMap m (1 / 4) (3 / 4)).1 ^ 2 + (concentricMap m (1 / 4) (3 / 4)).2 ^ 2 ≤ 1
      ∧ (concentricSampleDisk m (constGen 3435973836)).1 ^ 2
          + (concentricSampleDisk m (constGen 3435973836)).2.1 ^ 2 ≤ 1 := by
  intro m
  have h := concentric_in_unit_disk m Real.cos_sq_add_sin_sq
  exact ⟨h.1 (1 / 4) (3 / 4) (by norm_num) (by norm_num) (by norm_num) (by norm_num),
    h.2 (constGen 3435973836)⟩

/-- Claim C19: when `cos^2 + sin^2 = 1` and `sqrt` is the non-negative root of a
non-negative argument, the vector `(x, y, z)` returned by
`cosineSampleHemisphere` satisfies `z >= 0`, `x^2 + y^2 + z^2 = 1` and
`z = sqrt(max(0, 1 - x^2 - y^2))`, for all uniform inputs in `[0, 1)^2` and for
every state of the generator. -/
theorem hemisphere_sample_unit {F : Type} [LinearOrderedField F] (m : MathOps F)
    (hcs : ∀ t : F, m.cos t ^ 2 + m.sin t ^ 2 = 1)
    (hs0 : ∀ a : F, 0 ≤ m.sqrt a)
    (hs : ∀ a : F, 0 ≤ a → m.sqrt a * m.sqrt a = a) :
    (∀ u1 u2 : F, 0 ≤ u1 → u1 < 1 → 0 ≤ u2 → u2 < 1 →
        0 ≤ (hemisphereMap m u1 u2).z
        ∧ (hemisphereMap m u1 u2).x ^ 2 + (hemisphereMap m u1 u2).y ^ 2
            + (hemisphereMap m u1 u2).z ^ 2 = 1
        ∧ (hemisphereMap m u1 u2).z
            = m.sqrt (max 0 (1 - (hemisphereMap m u1 u2).x ^ 2
                - (hemisphereMap m u1 u2).y ^ 2)))
      ∧ ∀ g : Gen,
        0 ≤ (cosineSampleHemisphere m g).1.z
        ∧ (cosineSampleHemisphere m g).1.x ^ 2 + (cosineSampleHemisphere m g).1.y ^ 2
            + (cosineSampleHemisphere m g).1.z ^ 2 = 1
        ∧ (cosineSampleHemisphere m g).1.z
            = m.sqrt (max 0 (1 - (cosineSampleHemisphere m g).1.x ^ 2
                - (cosineSampleHemisphere m g).1.y ^ 2)) := by
  refine ⟨fun u1 u2 a b c d => hemisphereMap_unit m hcs hs0 hs u1 u2 a b.le c d.le,
    fun g => ?_⟩
  rw [cosineSampleHemisphere_eq_map]
  exact hemisphereMap_unit m hcs hs0 hs _ _ (randf_mem_unit g).1 (randf_mem_unit g).2
    (randf_mem_unit _).1 (randf_mem_unit _).2

/-- Witness for C19: the real cosine, sine and square root, inputs
`(1/4, 3/4)`. -/
theorem hemisphere_sample_unit_witness :
    let m : MathOps ℝ := MathOps.mk Real.pi Real.sqrt (fun x y => x ^ y) Real.cos Real.sin
      Real.arccos (fun y x => Complex.arg ⟨x, y⟩) 340282346638528859811704183484516925440
    0 ≤ (hemisphereMap m (1 / 4) (3 / 4)).z
      ∧ (hemisphereMap m (1 / 4) (3 / 4)).x ^ 2 + (hemisphereMap m (1 / 4) (3 / 4)).y ^ 2
          + (hemisphereMap m (1 / 4) (3 / 4)).z ^ 2 = 1 := by
  intro m
  have h := (hemisphere_sample_unit m Real.cos_sq_add_sin_sq Real.sqrt_nonneg
    (fun _ ha => Real.mul_self_sqrt ha)).1 (1 / 4) (3 / 4)
    (by norm_num) (by norm_num) (by norm_num) (by norm_num)
  exact ⟨h.1, h.2.1⟩

/-- Claim C20: `perpendicular(n)` is `(0, -n.z, n.y)` when `|n.x| < |n.y|` and
`(-n.z, 0, n.x)` otherwise, and in both cases `dot(perpendicular(n), n) = 0`. -/
theorem perpendicular_orthogonal {F : Type} [LinearOrderedField F] (n : Vec3 F) :
    perpendicular n = (if |n.x| < |n.y| then ⟨0, -n.z, n.y⟩ else ⟨-n.z, 0, n.x⟩)
      ∧ dot (perpendicular n) n = 0 := by
  refine ⟨rfl, ?_⟩
  unfold perpendicular
  split_ifs <;> simp only [dot] <;> ring

/-! ## Claims about the generators, the environment lookup and the sampled directions -/

theorem perpendicular_sq_length {F : Type} [LinearOrderedField F] (n : Vec3 F)
    (hn : dot n n = 1) :
    dot (perpendicular n) (perpendicular n) = 1 - min (n.x ^ 2) (n.y ^ 2) := by
  simp only [dot] at hn
  unfold perpendicular
  split_ifs with h
  · have hxy : n.x ^ 2 ≤ n.y ^ 2 := (sq_lt_sq.mpr h).le
    rw [min_eq_left hxy]
    simp only [dot]
    linarith
  · have hxy : n.y ^ 2 ≤ n.x ^ 2 := sq_le_sq.mpr (not_lt.mp h)
    rw [min_eq_right hxy]
    simp only [dot]
    linarith

theorem normalize_unit {F : Type} [LinearOrderedField F] {m : MathOps F} (hm : m.Exact)
    (v : Vec3 F) (hv : 0 < dot v v) : dot (normalize m v) (normalize m v) = 1 := by
  have h1 := hm.sqrt_mul_self (dot v v) hv.le
  have h2 : m.sqrt (dot v v) ≠ 0 := by
    intro h0
    rw [h0] at h1
    simp at h1
    exact hv.ne h1
  have h3 : dot (normalize m v) (normalize m v)
      = dot v v / (m.sqrt (dot v v) * m.sqrt (dot v v)) := by
    simp only [normalize, dot, Vec3.divS_x, Vec3.divS_y, Vec3.divS_z]
    field_simp
  rw [h3, h1]
  exact div_self hv.ne'

/-- Claim C21, as amended: for every unit-length vector `n` the squared length
of `perpendicular(n)` is `1 - min(n.x^2, n.y^2)`; it lies between `1/2` and `1`
and is `1` exactly when `n.x = 0` or `n.y = 0`.  The vector the callers use,
`normalize(perpendicular(n))`, has length `1` (real arithmetic). -/
theorem perpendicular_length {F : Type} [LinearOrderedField F] (n : Vec3 F)
    (hn : dot n n = 1) :
    dot (perpendicular n) (perpendicular n) = 1 - min (n.x ^ 2) (n.y ^ 2)
      ∧ 1 / 2 ≤ dot (perpendicular n) (perpendicular n)
      ∧ dot (perpendicular n) (perpendicular n) ≤ 1
      ∧ (dot (perpendicular n) (perpendicular n) = 1 ↔ n.x = 0 ∨ n.y = 0)
      ∧ ∀ m : MathOps F, m.Exact →
          dot (normalize m (perpendicular n)) (normalize m (perpendicular n)) = 1
          ∧ length m (normalize m (perpendicular n)) = 1 := by
  have h := perpendicular_sq_length n hn
  have hmin0 : 0 ≤ min (n.x ^ 2) (n.y ^ 2) := le_min (sq_nonneg _) (sq_nonneg _)
  have hminle : min (n.x ^ 2) (n.y ^ 2) ≤ 1 / 2 := by
    have h1 : min (n.x ^ 2) (n.y ^ 2) ≤ n.x ^ 2 := min_le_left _ _
    have h2 : min (n.x ^ 2) (n.y ^ 2) ≤ n.y ^ 2 := min_le_right _ _
    simp only [dot] at hn
    nlinarith [sq_nonneg n.z]
  refine ⟨h, by rw [h]; linarith, by rw [h]; linarith, ?_, ?_⟩
  · rw [h]
    constructor
    · intro e
      have e0 : min (n.x ^ 2) (n.y ^ 2) = 0 := by linarith
      rcases min_choice (n.x ^ 2) (n.y ^ 2) with hc | hc
      · left; rw [hc] at e0; exact pow_eq_zero_iff (by norm_num) |>.mp e0
      · right; rw [hc] at e0; exact pow_eq_zero_iff (by norm_num) |>.mp e0
    · rintro (e | e)
      · have : min (n.x ^ 2) (n.y ^ 2) = 0 := by
          rw [e]; simp [sq_nonneg]
        rw [this]; ring
      · have : min (n.x ^ 2) (n.y ^ 2) = 0 := by
          rw [e]; simp [sq_nonneg]
        rw [this]; ring
  · intro m hm
    have hpos : 0 < dot (perpendicular n) (perpendicular n) := by rw [h]; linarith
    have hu := normalize_unit hm (perpendicular n) hpos
    refine ⟨hu, ?_⟩
    simp only [length]
    rw [hu]
    exact hm.sqrt_one

/-- Witness for C21: `n = (3/5, 4/5, 0)` is a unit vector and `perpendicular(n)`
has squared length `16/25 = 1 - (3/5)^2`. -/
theorem perpendicular_length_witness :
    dot (⟨3 / 5, 4 / 5, 0⟩ : Vec3 ℚ) ⟨3 / 5, 4 / 5, 0⟩ = 1
      ∧ dot (perpendicular (⟨3 / 5, 4 / 5, 0⟩ : Vec3 ℚ))
          (perpendicular (⟨3 / 5, 4 / 5, 0⟩ : Vec3 ℚ)) = 1 - min ((3 / 5) ^ 2) ((4 / 5) ^ 2) :=
  ⟨by with_unfolding_all decide,
   (perpendicular_length (⟨3 / 5, 4 / 5, 0⟩ : Vec3 ℚ) (by with_unfolding_all decide)).1⟩

/-- Counterexample for C21, over the reals: `n = (3/5, 4/5, 0)` has length `1`,
`perpendicular(n) = (0, 0, 4/5)` has length `4/5`. -/
theorem perpendicular_not_unit :
    let m : MathOps ℝ := MathOps.mk Real.pi Real.sqrt (fun x y => x ^ y) Real.cos Real.sin
      Real.arccos (fun y x => Complex.arg ⟨x, y⟩) 340282346638528859811704183484516925440
    length m (⟨3 / 5, 4 / 5, 0⟩ : Vec3 ℝ) = 1
      ∧ perpendicular (⟨3 / 5, 4 / 5, 0⟩ : Vec3 ℝ) = ⟨0, 0, 4 / 5⟩
      ∧ length m (perpendicular (⟨3 / 5, 4 / 5, 0⟩ : Vec3 ℝ)) = 4 / 5
      ∧ length m (perpendicular (⟨3 / 5, 4 / 5, 0⟩ : Vec3 ℝ)) ≠ 1 := by
  intro m
  have hm : m.Exact := realOps_exact
  have hp : perpendicular (⟨3 / 5, 4 / 5, 0⟩ : Vec3 ℝ) = ⟨0, 0, 4 / 5⟩ := by
    have h : |(3 / 5 : ℝ)| < |(4 / 5 : ℝ)| := by
      rw [abs_of_pos (by norm_num), abs_of_pos (by norm_num)]; norm_num
    simp only [perpendicular, if_pos h]
    norm_num
  have h1 : length m (⟨3 / 5, 4 / 5, 0⟩ : Vec3 ℝ) = 1 :=
    hm.sqrt_sq_eq _ 1 zero_le_one (by simp only [dot]; norm_num)
  have h2 : length m (perpendicular (⟨3 / 5, 4 / 5, 0⟩ : Vec3 ℝ)) = 4 / 5 := by
    rw [hp]
    exact hm.sqrt_sq_eq _ (4 / 5) (by norm_num) (by simp only [dot]; norm_num)
  exact ⟨h1, hp, h2, by rw [h2]; norm_num⟩

theorem roundHalfEven_bounds (q : ℚ) : ⌊q⌋ ≤ roundHalfEven q ∧ roundHalfEven q ≤ ⌊q⌋ + 1 := by
  unfold roundHalfEven
  split_ifs <;> constructor <;> omega

theorem roundHalfEven_mem (q : ℚ) (a b : ℤ) (ha : (a : ℚ) ≤ q) (hb : q ≤ (b : ℚ)) :
    a ≤ roundHalfEven q ∧ roundHalfEven q ≤ b := by
  obtain ⟨h1, h2⟩ := roundHalfEven_bounds q
  have h3 : a ≤ ⌊q⌋ := Int.le_floor.mpr ha
  refine ⟨by omega, ?_⟩
  rcases hb.lt_or_eq with h | h
  · have : ⌊q⌋ < b := Int.floor_lt.mpr h
    omega
  · have e : roundHalfEven q = b := by
      unfold roundHalfEven
      rw [h, Int.floor_intCast]
      simp
    omega

theorem roundHalfEven_ge_iff (q : ℚ) (K : ℤ) (hK : K % 2 = 0) :
    K ≤ roundHalfEven q ↔ (K : ℚ) - 1 / 2 ≤ q := by
  have hf1 : (⌊q⌋ : ℚ) ≤ q := Int.floor_le q
  have hf2 : q < (⌊q⌋ : ℚ) + 1 := Int.lt_floor_add_one q
  constructor
  · intro h
    by_contra hq
    push_neg at hq
    have h1 : ⌊q⌋ ≤ K - 1 := by
      have : (⌊q⌋ : ℚ) < (K : ℚ) := by linarith
      have : ⌊q⌋ < K := by exact_mod_cast this
      omega
    rcases h1.lt_or_eq with h2 | h2
    · have := (roundHalfEven_bounds q).2
      omega
    · have hr : q - ⌊q⌋ < 1 / 2 := by
        rw [h2]
        push_cast
        linarith
      have e : roundHalfEven q = ⌊q⌋ := by
        unfold roundHalfEven
        rw [if_pos hr]
      omega
  · intro hq
    have h1 : K - 1 ≤ ⌊q⌋ := by
      apply Int.le_floor.mpr
      push_cast
      linarith
    rcases h1.lt_or_eq with h2 | h2
    · have := (roundHalfEven_bounds q).1
      omega
    · have hr : ¬ q - ⌊q⌋ < 1 / 2 := by
        rw [← h2]
        push_cast
        linarith
      unfold roundHalfEven
      rw [if_neg hr]
      split_ifs <;> omega

theorem log_two_eq (q : ℚ) (k : ℤ) (h1 : (2 : ℚ) ^ k ≤ q) (h2 : q < (2 : ℚ) ^ (k + 1)) :
    Int.log 2 q = k := by
  have hq : 0 < q := lt_of_lt_of_le (by positivity) h1
  have a : k ≤ Int.log 2 q := (Int.zpow_le_iff_le_log (by norm_num) hq).mp (by exact_mod_cast h1)
  have b : Int.log 2 q < k + 1 :=
    (Int.lt_zpow_iff_log_lt (by norm_num) hq).mp (by exact_mod_cast h2)
  omega

theorem roundToBits_upper_half (prec : ℕ) (q : ℚ) (h1 : 1 / 2 ≤ q) (h2 : q < 1) :
    roundToBits prec q = (roundHalfEven (q * 2 ^ prec) : ℚ) / 2 ^ prec := by
  have hq : 0 < q := by linarith
  have hl : Int.log 2 |q| = -1 := by
    rw [abs_of_pos hq]
    apply log_two_eq
    · rw [zpow_neg_one]; linarith
    · simpa using h2
  have he : (2 : ℚ) ^ (Int.log 2 |q| - (prec : ℤ) + 1) = ((2 : ℚ) ^ prec)⁻¹ := by
    rw [hl, ← zpow_natCast, ← zpow_neg]
    congr 1
    ring
  unfold roundToBits
  rw [if_neg hq.ne', he, div_inv_eq_mul]
  rfl

theorem roundToBits_small (prec : ℕ) (q : ℚ) (h0 : 0 < q) (h1 : q < 1) :
    0 ≤ roundToBits prec q ∧ roundToBits prec q ≤ 2 ^ (Int.log 2 q + 1)
      ∧ (2 : ℚ) ^ (Int.log 2 q + 1) ≤ 1 ∧ (q < 1 / 2 → (2 : ℚ) ^ (Int.log 2 q + 1) ≤ 1 / 2) := by
  have hlo : ((2 : ℕ) : ℚ) ^ Int.log 2 q ≤ q := Int.zpow_log_le_self (by norm_num) h0
  have hhi : q < ((2 : ℕ) : ℚ) ^ (Int.log 2 q + 1) := Int.lt_zpow_succ_log_self (by norm_num) q
  simp only [Nat.cast_ofNat] at hlo hhi
  set e := Int.log 2 q with he
  have hupos : (0 : ℚ) < 2 ^ (e - (prec : ℤ) + 1) := by positivity
  have ht : q / 2 ^ (e - (prec : ℤ) + 1) ≤ (((2 : ℤ) ^ prec : ℤ) : ℚ) := by
    rw [div_le_iff₀ hupos]
    push_cast
    rw [← zpow_natCast, ← zpow_add₀ (by norm_num : (2 : ℚ) ≠ 0)]
    have : ((prec : ℤ) + (e - (prec : ℤ) + 1)) = e + 1 := by ring
    rw [this]
    exact hhi.le
  have ht0 : (((0 : ℤ)) : ℚ) ≤ q / 2 ^ (e - (prec : ℤ) + 1) := by
    push_cast
    positivity
  obtain ⟨r0, r1⟩ := roundHalfEven_mem _ 0 ((2 : ℤ) ^ prec) ht0 ht
  have e1 : e + 1 ≤ 0 := by
    have : q < ((2 : ℕ) : ℚ) ^ (0 : ℤ) := by simpa using h1
    have := (Int.lt_zpow_iff_log_lt (by norm_num) h0).mp this
    omega
  unfold roundToBits
  rw [if_neg h0.ne', abs_of_pos h0, ← he]
  refine ⟨?_, ?_, ?_, ?_⟩
  · apply mul_nonneg _ hupos.le
    exact_mod_cast r0
  · have : (roundHalfEven (q / 2 ^ (e - (prec : ℤ) + 1)) : ℚ) ≤ (2 : ℚ) ^ prec := by
      exact_mod_cast r1
    calc (roundHalfEven (q / 2 ^ (e - (prec : ℤ) + 1)) : ℚ) * 2 ^ (e - (prec : ℤ) + 1)
        ≤ (2 : ℚ) ^ prec * 2 ^ (e - (prec : ℤ) + 1) :=
          mul_le_mul_of_nonneg_right this hupos.le
      _ = 2 ^ (e + 1) := by
          rw [← zpow_natCast, ← zpow_add₀ (by norm_num : (2 : ℚ) ≠ 0)]
          congr 1
          ring
  · have := zpow_le_zpow_right₀ (by norm_num : (1 : ℚ) ≤ 2) e1
    simpa using this
  · intro hq
    have : q < ((2 : ℕ) : ℚ) ^ (-1 : ℤ) := by
      rw [zpow_neg_one]
      simpa using hq
    have h3 := (Int.lt_zpow_iff_log_lt (by norm_num) h0).mp this
    have e2 : e + 1 ≤ -1 := by omega
    have := zpow_le_zpow_right₀ (by norm_num : (1 : ℚ) ≤ 2) e2
    rw [zpow_neg_one] at this
    simpa using this

theorem roundToBits_one (prec : ℕ) (hp : 1 ≤ prec) : roundToBits prec 1 = 1 := by
  unfold roundToBits
  rw [if_neg one_ne_zero, abs_one, Int.log_one_right]
  have e : (2 : ℚ) ^ ((0 : ℤ) - (prec : ℤ) + 1) = ((2 : ℚ) ^ (prec - 1))⁻¹ := by
    rw [← zpow_natCast, ← zpow_neg]
    congr 1
    push_cast [Nat.cast_sub hp]
    ring
  rw [e, one_div, inv_inv]
  have c : ((2 : ℚ) ^ (prec - 1)) = (((2 : ℤ) ^ (prec - 1) : ℤ) : ℚ) := by push_cast; rfl
  have r : roundHalfEven ((2 : ℚ) ^ (prec - 1)) = (2 : ℤ) ^ (prec - 1) := by
    rw [c]
    unfold roundHalfEven
    rw [Int.floor_intCast]
    simp
  rw [r]
  push_cast
  exact mul_inv_cancel₀ (by positivity)

theorem roundToBits_unit (prec : ℕ) (hp : 1 ≤ prec) (q : ℚ) (h0 : 0 ≤ q) (h1 : q ≤ 1) :
    0 ≤ roundToBits prec q ∧ roundToBits prec q ≤ 1 := by
  rcases h0.lt_or_eq with h | h
  · rcases h1.lt_or_eq with h' | h'
    · obtain ⟨a, b, c, _⟩ := roundToBits_small prec q h h'
      exact ⟨a, le_trans b c⟩
    · rw [h', roundToBits_one prec hp]
      norm_num
  · rw [← h]
    simp [roundToBits]

theorem toFloat_eq_one_iff (q : ℚ) (h0 : 0 ≤ q) (h1 : q ≤ 1) :
    toFloat q = 1 ↔ 1 - 1 / 33554432 ≤ q := by
  unfold toFloat
  rcases h0.lt_or_eq with hpos | hz
  · rcases h1.lt_or_eq with hlt | he
    · by_cases hh : q < 1 / 2
      · obtain ⟨_, b, _, d⟩ := roundToBits_small 24 q hpos hlt
        have : roundToBits 24 q ≤ 1 / 2 := le_trans b (d hh)
        constructor
        · intro e
          rw [e] at this
          norm_num at this
        · intro e
          linarith
      · have hh' : 1 / 2 ≤ q := not_lt.mp hh
        rw [roundToBits_upper_half 24 q hh' hlt]
        have hm := roundHalfEven_mem (q * 2 ^ 24) 0 16777216
          (by push_cast; positivity) (by push_cast; norm_num; linarith)
        have hge := roundHalfEven_ge_iff (q * 2 ^ 24) 16777216 (by norm_num)
        constructor
        · intro e
          have e1 : (roundHalfEven (q * 2 ^ 24) : ℚ) = 16777216 := by
            have h2 : (2 : ℚ) ^ 24 = 16777216 := by norm_num
            rw [h2] at e ⊢
            field_simp at e
            linarith
          have e2 : roundHalfEven (q * 2 ^ 24) = 16777216 := by exact_mod_cast e1
          have := hge.mp (by omega)
          push_cast at this
          norm_num at this
          linarith
        · intro e
          have : (16777216 : ℤ) ≤ roundHalfEven (q * 2 ^ 24) := by
            apply hge.mpr
            push_cast
            norm_num
            linarith
          have e2 : roundHalfEven (q * 2 ^ 24) = 16777216 := by omega
          rw [e2]
          norm_num
    · rw [he, roundToBits_one 24 (by norm_num)]
      norm_num
  · rw [← hz]
    simp [roundToBits]
    norm_num

theorem toDouble_ge_iff (q : ℚ) (h0 : 0 ≤ q) (h1 : q ≤ 1) :
    1 - 1 / 33554432 ≤ toDouble q ↔ 1 - 1 / 33554432 - 1 / 18014398509481984 ≤ q := by
  unfold toDouble
  rcases h0.lt_or_eq with hpos | hz
  · rcases h1.lt_or_eq with hlt | he
    · by_cases hh : q < 1 / 2
      · obtain ⟨_, b, _, d⟩ := roundToBits_small 53 q hpos hlt
        have : roundToBits 53 q ≤ 1 / 2 := le_trans b (d hh)
        constructor
        · intro e
          linarith
        · intro e
          linarith
      · have hh' : 1 / 2 ≤ q := not_lt.mp hh
        rw [roundToBits_upper_half 53 q hh' hlt]
        have hge := roundHalfEven_ge_iff (q * 2 ^ 53) 9007198986305536 (by norm_num)
        have h2 : (2 : ℚ) ^ 53 = 9007199254740992 := by norm_num
        rw [h2] at hge ⊢
        constructor
        · intro e
          have e1 : (9007198986305536 : ℚ) ≤ (roundHalfEven (q * 9007199254740992) : ℚ) := by
            rw [le_div_iff₀ (by norm_num)] at e
            linarith
          have e2 : (9007198986305536 : ℤ) ≤ roundHalfEven (q * 9007199254740992) := by
            exact_mod_cast e1
          have := hge.mp e2
          push_cast at this
          linarith
        · intro e
          have e2 : (9007198986305536 : ℤ) ≤ roundHalfEven (q * 9007199254740992) := by
            apply hge.mpr
            push_cast
            linarith
          have e1 : (9007198986305536 : ℚ) ≤ (roundHalfEven (q * 9007199254740992) : ℚ) := by
            exact_mod_cast e2
          rw [le_div_iff₀ (by norm_num)]
          linarith
    · rw [he, roundToBits_one 53 (by norm_num)]
      norm_num
  · rw [← hz]
    simp [roundToBits]
    norm_num

theorem quotient_mem_unit (g : Gen) :
    (0 : ℚ) ≤ ((g 0).val : ℚ) / 4294967295 ∧ ((g 0).val : ℚ) / 4294967295 ≤ 1 :=
  randf_mem_unit (F := ℚ) g

theorem randfRounded_mem_unit (g : Gen) :
    0 ≤ (randfRounded g).1 ∧ (randfRounded g).1 ≤ 1 := by
  obtain ⟨a, b⟩ := quotient_mem_unit g
  obtain ⟨c, d⟩ := roundToBits_unit 53 (by norm_num) _ a b
  exact roundToBits_unit 24 (by norm_num) _ c d

theorem randfRounded_eq_one_iff (g : Gen) :
    (randfRounded g).1 = 1 ↔ 4294967167 ≤ (g 0).val := by
  obtain ⟨a, b⟩ := quotient_mem_unit g
  have hcd : 0 ≤ toDouble (((g 0).val : ℚ) / 4294967295)
      ∧ toDouble (((g 0).val : ℚ) / 4294967295) ≤ 1 := roundToBits_unit 53 (by norm_num) _ a b
  show toFloat (toDouble (((g 0).val : ℚ) / 4294967295)) = 1 ↔ _
  rw [toFloat_eq_one_iff _ hcd.1 hcd.2, toDouble_ge_iff _ a b, le_div_iff₀ (by norm_num)]
  constructor
  · intro h
    have h2 : ((4294967166 : ℕ) : ℚ) < ((g 0).val : ℚ) := by
      push_cast
      linarith
    have : 4294967166 < (g 0).val := by exact_mod_cast h2
    omega
  · intro h
    have h2 : ((4294967167 : ℕ) : ℚ) ≤ ((g 0).val : ℚ) := by exact_mod_cast h
    push_cast at h2
    linarith

/-- Claim C22, as amended: for every 32-bit output `g` of the generator,
`randf() = float(g / double(max))` lies in the closed interval `[0, 1]`; it is
`1` exactly when `g >= 4294967167`, that is for `max = 2^32 - 1` itself and for
the `128` outputs below it whose quotient rounds to `1.0f`, and it is below
`1` for every smaller output. -/
theorem randf_range (g : Gen) :
    (randfRounded g).1 = toFloat (toDouble (randf (F := ℚ) g).1)
      ∧ (randf (F := ℚ) g).1 = ((g 0).val : ℚ) / 4294967295
      ∧ (randfRounded g).2 = (randf (F := ℚ) g).2
      ∧ 0 ≤ (randfRounded g).1 ∧ (randfRounded g).1 ≤ 1
      ∧ ((randfRounded g).1 = 1 ↔ 4294967167 ≤ (g 0).val)
      ∧ ((randfRounded g).1 < 1 ↔ (g 0).val < 4294967167) := by
  obtain ⟨h0, h1⟩ := randfRounded_mem_unit g
  have he := randfRounded_eq_one_iff g
  refine ⟨rfl, rfl, rfl, h0, h1, he, ?_⟩
  constructor
  · intro h
    by_contra hc
    have := he.mpr (by omega)
    linarith
  · intro h
    apply lt_of_le_of_ne h1
    intro e
    have := he.mp e
    omega

/-- Counterexample for C22: when the generator returns its maximum
`2^32 - 1 = 4294967295`, `randf()` is `1`, which is not below `1`; the same
holds for the output `4294967167`, whose quotient is below `1` but rounds to
`1.0f`. -/
theorem randf_reaches_one :
    (randf (F := ℚ) (constGen 4294967295)).1 = 1
      ∧ (randfRounded (constGen 4294967295)).1 = 1
      ∧ ¬ (randfRounded (constGen 4294967295)).1 < 1
      ∧ (randf (F := ℚ) (constGen 4294967167)).1 < 1
      ∧ (randfRounded (constGen 4294967167)).1 = 1
      ∧ ¬ (randfRounded (constGen 4294967167)).1 < 1 := by
  have a : (randfRounded (constGen 4294967295)).1 = 1 :=
    (randfRounded_eq_one_iff (constGen 4294967295)).mpr (by decide)
  have b : (randfRounded (constGen 4294967167)).1 = 1 :=
    (randfRounded_eq_one_iff (constGen 4294967167)).mpr (by decide)
  refine ⟨by with_unfolding_all decide, a, by rw [a]; norm_num,
    by with_unfolding_all decide, b, by rw [b]; norm_num⟩

/-- Claim C23, as amended: each worker draws from its own element of
`generators` (a call of `randf` on worker `i` leaves the generator of every
other worker untouched), but the elements are all default-constructed and
never seeded: for all worker ids `i`, `j` the initial generator states are
equal, and call number `k` of `randf` returns the same value on worker `i` as
on worker `j`. -/
theorem generators_share_state {F : Type} [LinearOrderedField F] (fresh : Gen)
    (i j : Fin 24) :
    generators fresh i = generators fresh j
      ∧ (∀ k : Nat, nthRandf (F := F) k (generators fresh i)
          = nthRandf (F := F) k (generators fresh j))
      ∧ (randfOn (F := F) (generators fresh) i).1 = (randfOn (F := F) (generators fresh) j).1
      ∧ (∀ pool : Fin 24 → Gen, i ≠ j → (randfOn (F := F) pool i).2 j = pool j)
      ∧ (∀ pool : Fin 24 → Gen,
          (randfOn (F := F) pool i).2 i = (randf (F := F) (pool i)).2) := by
  refine ⟨rfl, fun _ => rfl, rfl, fun pool h => ?_, fun pool => ?_⟩
  · simp only [randfOn, if_neg (Ne.symm h)]
  · simp only [randfOn, if_pos]

/-- Counterexample for C23: workers `0` and `1` are distinct, yet their initial
generator states (the default-constructed `std::mt19937`, seed `5489`) are
equal and every call of `randf` returns the same value on both. -/
theorem generators_not_independent :
    (0 : Fin 24) ≠ 1
      ∧ generators (mt19937 5489) 0 = generators (mt19937 5489) 1
      ∧ ∀ k : Nat, nthRandf (F := ℚ) k (generators (mt19937 5489) 0)
          = nthRandf (F := ℚ) k (generators (mt19937 5489) 1) :=
  ⟨by decide, rfl, fun _ => rfl⟩

/-- Claim C26, as the code behaves: in every iteration of `Li` the origin of the
shadow ray is `hit.position + EPSILON` with the scalar added to all three
components, and its direction is `normalize(point_light.position -
hit.position + EPSILON)`, again with the scalar added to every component.  The
origin equals `hit.position + EPSILON * hit.shading_normal` only when
`EPSILON = 0` or the shading normal is `(1, 1, 1)`; when the light has the
`x` coordinate of the hit point, the direction has a non-zero `x` component
although the unit vector toward the light has none.  The continuation ray of
the same iteration does start at `hit.position + EPSILON * hit.shading_normal`. -/
theorem shadowRay_offset {F : Type} [LinearOrderedField F] [FloorRing F]
    (c : Context F) (hit : Intersection F) :
    (shadowRay c hit).o
        = ⟨hit.position.x + c.EPSILON, hit.position.y + c.EPSILON,
           hit.position.z + c.EPSILON⟩
      ∧ (shadowRay c hit).d
        = normalize c.ops
            ⟨c.point_light.position.x - hit.position.x + c.EPSILON,
             c.point_light.position.y - hit.position.y + c.EPSILON,
             c.point_light.position.z - hit.position.z + c.EPSILON⟩
      ∧ ((shadowRay c hit).o = hit.position + Vec3.scale c.EPSILON hit.shading_normal
          ↔ c.EPSILON = 0 ∨ hit.shading_normal = ⟨1, 1, 1⟩)
      ∧ (c.EPSILON ≠ 0 → c.point_light.position.x = hit.position.x →
          c.ops.sqrt
            (dot (Vec3.addS (c.point_light.position - hit.position) c.EPSILON)
              (Vec3.addS (c.point_light.position - hit.position) c.EPSILON)) ≠ 0 →
          (shadowRay c hit).d.x ≠ 0
          ∧ (normalize c.ops (c.point_light.position - hit.position)).x = 0)
      ∧ (∀ wi : Vec3 F,
          (nextRay c hit wi).o = hit.position + Vec3.scale c.EPSILON hit.shading_normal) := by
  refine ⟨rfl, rfl, ?_, ?_, fun _ => rfl⟩
  swap
  · intro he hx hs
    constructor
    · show (c.point_light.position.x - hit.position.x + c.EPSILON) / _ ≠ 0
      rw [hx, sub_self, zero_add]
      exact div_ne_zero he hs
    · show (c.point_light.position.x - hit.position.x) / _ = 0
      rw [hx, sub_self, zero_div]
  simp only [shadowRay, Vec3.addS]
  rw [Vec3.ext_iff]
  simp only [Vec3.add_x, Vec3.add_y, Vec3.add_z, Vec3.scale_x, Vec3.scale_y, Vec3.scale_z,
    add_right_inj]
  constructor
  · rintro ⟨h1, h2, h3⟩
    by_cases he : c.EPSILON = 0
    · exact Or.inl he
    · right
      have e : ∀ t : F, c.EPSILON = c.EPSILON * t → t = 1 := by
        intro t ht
        have : c.EPSILON * (t - 1) = 0 := by linear_combination -ht
        rcases mul_eq_zero.mp this with h | h
        · exact absurd h he
        · linarith
      ext
      · exact e _ h1
      · exact e _ h2
      · exact e _ h3
  · rintro (h | h)
    · simp [h]
    · simp [h]

/-- Witness for C26: at the hit of the floor (position `(0, 0, 0)`, shading
normal `(0, 0, 1)`) with `EPSILON = 1/1000` the shadow ray starts at
`(1/1000, 1/1000, 1/1000)` and not at `(0, 0, 1/1000)`. -/
theorem shadowRay_offset_witness :
    (iterHit (floorContext 1 8 0)
        (startState (floorContext 1 8 0) (constGen 3435973836))).position = ⟨0, 0, 0⟩
      ∧ (iterHit (floorContext 1 8 0)
        (startState (floorContext 1 8 0) (constGen 3435973836))).shading_normal = ⟨0, 0, 1⟩
      ∧ (shadowRay (floorContext 1 8 0)
          (iterHit (floorContext 1 8 0)
            (startState (floorContext 1 8 0) (constGen 3435973836)))).o
          = ⟨1 / 1000, 1 / 1000, 1 / 1000⟩
      ∧ (shadowRay (floorContext 1 8 0)
          (iterHit (floorContext 1 8 0)
            (startState (floorContext 1 8 0) (constGen 3435973836)))).o
          ≠ (iterHit (floorContext 1 8 0)
              (startState (floorContext 1 8 0) (constGen 3435973836))).position
            + Vec3.scale (floorContext 1 8 0).EPSILON
                (iterHit (floorContext 1 8 0)
                  (startState (floorContext 1 8 0) (constGen 3435973836))).shading_normal :=
  ⟨by with_unfolding_all decide, by with_unfolding_all decide, by with_unfolding_all decide,
   (shadowRay_offset (floorContext 1 8 0)
      (iterHit (floorContext 1 8 0)
        (startState (floorContext 1 8 0) (constGen 3435973836)))).2.2.1.not.mpr
     (by with_unfolding_all decide)⟩

/-- Claim C27: for a `BlinnPhong` node and `dot(wo, n) > 0`, with `wh` the
half-vector built from `cos_theta = pow(u, 1 / (shininess + 1))` (`u` the
second variate): on the reflection branch `sample_wi` returns
`pdf = 1/2 * p_wh / (4 * dot(wo, wh))` with
`p_wh = (shininess + 1) * pow(dot(n, wh), shininess) / (2 pi)`; on the
refraction branch with a layer attached it returns `pdf = 1/2 *` the layer's
own pdf and `weight = (1 - F) *` the layer's own weight, the layer being
sampled after the three variates of the node. -/
theorem BlinnPhong_sample_pdf {F : Type} [LinearOrderedField F] (m : MathOps F)
    (shininess R0 : F) (wi0 wo n : Vec3 F) (p0 : F) (g : Gen) (hwo : 0 < dot wo n) :
    BlinnPhong.cos_theta m shininess g
        = m.pow (randf (randf (F := F) g).2).1 (1 / (shininess + 1))
      ∧ BlinnPhong.sampled_wh m shininess n g
        = normalize m
            (Vec3.scale
                (m.sqrt (max 0 (1 - BlinnPhong.cos_theta m shininess g
                    * BlinnPhong.cos_theta m shininess g))
                  * m.cos (2 * m.pi * (randf g).1))
                (normalize m (perpendicular n))
              + Vec3.scale
                (m.sqrt (max 0 (1 - BlinnPhong.cos_theta m shininess g
                    * BlinnPhong.cos_theta m shininess g))
                  * m.sin (2 * m.pi * (randf g).1))
                (normalize m (cross (normalize m (perpendicular n)) n))
              + Vec3.scale (BlinnPhong.cos_theta m shininess g) n)
      ∧ (BlinnPhong.selector g < (1 / 2 : F) →
          ∀ layer : Option (BRDF F),
            (BRDF.sample_wi m (BRDF.BlinnPhong shininess R0 layer) wi0 wo n p0 g).p
              = 1 / 2 * ((shininess + 1)
                  * m.pow (dot n (BlinnPhong.sampled_wh m shininess n g)) shininess
                  / (2 * m.pi)
                  / (4 * dot wo (BlinnPhong.sampled_wh m shininess n g))))
      ∧ ((1 / 2 : F) ≤ BlinnPhong.selector g →
          ∀ layer : BRDF F,
            (BRDF.sample_wi m (BRDF.BlinnPhong shininess R0 (some layer)) wi0 wo n p0 g).p
              = 1 / 2 * (BRDF.sample_wi m layer wi0 wo n p0 (BlinnPhong.genAfter g)).p
            ∧ (BRDF.sample_wi m (BRDF.BlinnPhong shininess R0 (some layer)) wi0 wo n p0
                g).weight
              = Vec3.scale
                  (1 - fresnel m R0 (BlinnPhong.sampled_wh m shininess n g)
                    (BRDF.sample_wi m layer wi0 wo n p0 (BlinnPhong.genAfter g)).wi)
                  (BRDF.sample_wi m layer wi0 wo n p0 (BlinnPhong.genAfter g)).weight
            ∧ (BRDF.sample_wi m (BRDF.BlinnPhong shininess R0 (some layer)) wi0 wo n p0 g).wi
              = (BRDF.sample_wi m layer wi0 wo n p0 (BlinnPhong.genAfter g)).wi) := by
  refine ⟨rfl, rfl, fun hsel layer => ?_, fun hsel layer => ?_⟩
  · cases layer with
    | none =>
      simp only [BRDF.sample_wi]
      rw [BlinnPhong_sample_wi_reflection m shininess R0 _ _ wi0 wo n p0 g hwo hsel]
      ring
    | some l =>
      simp only [BRDF.sample_wi]
      rw [BlinnPhong_sample_wi_reflection m shininess R0 _ _ wi0 wo n p0 g hwo hsel]
      ring
  · simp only [BRDF.sample_wi]
    rw [BlinnPhong_sample_wi_layer_refraction m shininess R0 _ _ wi0 wo n p0 g hwo hsel]
    exact ⟨by ring, rfl, rfl⟩

/-- Witness for C27: `wo = n = (0, 0, 1)`, a diffuse layer and a generator with
`randf = 4/5`: the refraction branch is taken, the layer's pdf is
`(4/5) / pi` with `pi = 22/7`, and the node returns half of it, `7/55`. -/
theorem BlinnPhong_sample_pdf_witness :
    0 < dot (⟨0, 0, 1⟩ : Vec3 ℚ) ⟨0, 0, 1⟩
      ∧ (1 / 2 : ℚ) ≤ BlinnPhong.selector (constGen 3435973836)
      ∧ (BRDF.sample_wi tableOps (BRDF.Diffuse ⟨1, 1, 1⟩) ⟨0, 0, 0⟩ ⟨0, 0, 1⟩ ⟨0, 0, 1⟩ 0
          (BlinnPhong.genAfter (constGen 3435973836))).p = 14 / 55
      ∧ (BRDF.sample_wi tableOps (BRDF.BlinnPhong 1 0 (some (BRDF.Diffuse ⟨1, 1, 1⟩)))
          ⟨0, 0, 0⟩ ⟨0, 0, 1⟩ ⟨0, 0, 1⟩ 0 (constGen 3435973836)).p = 7 / 55 := by
  refine ⟨by with_unfolding_all decide, by with_unfolding_all decide,
    by with_unfolding_all decide, ?_⟩
  rw [((BlinnPhong_sample_pdf tableOps 1 0 ⟨0, 0, 0⟩ ⟨0, 0, 1⟩ ⟨0, 0, 1⟩ 0
    (constGen 3435973836) (by with_unfolding_all decide)).2.2.2
    (by with_unfolding_all decide) (BRDF.Diffuse ⟨1, 1, 1⟩)).1]
  with_unfolding_all decide

theorem texelIndex_bounds (w h x y : Int) (hx0 : 0 ≤ x) (hx : x < w) (hy0 : 0 ≤ y)
    (hy : y < h) : 0 ≤ texelIndex w x y ∧ texelIndex w x y < w * h := by
  have hw : 0 ≤ w := by omega
  have h1 : 0 ≤ y * w := mul_nonneg hy0 hw
  have h2 : (y + 1) * w ≤ h * w := Int.mul_le_mul_of_nonneg_right (by omega) hw
  simp only [texelIndex]
  constructor
  · omega
  · nlinarith

theorem texelIndex_injective (w x y x' y' : Int) (hx0 : 0 ≤ x) (hx : x < w)
    (hx0' : 0 ≤ x') (hx' : x' < w)
    (h : texelIndex w x y = texelIndex w x' y') : x = x' ∧ y = y' := by
  have hw : 0 ≤ w := by omega
  simp only [texelIndex] at h
  have hy : y = y' := by
    rcases lt_trichotomy y y' with hlt | heq | hgt
    · have h2 : (y + 1) * w ≤ y' * w := Int.mul_le_mul_of_nonneg_right (by omega) hw
      nlinarith
    · exact heq
    · have h2 : (y' + 1) * w ≤ y * w := Int.mul_le_mul_of_nonneg_right (by omega) hw
      nlinarith
  subst hy
  exact ⟨by omega, rfl⟩

theorem getD_set_of_ne {α : Type} (l : List α) (i j : Nat) (v d : α) (h : j ≠ i) :
    (l.set i v).getD j d = l.getD j d := by
  simp only [List.getD_eq_getElem?_getD]
  rw [List.getElem?_set_ne (Ne.symm h)]

/-- Claim C28: for `width, height >= 0` and a buffer of `width * height` texels
(the length `resize` sets), the index map `(x, y) -> y * width + x` on
`0 <= x < width`, `0 <= y < height` takes values in `[0, width * height)` and is
injective.  The step of `tracePaths` for pixel `(x, y)` writes the texel with
that index, from its previous value, the pass-wide `n` and the pixel's colour,
and leaves every other texel unchanged; after the pass every texel has been
blended once with its own colour. -/
theorem texel_ownership {F : Type} [LinearOrderedField F] [FloorRing F]
    (c : Context F) (V P : Mat4 F) (img : Image F) (g : Gen)
    (hw : 0 ≤ img.width) (hh : 0 ≤ img.height)
    (hlen : (img.data.length : Int) = img.width * img.height)
    (hcap : ¬ (((img.number_of_samples : Int) > c.settings.max_paths_per_pixel)
      ∧ (c.settings.max_paths_per_pixel ≠ 0))) :
    (∀ x y : Int, 0 ≤ x → x < img.width → 0 ≤ y → y < img.height →
        0 ≤ texelIndex img.width x y
        ∧ texelIndex img.width x y < img.width * img.height
        ∧ (texelIndex img.width x y).toNat < img.data.length)
      ∧ (∀ x y x' y' : Int, 0 ≤ x → x < img.width → 0 ≤ y → y < img.height →
          0 ≤ x' → x' < img.width → 0 ≤ y' → y' < img.height →
          texelIndex img.width x y = texelIndex img.width x' y' → x = x' ∧ y = y')
      ∧ (∀ (x y : Nat) (acc : List (Vec3 F) × Gen),
          (tracePixel c V P img y acc x).1
            = acc.1.set (texelIndex img.width x y).toNat
                (accumulate img.number_of_samples
                  (acc.1.getD (texelIndex img.width x y).toNat (Vec3.splat 0))
                  (pixelColor c V P img x y acc.2).1)
          ∧ ∀ j : Nat, j ≠ (texelIndex img.width x y).toNat →
              (tracePixel c V P img y acc x).1.getD j (Vec3.splat 0)
                = acc.1.getD j (Vec3.splat 0))
      ∧ (∀ x y : Nat, (x : Int) < img.width → (y : Int) < img.height →
          (tracePaths c V P (img, g)).1.data.getD (texelIndex img.width x y).toNat
              (Vec3.splat 0)
            = accumulate img.number_of_samples
                (img.data.getD (texelIndex img.width x y).toNat (Vec3.splat 0))
                ((passColors c V P img g).getD (texelIndex img.width x y).toNat
                  (Vec3.splat 0)))
      ∧ (tracePaths c V P (img, g)).1.data.length = img.data.length := by
  have hlenN : img.data.length = img.height.toNat * img.width.toNat := by
    obtain ⟨W, hW⟩ := Int.eq_ofNat_of_zero_le hw
    obtain ⟨H, hH⟩ := Int.eq_ofNat_of_zero_le hh
    rw [hW, hH] at hlen ⊢
    simp only [Int.toNat_natCast]
    have : (img.data.length : Int) = ((H * W : Nat) : Int) := by
      rw [hlen]; push_cast; ring
    exact_mod_cast this
  have hb : ∀ x y : Int, 0 ≤ x → x < img.width → 0 ≤ y → y < img.height →
      0 ≤ texelIndex img.width x y
      ∧ texelIndex img.width x y < img.width * img.height
      ∧ (texelIndex img.width x y).toNat < img.data.length := by
    intro x y hx0 hx hy0 hy
    obtain ⟨b0, b1⟩ := texelIndex_bounds img.width img.height x y hx0 hx hy0 hy
    refine ⟨b0, b1, ?_⟩
    omega
  refine ⟨hb, ?_, ?_, ?_, ?_⟩
  · intro x y x' y' hx0 hx _ _ hx0' hx' _ _ h
    exact texelIndex_injective img.width x y x' y' hx0 hx hx0' hx' h
  · intro x y acc
    refine ⟨rfl, fun j hj => ?_⟩
    exact getD_set_of_ne _ _ _ _ _ hj
  · intro x y hx hy
    exact tracePaths_texel c V P img g _ hlenN hcap
      (hb x y (by omega) hx (by omega) hy).2.2
  · obtain ⟨h1, h2, _⟩ := tracePaths_blend c V P img g hlenN hcap
    rw [h1, List.length_zipWith, h2]
    simp

/-- Witness for C28: the one-pixel image holding `(5, 5, 5)` after one sample;
the pass writes texel `0` once, blending it with the pixel's colour
`(1, 1, 1)` into `(3, 3, 3)`. -/
theorem texel_ownership_witness :
    (0 : Int) ≤ (onePixel 1).width ∧ (0 : Int) ≤ (onePixel 1).height
      ∧ (((onePixel 1).data.length : Nat) : Int) = (onePixel 1).width * (onePixel 1).height
      ∧ texelIndex (onePixel 1).width 0 0 = 0
      ∧ (passColors (floorContext 1 8 0) lookDownV lookUpP (onePixel 1)
          (constGen 3435973836)).getD 0 (Vec3.splat 0) = ⟨1, 1, 1⟩
      ∧ (tracePaths (floorContext 1 8 0) lookDownV lookUpP
          (onePixel 1, constGen 3435973836)).1.data.getD 0 (Vec3.splat 0) = ⟨3, 3, 3⟩ := by
  refine ⟨by decide, by decide, by decide, by decide, by with_unfolding_all decide, ?_⟩
  have h := (texel_ownership (floorContext 1 8 0) lookDownV lookUpP (onePixel 1)
    (constGen 3435973836) (by decide) (by decide) (by decide)
    (by with_unfolding_all decide)).2.2.2.1 0 0 (by decide) (by decide)
  have e : (texelIndex (onePixel 1).width ((0 : Nat) : Int) ((0 : Nat) : Int)).toNat = 0 := by
    decide
  rw [e] at h
  rw [h]
  with_unfolding_all decide

theorem normalize_of_unit {F : Type} [LinearOrderedField F] {m : MathOps F} (hm : m.Exact)
    (v : Vec3 F) (hv : dot v v = 1) : normalize m v = v := by
  simp only [normalize, hv, hm.sqrt_one]
  ext <;> simp

theorem normalize_scale_unit {F : Type} [LinearOrderedField F] {m : MathOps F}
    (hm : m.Exact) (a : F) (v : Vec3 F) (ha : 0 < a) (hv : dot v v = 1) :
    normalize m (Vec3.scale a v) = v := by
  have hd : dot (Vec3.scale a v) (Vec3.scale a v) = a * a := by
    simp only [dot] at hv ⊢
    simp only [Vec3.scale_x, Vec3.scale_y, Vec3.scale_z]
    linear_combination (a * a) * hv
  have hs : m.sqrt (dot (Vec3.scale a v) (Vec3.scale a v)) = a :=
    hm.sqrt_sq_eq _ a ha.le hd
  simp only [normalize, hs]
  have ha' : a ≠ 0 := ha.ne'
  ext <;> simp only [Vec3.divS_x, Vec3.divS_y, Vec3.divS_z, Vec3.scale_x, Vec3.scale_y,
    Vec3.scale_z] <;> field_simp

theorem reflect_add {F : Type} [LinearOrderedField F] (wo wh : Vec3 F) :
    (-wo + Vec3.scale (2 * dot wh wo) wh) + wo = Vec3.scale (2 * dot wh wo) wh := by
  ext
  · show -wo.x + (Vec3.scale (2 * dot wh wo) wh).x + wo.x = _
    ring
  · show -wo.y + (Vec3.scale (2 * dot wh wo) wh).y + wo.y = _
    ring
  · show -wo.z + (Vec3.scale (2 * dot wh wo) wh).z + wo.z = _
    ring

theorem reflect_sq {F : Type} [LinearOrderedField F] (wo wh : Vec3 F)
    (hwo : dot wo wo = 1) (hwh : dot wh wh = 1) :
    dot (-wo + Vec3.scale (2 * dot wh wo) wh) (-wo + Vec3.scale (2 * dot wh wo) wh) = 1 := by
  simp only [dot] at hwo hwh ⊢
  show (-wo.x + 2 * (wh.x * wo.x + wh.y * wo.y + wh.z * wo.z) * wh.x)
        * (-wo.x + 2 * (wh.x * wo.x + wh.y * wo.y + wh.z * wo.z) * wh.x)
      + (-wo.y + 2 * (wh.x * wo.x + wh.y * wo.y + wh.z * wo.z) * wh.y)
        * (-wo.y + 2 * (wh.x * wo.x + wh.y * wo.y + wh.z * wo.z) * wh.y)
      + (-wo.z + 2 * (wh.x * wo.x + wh.y * wo.y + wh.z * wo.z) * wh.z)
        * (-wo.z + 2 * (wh.x * wo.x + wh.y * wo.y + wh.z * wo.z) * wh.z) = 1
  linear_combination hwo
    + (4 * (wh.x * wo.x + wh.y * wo.y + wh.z * wo.z) ^ 2) * hwh

theorem reflect_dot {F : Type} [LinearOrderedField F] (wo wh : Vec3 F)
    (hwh : dot wh wh = 1) :
    dot (-wo + Vec3.scale (2 * dot wh wo) wh) wh = dot wo wh := by
  simp only [dot] at hwh ⊢
  show (-wo.x + 2 * (wh.x * wo.x + wh.y * wo.y + wh.z * wo.z) * wh.x) * wh.x
      + (-wo.y + 2 * (wh.x * wo.x + wh.y * wo.y + wh.z * wo.z) * wh.y) * wh.y
      + (-wo.z + 2 * (wh.x * wo.x + wh.y * wo.y + wh.z * wo.z) * wh.z) * wh.z
      = wo.x * wh.x + wo.y * wh.y + wo.z * wh.z
  linear_combination (2 * (wh.x * wo.x + wh.y * wo.y + wh.z * wo.z)) * hwh

/-- Claim C30: over real arithmetic, for unit vectors `wo` and `wh` with
`dot(wo, wh) > 0`, the direction `-wo + 2 * dot(wh, wo) * wh` of the reflection
branch of `BlinnPhong::sample_wi` has length `1` (so the `normalize` applied to
it changes nothing), satisfies `dot(wi, wh) = dot(wo, wh)`, and
`normalize(wi + wo) = wh`.  Hence, whenever `sample_wi` takes the reflection
branch with sampled half-vector `wh`, the half-vector `normalize(wi + wo)` that
`reflection_brdf` recomputes from the returned `wi` is `wh`. -/
theorem reflected_direction_unit {F : Type} [LinearOrderedField F] (m : MathOps F)
    (hm : m.Exact) (wo wh : Vec3 F)
    (hwo : dot wo wo = 1) (hwh : dot wh wh = 1) (hd : 0 < dot wo wh) :
    dot (-wo + Vec3.scale (2 * dot wh wo) wh) (-wo + Vec3.scale (2 * dot wh wo) wh) = 1
      ∧ length m (-wo + Vec3.scale (2 * dot wh wo) wh) = 1
      ∧ normalize m (-wo + Vec3.scale (2 * dot wh wo) wh)
          = -wo + Vec3.scale (2 * dot wh wo) wh
      ∧ dot (-wo + Vec3.scale (2 * dot wh wo) wh) wh = dot wo wh
      ∧ normalize m ((-wo + Vec3.scale (2 * dot wh wo) wh) + wo) = wh
      ∧ (∀ (shininess R0 : F) (layer : Option (BRDF F)) (wi0 n : Vec3 F) (p0 : F) (g : Gen),
          0 < dot wo n → BlinnPhong.selector g < (1 / 2 : F) →
          BlinnPhong.sampled_wh m shininess n g = wh →
          (BRDF.sample_wi m (BRDF.BlinnPhong shininess R0 layer) wi0 wo n p0 g).wi
            = -wo + Vec3.scale (2 * dot wh wo) wh
          ∧ normalize m
              ((BRDF.sample_wi m (BRDF.BlinnPhong shininess R0 layer) wi0 wo n p0 g).wi + wo)
            = wh) := by
  have hsq := reflect_sq wo wh hwo hwh
  have hn := normalize_of_unit hm _ hsq
  have hcomm : dot wh wo = dot wo wh := by simp only [dot]; ring
  have hhalf : normalize m ((-wo + Vec3.scale (2 * dot wh wo) wh) + wo) = wh := by
    rw [reflect_add]
    exact normalize_scale_unit hm _ wh (by rw [hcomm]; linarith) hwh
  refine ⟨hsq, ?_, hn, reflect_dot wo wh hwh, hhalf, ?_⟩
  · simp only [length, hsq, hm.sqrt_one]
  · intro shininess R0 layer wi0 n p0 g hwon hsel hwhs
    have hwi : (BRDF.sample_wi m (BRDF.BlinnPhong shininess R0 layer) wi0 wo n p0 g).wi
        = -wo + Vec3.scale (2 * dot wh wo) wh := by
      cases layer with
      | none =>
        simp only [BRDF.sample_wi]
        rw [BlinnPhong_sample_wi_reflection m shininess R0 _ _ wi0 wo n p0 g hwon hsel]
        simp only [hwhs, hn]
      | some l =>
        simp only [BRDF.sample_wi]
        rw [BlinnPhong_sample_wi_reflection m shininess R0 _ _ wi0 wo n p0 g hwon hsel]
        simp only [hwhs, hn]
    exact ⟨hwi, by rw [hwi]; exact hhalf⟩

/-- Witness for C30, over the reals: `wo = (0, 0, 1)` and `wh = (3/5, 0, 4/5)`
give the unit direction `wi = (24/25, 0, 7/25)` with `dot(wi, wh) = 4/5` and
`normalize(wi + wo) = wh`. -/
theorem reflected_direction_unit_witness :
    let m : MathOps ℝ := MathOps.mk Real.pi Real.sqrt (fun x y => x ^ y) Real.cos Real.sin
      Real.arccos (fun y x => Complex.arg ⟨x, y⟩) 340282346638528859811704183484516925440
    let wo : Vec3 ℝ := ⟨0, 0, 1⟩
    let wh : Vec3 ℝ := ⟨3 / 5, 0, 4 / 5⟩
    dot wo wo = 1 ∧ dot wh wh = 1 ∧ 0 < dot wo wh
      ∧ -wo + Vec3.scale (2 * dot wh wo) wh = ⟨24 / 25, 0, 7 / 25⟩
      ∧ length m (-wo + Vec3.scale (2 * dot wh wo) wh) = 1
      ∧ dot (-wo + Vec3.scale (2 * dot wh wo) wh) wh = 4 / 5
      ∧ normalize m ((-wo + Vec3.scale (2 * dot wh wo) wh) + wo) = wh := by
  intro m wo wh
  have h1 : dot wo wo = 1 := by simp only [dot, wo]; norm_num
  have h2 : dot wh wh = 1 := by simp only [dot, wh]; norm_num
  have h3 : dot wo wh = 4 / 5 := by simp only [dot, wo, wh]; norm_num
  have h4 : 0 < dot wo wh := by rw [h3]; norm_num
  have h := reflected_direction_unit m realOps_exact wo wh h1 h2 h4
  refine ⟨h1, h2, h4, ?_, h.2.1, ?_, h.2.2.2.2.1⟩
  · ext
    · show -(0 : ℝ) + 2 * (3 / 5 * 0 + 0 * 0 + 4 / 5 * 1) * (3 / 5) = 24 / 25
      norm_num
    · show -(0 : ℝ) + 2 * (3 / 5 * 0 + 0 * 0 + 4 / 5 * 1) * 0 = 0
      norm_num
    · show -(1 : ℝ) + 2 * (3 / 5 * 0 + 0 * 0 + 4 / 5 * 1) * (4 / 5) = 7 / 25
      norm_num
  · rw [h.2.2.2.1, h3]

/-! ## The pdf guard of `Li` in IEEE arithmetic -/

theorem FloatValue.half_num {F : Type} [LinearOrderedField F] (v : FloatValue F) (x : F)
    (h : v.half = FloatValue.num x) : ∃ y : F, v = FloatValue.num y ∧ x = y * (1 / 2) := by
  cases v with
  | num y =>
    simp only [FloatValue.half, FloatValue.num.injEq] at h
    exact ⟨y, rfl, h.symm⟩
  | inf s => simp [FloatValue.half] at h
  | nan => simp [FloatValue.half] at h

theorem FloatValue.div_num {F : Type} [LinearOrderedField F] (negZero : Bool) (a b x : F)
    (h : FloatValue.div negZero a b = FloatValue.num x) : b ≠ 0 ∧ x = a / b := by
  unfold FloatValue.div at h
  split_ifs at h with h1 h2
  · simp only [FloatValue.num.injEq] at h
    exact ⟨h1, h.symm⟩

theorem BlinnPhong_sample_pdf_num {F : Type} [LinearOrderedField F] (m : MathOps F)
    (negZero : Bool) (shininess R0 : F) (refl : Vec3 F → Vec3 F → Vec3 F → Vec3 F)
    (wi0 wo n : Vec3 F) (g : Gen)
    (layer_pdf : Option (FloatValue F → Gen → FloatValue F))
    (layer : Option (Vec3 F → Vec3 F → Vec3 F → F → Gen → Sample F))
    (hnone : layer_pdf = none ↔ layer = none)
    (hlayer : ∀ lp samp, layer_pdf = some lp → layer = some samp → ∀ (y : F) (g1 : Gen),
      lp (FloatValue.num 0) g1 = FloatValue.num y → y = (samp wi0 wo n 0 g1).p)
    (x : F)
    (h : BlinnPhong.sample_pdf m negZero shininess layer_pdf wo n (FloatValue.num 0) g
      = FloatValue.num x) :
    x = (BlinnPhong.sample_wi m shininess R0 refl layer wi0 wo n 0 g).p := by
  unfold BlinnPhong.sample_pdf at h
  by_cases hwo : dot wo n ≤ 0
  · simp only [if_pos hwo, FloatValue.num.injEq] at h
    simp only [BlinnPhong.sample_wi, if_pos hwo]
    exact h.symm
  · have hwo' : 0 < dot wo n := not_le.mp hwo
    simp only [if_neg hwo] at h
    by_cases hsel : BlinnPhong.selector (F := F) g < 1 / 2
    · simp only [if_pos hsel] at h
      obtain ⟨y, hy, hx⟩ := FloatValue.half_num _ _ h
      obtain ⟨_, hy2⟩ := FloatValue.div_num _ _ _ _ hy
      rw [BlinnPhong_sample_wi_reflection m shininess R0 refl layer wi0 wo n 0 g hwo' hsel]
      rw [hx, hy2]
    · simp only [if_neg hsel] at h
      have hsel' : (1 / 2 : F) ≤ BlinnPhong.selector g := not_lt.mp hsel
      cases hl : layer with
      | none =>
        have hp : layer_pdf = none := hnone.mpr hl
        rw [hp] at h
        simp only [FloatValue.num.injEq] at h
        rw [BlinnPhong_sample_wi_null_refraction m shininess R0 refl wi0 wo n 0 g hwo' hsel']
        exact h.symm
      | some samp =>
        cases hp : layer_pdf with
        | none => exact absurd (hnone.mp hp) (by rw [hl]; simp)
        | some lp =>
          rw [hp] at h
          simp only at h
          obtain ⟨y, hy, hx⟩ := FloatValue.half_num _ _ h
          have := hlayer lp samp hp hl y _ hy
          rw [BlinnPhong_sample_wi_layer_refraction m shininess R0 refl samp wi0 wo n 0 g
            hwo' hsel']
          rw [hx, this]

theorem materialTree_pdf_num {F : Type} [LinearOrderedField F] (m : MathOps F)
    (negZero : Bool) (mat : Material F) (wi0 wo n : Vec3 F) (p0 : FloatValue F) (p1 : F)
    (g : Gen) (x : F)
    (h : BRDF.sample_pdf m negZero (materialTree mat) wo n p0 g = FloatValue.num x) :
    x = (BRDF.sample_wi m (materialTree mat) wi0 wo n p1 g).p := by
  simp only [materialTree, BRDF.sample_pdf, BRDF.sample_wi] at h ⊢
  split_ifs at h ⊢ with h1 h2
  · exact BlinnPhong_sample_pdf_num m negZero _ _ _ wi0 wo n _ none none (by simp)
      (fun _ _ hp _ => by simp at hp) x h
  · refine BlinnPhong_sample_pdf_num m negZero _ _ _ wi0 wo n _ _ _ (by simp) ?_ x h
    intro lp samp hp hs y g1 hy
    simp only [Option.some.injEq] at hp hs
    subst hp
    subst hs
    simp only [BRDF.sample_pdf, FloatValue.num.injEq] at hy
    simp only [BRDF.sample_wi]
    rw [← hy]
    rfl
  · simp only [FloatValue.num.injEq] at h
    rw [← h]
    rfl

/-- Claim C7, as the code behaves: the test `pdf < EPSILON` of an iteration of
`Li` is evaluated on the IEEE value of the pdf.  When the pdf is an ordinary
number `p`, then `p < EPSILON` makes the iteration execute `return L` with the
`L` accumulated so far, the throughput not being updated, and otherwise
`p >= EPSILON > 0`.  Whenever the division by `pdf` is executed, the pdf is
`>= EPSILON` or it is NaN; and a NaN pdf, which `BlinnPhong::sample_wi`
produces as `0 / 0` when `p_wh = 0` and `dot(wo, wh) = 0`, is not
`< EPSILON`, so it gets past the test and the throughput is divided by it. -/
theorem Li_pdf_guard {F : Type} [LinearOrderedField F] [FloorRing F]
    (c : Context F) (st : LoopState F) (negZero : Bool) (hE : 0 < c.EPSILON) :
    (∀ p : F, iterPdf c negZero st = FloatValue.num p →
        p = (iterSample c st).p
        ∧ (p < c.EPSILON →
            reachesDivision c negZero st = false
            ∧ LiIter c st = Step.ret Exit.pdfTooSmall (iterL c st) (iterSample c st).gen
            ∧ ∀ k : Nat, LiLoop c (k + 1) st = (iterL c st, (iterSample c st).gen))
        ∧ (¬ p < c.EPSILON →
            reachesDivision c negZero st = true ∧ c.EPSILON ≤ p ∧ 0 < p))
      ∧ (reachesDivision c negZero st = true →
          (iterPdf c negZero st).ge c.EPSILON = true ∨ iterPdf c negZero st = FloatValue.nan)
      ∧ (iterPdf c negZero st = FloatValue.nan →
          reachesDivision c negZero st = true
          ∧ (iterPdf c negZero st).ge c.EPSILON = false)
      ∧ (∀ (wo n : Vec3 F) (shininess : F) (g : Gen)
          (layer_pdf : Option (FloatValue F → Gen → FloatValue F)) (p0 : FloatValue F),
          0 < dot wo n → BlinnPhong.selector g < (1 / 2 : F) →
          (shininess + 1)
            * c.ops.pow (dot n (BlinnPhong.sampled_wh c.ops shininess n g)) shininess
            / (2 * c.ops.pi) = 0 →
          dot wo (BlinnPhong.sampled_wh c.ops shininess n g) = 0 →
          BlinnPhong.sample_pdf c.ops negZero shininess layer_pdf wo n p0 g
            = FloatValue.nan) := by
  refine ⟨?_, ?_, ?_, ?_⟩
  · intro p hp
    have e : p = (iterSample c st).p :=
      materialTree_pdf_num c.ops negZero _ c.uninit_wi _ _ _ c.uninit_pdf st.gen p hp
    refine ⟨e, ?_, ?_⟩
    · intro hlt
      have hlt' : (iterSample c st).p < c.EPSILON := by rw [← e]; exact hlt
      have e1 : LiIter c st
          = Step.ret Exit.pdfTooSmall (iterL c st) (iterSample c st).gen := by
        simp only [LiIter, if_pos hlt']
      refine ⟨?_, e1, ?_⟩
      · simp only [reachesDivision, hp, FloatValue.lt, hlt, decide_True, Bool.not_true]
      · intro k
        simp only [LiLoop, e1]
    · intro hge
      refine ⟨?_, not_lt.mp hge, lt_of_lt_of_le hE (not_lt.mp hge)⟩
      simp only [reachesDivision, hp, FloatValue.lt, hge, decide_False, Bool.not_false]
  · intro h
    simp only [reachesDivision] at h
    cases hv : iterPdf c negZero st with
    | num x =>
      left
      rw [hv] at h
      simp only [FloatValue.lt, Bool.not_eq_true', decide_eq_false_iff_not, not_lt] at h
      simp only [FloatValue.ge, decide_eq_true_eq]
      exact h
    | inf s =>
      left
      rw [hv] at h
      simp only [FloatValue.lt, Bool.not_eq_true'] at h
      simp only [FloatValue.ge, h, Bool.not_false]
    | nan => right; rfl
  · intro h
    simp only [reachesDivision, h, FloatValue.lt, FloatValue.ge, Bool.not_false, and_self]
  · intro wo n shininess g layer_pdf p0 hwo hsel hnum hden
    have hwo' : ¬ dot wo n ≤ 0 := not_le.mpr hwo
    simp only [BlinnPhong.sample_pdf, if_neg hwo', if_pos hsel, hnum, hden, mul_zero,
      FloatValue.div, if_true, FloatValue.half]

/-- Witness for C7: on the floor with the fully reflective, non-metallic
material, hit head-on (`wo = n = (0, 0, 1)`), the generator makes the node
sampled the `BlinnPhong` dielectric, its second variate `0` and its third
variate `0 < 1/2`: `cos_theta = 0`, `wh = (-1, 0, 0)`, `p_wh = 0` and
`dot(wo, wh) = 0`, so the pdf is `0 / 0`, NaN.  The test `pdf < EPSILON` is
false and the division is executed, with a pdf that is not `>= EPSILON`. -/
theorem Li_pdf_guard_witness :
    0 < glossContext.EPSILON
      ∧ (iterHit glossContext (startState glossContext zeroCosGen)).wo = ⟨0, 0, 1⟩
      ∧ (iterHit glossContext (startState glossContext zeroCosGen)).shading_normal
          = ⟨0, 0, 1⟩
      ∧ BlinnPhong.sampled_wh tableOps 1 (⟨0, 0, 1⟩ : Vec3 ℚ) (fun i => zeroCosGen (i + 2))
          = ⟨-1, 0, 0⟩
      ∧ iterPdf glossContext false (startState glossContext zeroCosGen) = FloatValue.nan
      ∧ iterPdf glossContext true (startState glossContext zeroCosGen) = FloatValue.nan
      ∧ reachesDivision glossContext false (startState glossContext zeroCosGen) = true
      ∧ (iterPdf glossContext false (startState glossContext zeroCosGen)).ge
          glossContext.EPSILON = false :=
  ⟨by with_unfolding_all decide, by with_unfolding_all decide, by with_unfolding_all decide,
   by with_unfolding_all decide, by with_unfolding_all decide, by with_unfolding_all decide,
   ((Li_pdf_guard glossContext (startState glossContext zeroCosGen) false
      (by with_unfolding_all decide)).2.2.1 (by with_unfolding_all decide)).1,
   ((Li_pdf_guard glossContext (startState glossContext zeroCosGen) false
      (by with_unfolding_all decide)).2.2.1 (by with_unfolding_all decide)).2⟩

end pathtracer
